import Mathlib

/-! # Deduptar: archiver and extractor data paths

A shallow embedding of `tarops/archive.go`, `tarops/extract.go`, `tarops/common.go`
and `tarops/boring.go`.

* File offsets and sizes (`int64` values obtained from `Seek`, `stat` or the tar
  reader) are natural numbers; differences that Go computes in `int` are integers.
* Everything outside the repository (the tar writer, the math library, the kernel's
  answers to system calls) is a field of `Kernel`; the theorems hold for every
  `Kernel`.
* A Go function that may end the process (`log.Fatal*`, a panic) or loop returns a
  `Run`.
-/

namespace Deduptar

/-! ## Constants (`boring.go`) -/

def TAR_BLOCKSIZE : Nat := 512

def FS_PAGESIZE : Nat := 4096

def pax_filler_char : String := "X"

/-- One space, one equals sign, one newline. -/
def pax_header_overhead : Nat := 1 + 1 + 1

def pax_padding_headerkey : String := "comment"

def VerboseMessage : Nat := 0

def WarningMessage : Nat := 1

/-! ## Record types (`archive/tar` typeflag bytes) -/

def TypeReg : Nat := 48

def TypeLink : Nat := 49

def TypeSymlink : Nat := 50

def TypeChar : Nat := 51

def TypeBlock : Nat := 52

def TypeDir : Nat := 53

def TypeFifo : Nat := 54

/-! ## Data model -/

/-- A `time.Time`, seen through its `Unix()` and `Nanosecond()` accessors. -/
structure Time where
  Unix : Int
  Nanosecond : Nat
deriving DecidableEq, Repr

/-- The fields of `tar.Header` that the program reads or writes. -/
structure Header where
  Typeflag : Nat
  Name : String
  Linkname : String
  Size : Nat
  Mode : Nat
  Uid : Nat
  Gid : Nat
  AccessTime : Time
  ModTime : Time
  Devmajor : Nat
  Devminor : Nat
  PAXRecords : List (String × String)
deriving DecidableEq, Repr

/-- Error numbers that the program tells apart, and one for all the others. -/
inductive Errno where
  | EXDEV
  | EPERM
  | ENOENT
  | other (code : Nat)
deriving DecidableEq, Repr

/-- What a call does: return a value, end the process (`log.Fatal*`, `panic`), or
still be running when the fuel of a loop or of the recursion is used up. -/
inductive Run (α : Type) where
  | ret (a : α)
  | exit
  | stuck
deriving DecidableEq, Repr

/-- Sequencing: the continuation runs only if the first call returned. -/
def Run.bind {α β : Type} (r : Run α) (f : α → Run β) : Run β :=
  match r with
  | .ret a => f a
  | .exit => .exit
  | .stuck => .stuck

/-- What a call returned, seen through `f`. -/
def Run.map {α β : Type} (f : α → β) (r : Run α) : Run β :=
  r.bind fun a => .ret (f a)

/-- A run of bytes (the content of a file or of a `bytes.Buffer`): its length and the
byte at each offset. -/
structure Content where
  size : Nat
  byte : Nat → Nat

/-- A system call made on an open file. -/
inductive Syscall where
  | write (offset : Nat) (bytes : Content)
  | ficlonerange (src_offset src_length dest_offset : Nat)
  | copy_file_range (src_offset dst_offset len : Nat)
  | seek_start (offset : Nat)
  | seek_end
  | truncate (len : Nat)

/-- An open `*os.File`: its name, its content, its current offset, and the system
calls made on it so far, oldest first. -/
structure File where
  name : String
  size : Nat
  byte : Nat → Nat
  pos : Nat
  calls : List Syscall

/-- The error types of `boring.go`, and the two kinds of error made elsewhere: a
system-call error as the `os` and `unix` packages return it, and the
`fmt.Errorf(error_writesize, ...)` message. -/
inductive Err where
  | syscall (e : Errno)
  | writesize (verb : String) (path : String) (written : Int) (expected : Int)
  | errorDuringOp (Path : String) (Op : String) (Err : Errno)
  | targetAlreadyExists (Path : String)
  | unhandledRecord (Path : String) (Typeflag : Nat)
deriving DecidableEq, Repr

/-- A non-nil Go `error`: its dynamic type is one of the types above (`T{...}`) or a
pointer to one (`&T{...}`). -/
inductive GoError where
  | value (e : Err)
  | pointer (e : Err)
deriving DecidableEq, Repr

/-- The Go `errors.Is(err, errno)`: none of the error types of this package unwraps,
so only a system-call error can match. -/
def errors_Is (err : GoError) (target : Errno) : Bool :=
  match err with
  | .value (.syscall e) => e == target
  | _ => false

/-- The result of `tar.Writer.WriteHeader` into a fresh buffer: the bytes written
and whether it reported an error. -/
structure Rendered where
  bytes : Content
  ouch : Bool

/-- Everything the archiver takes from outside the repository. -/
structure Kernel where
  /-- The tar writer: `tar.NewWriter(&buf).WriteHeader(header)`. -/
  WriteHeader : Header → Rendered
  /-- The math library: `int(math.Ceil(math.Log10(float64(n))))`. -/
  ceil_log10 : Int → Int
  /-- The answer of `os.OpenFile(name, flags, 0)`; the flag says whether `O_NOATIME` was asked. -/
  OpenFile : String → Bool → Except Errno Content
  /-- Whether writing these bytes at this offset of the archive fails. -/
  write_err : Nat → Content → Option Errno
  /-- Whether `FICLONERANGE` of this source to this archive offset fails. -/
  clone_err : Content → Nat → Option Errno
  /-- The answer of `copy_file_range` for this source, length and archive offset:
  the byte count and the error. -/
  CopyFileRange : Content → Nat → Nat → Int × Option Errno
  /-- Whether `Seek(0, io.SeekCurrent)` fails at this offset. -/
  tell_err : Nat → Option Errno
  /-- Whether a `Seek` fails on an archive of this length. -/
  seek_err : Nat → Option Errno
  /-- Whether `Truncate` of an archive of this length to the new length fails. -/
  truncate_err : Nat → Nat → Option Errno

/-! ## The PAX header padder (`archive.go`) -/

/-- The `for` loops of `pad_tarheader`: recompute the width until it is stable. -/
def width_loop (next : Int → Int) : Nat → Int → Option Int
  | 0, _ => none
  | fuel + 1, width =>
    let with_length := next width
    if width = with_length then some width else width_loop next fuel with_length

/-- The Go `strings.Repeat`. -/
def strings_Repeat (s : String) (count : Nat) : String :=
  String.join (List.replicate count s)

/-- The result of `pad_tarheader`: `header_growth`, the bytes of `header_buffer`, and
the header as the call leaves it (the caller's header is modified in place). -/
structure Padded where
  header_growth : Int
  header_buffer : Content
  header : Header

def pad_tarheader (k : Kernel) (fuel : Nat) (header : Header) (header_offset : Nat) :
    Run Padded :=
  let pristine := k.WriteHeader header
  if pristine.ouch then .exit else
  let padout_size := FS_PAGESIZE - ((header_offset + pristine.bytes.size) % FS_PAGESIZE)
  if padout_size = 0 then .ret ⟨0, pristine.bytes, header⟩ else
  let header1 := { header with PAXRecords := [(pax_padding_headerkey, pax_filler_char)] }
  let padded := k.WriteHeader header1
  if padded.ouch then .exit else
  let paxed_size := padded.bytes.size
  let left_to_pad := FS_PAGESIZE - ((header_offset + paxed_size) % FS_PAGESIZE)
  if left_to_pad = 0 then
    .ret ⟨(padded.bytes.size : Int) - pristine.bytes.size, padded.bytes, header1⟩
  else
  let current_pax_header_and_value_length : Nat :=
    pax_header_overhead + pax_padding_headerkey.utf8ByteSize + pax_filler_char.utf8ByteSize
  match width_loop (fun w => k.ceil_log10 (w + current_pax_header_and_value_length)) fuel 0 with
  | none => .stuck
  | some current_pax_lengthfield_width =>
  match width_loop (fun _ => k.ceil_log10 (current_pax_lengthfield_width + left_to_pad
      + pax_header_overhead + pax_padding_headerkey.utf8ByteSize)) fuel 0 with
  | none => .stuck
  | some projected_pax_lengthfield_width =>
  let adjusted_to_pad : Int :=
    left_to_pad - (projected_pax_lengthfield_width - current_pax_lengthfield_width)
  -- strings.Repeat panics on a negative count
  if 1 + adjusted_to_pad < 0 then .exit else
  let header2 :=
    { header1 with PAXRecords :=
        [(pax_padding_headerkey, strings_Repeat "X" (1 + adjusted_to_pad).toNat)] }
  let repadded := k.WriteHeader header2
  if repadded.ouch then .exit else
  if padout_size + pristine.bytes.size ≠ repadded.bytes.size then .exit else
  .ret ⟨(repadded.bytes.size : Int) - pristine.bytes.size, repadded.bytes, header2⟩

/-! ## File primitives (`common.go` and the `os` package) -/

/-- `tell` panics when the seek fails. -/
def tell (k : Kernel) (infile : File) : Run Nat :=
  match k.tell_err infile.pos with
  | some _ => .exit
  | none => .ret infile.pos

/-- `buf.WriteTo(file)`: an empty buffer makes no call; a failing write leaves the
file as it was. -/
def File.WriteTo (k : Kernel) (f : File) (buf : Content) : File × Option GoError :=
  if buf.size = 0 then (f, none) else
  let logged := { f with calls := f.calls ++ [Syscall.write f.pos buf] }
  match k.write_err f.pos buf with
  | some e => (logged, some (.value (.syscall e)))
  | none =>
    ({ logged with
        size := max f.size (f.pos + buf.size)
        byte := fun i =>
          if f.pos ≤ i ∧ i < f.pos + buf.size then buf.byte (i - f.pos) else f.byte i
        pos := f.pos + buf.size }, none)

/-- `file.Seek(0, io.SeekEnd)`: the new offset, which is the file's length. -/
def File.SeekEnd (k : Kernel) (f : File) : File × Except Errno Nat :=
  let logged := { f with calls := f.calls ++ [Syscall.seek_end] }
  match k.seek_err f.size with
  | some e => (logged, .error e)
  | none => ({ logged with pos := f.size }, .ok f.size)

/-- `file.Seek(offset, io.SeekStart)`. -/
def File.SeekStart (k : Kernel) (f : File) (offset : Nat) : File × Option Errno :=
  let logged := { f with calls := f.calls ++ [Syscall.seek_start offset] }
  match k.seek_err f.size with
  | some e => (logged, some e)
  | none => ({ logged with pos := offset }, none)

/-- `file.Truncate(len)`: bytes beyond the old length read as zero. -/
def File.Truncate (k : Kernel) (f : File) (len : Nat) : File × Option Errno :=
  let logged := { f with calls := f.calls ++ [Syscall.truncate len] }
  match k.truncate_err f.size len with
  | some e => (logged, some e)
  | none =>
    ({ logged with
        size := len
        byte := fun i => if i < len ∧ i < f.size then f.byte i else 0 }, none)

/-! ## Tar primitives (`archive.go`) -/

def pad512 (k : Kernel) (thefile : File) (len : Nat) : File × Option GoError :=
  let measured : File × Except Errno Nat :=
    if len = 0 then thefile.SeekEnd k else (thefile, .ok len)
  match measured.2 with
  | .error err => (measured.1, some (.value (.errorDuringOp thefile.name "seek()" err)))
  | .ok len =>
    let overboundary := len % TAR_BLOCKSIZE
    let truncated : File × Option Errno :=
      if overboundary > 0 then
        let padding_required := TAR_BLOCKSIZE - overboundary
        measured.1.Truncate k (len + padding_required)
      else (measured.1, none)
    match truncated.2 with
    | some err => (truncated.1, some (.value (.errorDuringOp thefile.name "ftruncate()" err)))
    | none =>
      let sought := truncated.1.SeekEnd k
      match sought.2 with
      | .error err => (sought.1, some (.value (.errorDuringOp thefile.name "seek()" err)))
      | .ok _ => (sought.1, none)

def finalize_tar (k : Kernel) (outfile : File) : File × Option GoError :=
  let sought := outfile.SeekEnd k
  match sought.2 with
  | .error abort_err =>
    (sought.1, some (.value (.errorDuringOp outfile.name "seek()" abort_err)))
  | .ok filelen =>
    let truncated := sought.1.Truncate k (filelen + 2 * TAR_BLOCKSIZE)
    match truncated.2 with
    | some abort_err =>
      (truncated.1, some (.value (.errorDuringOp outfile.name "truncate()" abort_err)))
    | none => (truncated.1, none)

/-! ## Header and body emission (`archive.go`) -/

/-- `FICLONERANGE` with `Src_offset = 0` and `Src_length = 0` shares the whole source
into the archive at `pos`. The result of `pad512` is dropped, as in the source. -/
def ficlone_into_archive (k : Kernel) (srcfile : Content) (archive : File) (header : Header) :
    Run (File × Option GoError) :=
  (tell k archive).bind fun pos =>
  let logged := { archive with calls := archive.calls ++ [Syscall.ficlonerange 0 0 pos] }
  match k.clone_err srcfile pos with
  | some clone_err => .ret (logged, some (.value (.syscall clone_err)))
  | none =>
    let cloned : File :=
      { logged with
          size := max archive.size (pos + srcfile.size)
          byte := fun i =>
            if pos ≤ i ∧ i < pos + srcfile.size then srcfile.byte (i - pos) else archive.byte i }
    let sought := cloned.SeekEnd k
    let newpos : Nat := match sought.2 with
      | .ok n => n
      | .error _ => 0
    let written : Int := (newpos : Int) - pos
    if written ≠ header.Size then
      .ret (sought.1, some (.value (.writesize "reading" header.Name written header.Size)))
    else
      .ret ((pad512 k sought.1 newpos).1, none)

/-- The kernel advances `pos` by the bytes it copied, so on the last line `pos` is
the offset behind the body. -/
def copyrange_into_archive (k : Kernel) (srcfile : Content) (tarfile : File) (header : Header) :
    Run (File × Option GoError) :=
  (tell k tarfile).bind fun pos =>
  let answer := k.CopyFileRange srcfile header.Size pos
  let written := answer.1
  let copied : File :=
    { tarfile with
        calls := tarfile.calls ++ [Syscall.copy_file_range 0 pos header.Size]
        size := if written > 0 then max tarfile.size (pos + written.toNat) else tarfile.size
        byte := fun i =>
          if pos ≤ i ∧ i < pos + written.toNat then srcfile.byte (i - pos) else tarfile.byte i }
  match answer.2 with
  | some copy_err => .ret (copied, some (.value (.errorDuringOp header.Name "copy_file_range()" copy_err)))
  | none =>
    if written ≠ header.Size then
      .ret (copied, some (.value (.writesize "writing" header.Name written header.Size)))
    else
      .ret (pad512 k copied (pos + written.toNat))

/-- The result of `tarwrite`, and the archive as the call leaves it. -/
structure Written where
  was_cloned : Bool
  abort_err : Option GoError
  tarfile : File

/-- `log.Fatalln` prints and ends the process. -/
def log_Fatalln : Run Unit := .exit

/-- The lines of `tarwrite` that follow `log.Fatalln(ficlone_err)`. -/
def tarwrite_after_Fatalln (k : Kernel) (infile : Content) (tarfile : File) (header : Header)
    (pos_header : Nat) (header_growth : Int) (pristine_header_buf : Content)
    (ficlone_err : GoError) : Run Written :=
  if errors_Is ficlone_err .EXDEV then
    let rolled_back : File × Option GoError :=
      if header_growth > 0 then
        ((((tarfile.SeekStart k pos_header).1).Truncate k pos_header).1).WriteTo k
          pristine_header_buf
      else (tarfile, none)
    match rolled_back.2 with
    | some abort_err => .ret ⟨false, some abort_err, rolled_back.1⟩
    | none =>
      (copyrange_into_archive k infile rolled_back.1 header).bind fun r =>
      .ret ⟨false, r.2, r.1⟩
  else .ret ⟨false, none, tarfile⟩

/-- The part of `tarwrite` that follows the opening of the source file. -/
def tarwrite_body (k : Kernel) (fuel : Nat) (infile : Content) (tarfile : File) (header : Header)
    (pos_header : Nat) (pristine_header_buf : Content) : Run Written :=
  (pad_tarheader k fuel header pos_header).bind fun padded =>
  if padded.header_growth > header.Size then
    let wrote := tarfile.WriteTo k pristine_header_buf
    match wrote.2 with
    | some abort_err => .ret ⟨false, some abort_err, wrote.1⟩
    | none =>
      (copyrange_into_archive k infile wrote.1 padded.header).bind fun r =>
      .ret ⟨false, r.2, r.1⟩
  else
    let wrote := tarfile.WriteTo k padded.header_buffer
    match wrote.2 with
    | some abort_err => .ret ⟨false, some abort_err, wrote.1⟩
    | none =>
      (ficlone_into_archive k infile wrote.1 padded.header).bind fun r =>
      match r.2 with
      | some ficlone_err =>
        log_Fatalln.bind fun _ =>
        tarwrite_after_Fatalln k infile r.1 padded.header pos_header padded.header_growth
          pristine_header_buf ficlone_err
      | none => .ret ⟨true, none, r.1⟩

def tarwrite (k : Kernel) (fuel : Nat) (tarfile : File) (header : Header) : Run Written :=
  (tell k tarfile).bind fun pos_header =>
  let pristine_header_buf := (k.WriteHeader header).bytes
  if header.Typeflag ≠ TypeReg ∨ header.Size = 0 then
    let w := tarfile.WriteTo k pristine_header_buf
    .ret ⟨false, w.2, w.1⟩
  else
  match k.OpenFile header.Name true with
  | .ok infile => tarwrite_body k fuel infile tarfile header pos_header pristine_header_buf
  | .error abort_err =>
    if abort_err ≠ .EPERM then .ret ⟨false, some (.value (.syscall abort_err)), tarfile⟩ else
    match k.OpenFile header.Name false with
    | .error abort_err => .ret ⟨false, some (.value (.syscall abort_err)), tarfile⟩
    | .ok infile => tarwrite_body k fuel infile tarfile header pos_header pristine_header_buf

/-! ## The extractor (`extract.go`) -/

/-- A `unix.Timeval`. -/
structure Timeval where
  Sec : Int
  Usec : Int
deriving DecidableEq, Repr

/-- The flag and mode bits of `golang.org/x/sys/unix` on linux/amd64. -/
def O_WRONLY : Nat := 0x1

def O_CREATE : Nat := 0x40

def O_EXCL : Nat := 0x80

def O_NONBLOCK : Nat := 0x800

def O_LARGEFILE : Nat := 0x0

def O_DIRECTORY : Nat := 0x10000

def O_PATH : Nat := 0x200000

def AT_SYMLINK_NOFOLLOW : Nat := 0x100

def S_IFBLK : Nat := 0x6000

def S_IFCHR : Nat := 0x2000

/-- The descriptor `unix.AT_FDCWD`. -/
def AT_FDCWD : Int := -100

/-- A system call of the extractor, with its arguments. -/
inductive XCall where
  | openat2 (dirfd : Int) (path : String)
  | mkdirat (dirfd : Int) (name : String) (mode : Nat)
  | fstatat (dirfd : Int) (name : String) (flags : Nat)
  | openat (dirfd : Int) (name : String) (flags : Nat) (mode : Nat)
  | ficlonerange (dest_fd : Int) (src_offset src_length dest_offset : Nat)
  | copy_file_range (src_offset : Nat) (dst_fd : Int) (dst_offset : Nat) (len : Nat)
  | fsync (fd : Int)
  | symlinkat (target : String) (dirfd : Int) (name : String)
  | mknodat (dirfd : Int) (name : String) (mode : Nat) (dev : Nat)
  | mkfifoat (dirfd : Int) (name : String) (mode : Nat)
  | linkat (olddirfd : Int) (oldname : String) (newdirfd : Int) (newname : String)
  | fchownat (dirfd : Int) (name : String) (uid gid : Nat)
  | lchown (path : String) (uid gid : Nat)
  | lutimes (path : String) (atime mtime : Timeval)
  | fchmod (fd : Int) (mode : Nat)
  | fchown (fd : Int) (uid gid : Nat)
  | futimes (fd : Int) (atime mtime : Timeval)
  | close (fd : Int)
deriving DecidableEq, Repr

/-- What the extractor takes from outside the repository: the kernel's answer to a
system call, which may depend on all the calls made before it (the last element of the
list is the call being answered; the value is the new descriptor or the byte count),
and the path functions of `path/filepath`. -/
structure XKernel where
  answer : List XCall → Except Errno Int
  Dir : String → String
  Base : String → String
  Clean : String → String
  Join : String → String → String

/-- A `ProgressMessage`. -/
structure ProgressMessage where
  type : Nat
  Message : String
deriving DecidableEq, Repr

/-- The state of one extraction: the system calls made so far (oldest first), the
bytes of the files written through each descriptor, the directory timestamps, and
the messages published so far. -/
structure X where
  calls : List XCall
  files : Int → Nat → Nat
  dir_timestamps : String → Option (Timeval × Timeval)
  messages : List ProgressMessage

/-- Make a system call: log it and take the kernel's answer. -/
def X.call (k : XKernel) (x : X) (c : XCall) : X × Except Errno Int :=
  ({ x with calls := x.calls ++ [c] }, k.answer (x.calls ++ [c]))

/-- The error of an answer, `nil` when the call succeeded. -/
def errno_of (r : Except Errno Int) : Option Errno :=
  match r with
  | .ok _ => none
  | .error e => some e

/-- The value of an answer; a failed call returns -1. -/
def value_of (r : Except Errno Int) : Int :=
  match r with
  | .ok v => v
  | .error _ => -1

/-- `copy_file_range` from the archive, whose bytes are `archive`: the bytes the
kernel reports as copied arrive in the target at `dst_offset`. The function returns
an error when the count is not `len` or the call failed. -/
def copyrange_from_archive (k : XKernel) (archive : Content) (x : X) (src_offset : Nat)
    (len : Nat) (dst_fd : Int) (dst_offset : Nat) (full_path : String) : X × Option GoError :=
  let r := x.call k (.copy_file_range src_offset dst_fd dst_offset len)
  let written := value_of r.2
  let copied : X :=
    { r.1 with files := fun fd i =>
        if fd = dst_fd ∧ dst_offset ≤ i ∧ i < dst_offset + written.toNat then
          archive.byte (src_offset + (i - dst_offset))
        else r.1.files fd i }
  if written ≠ len then
    (copied, some (.value (.writesize "writing" full_path written len)))
  else
    match errno_of r.2 with
    | some copy_err =>
      (copied, some (.value (.errorDuringOp full_path "copy_file_range()" copy_err)))
    | none => (copied, none)

/-- The result of `getdirhandle`. When the inner call fails, the function returns
its own `dirhandle` and `err`, which are those of the failed `openat2`. -/
structure Dirhandle where
  dirhandle : Int
  err : Option GoError

def getdirhandle (k : XKernel) : Nat → X → Int → String → Run (X × Dirhandle)
  | 0, _, _, _ => .stuck
  | fuel + 1, x, basedir_handle, path =>
    let opened := x.call k (.openat2 basedir_handle path)
    let dirhandle := value_of opened.2
    match errno_of opened.2 with
    | none => .ret (opened.1, ⟨dirhandle, none⟩)
    | some err =>
      if err = .ENOENT then
        let itsparent := k.Dir path
        let itsname := k.Base path
        (getdirhandle k fuel opened.1 basedir_handle itsparent).bind fun inner =>
        match inner.2.err with
        | some _ => .ret (inner.1, ⟨dirhandle, some (.value (.syscall err))⟩)
        | none =>
          let made := inner.1.call k (.mkdirat inner.2.dirhandle itsname 0o777)
          match errno_of made.2 with
          | some mkdir_err =>
            .ret (made.1, ⟨dirhandle, some (.value (.errorDuringOp path "mkdirat()" mkdir_err))⟩)
          | none => getdirhandle k fuel made.1 basedir_handle path
      else .ret (opened.1, ⟨dirhandle, some (.value (.errorDuringOp path "openat2()" err))⟩)

def makedev (maj : Nat) (min : Nat) : Nat :=
  ((min &&& 0xff) ||| ((maj &&& 0xfff) <<< 8) |||
    (((min - min % 0x100) <<< 12) % 2 ^ 64) |||
    (((maj - maj % 0x1000) <<< 32) % 2 ^ 64)) % 2 ^ 64

/-- `FICLONERANGE` from the archive into `dest_fd`: on success the target shares the
archive's bytes from `src_offset` on, `src_length` of them, or all up to the end of the
archive when `src_length` is 0. -/
def clone_from_archive (k : XKernel) (archive : Content) (x : X) (dest_fd : Int)
    (src_offset src_length dest_offset : Nat) : X × Option Errno :=
  let r := x.call k (.ficlonerange dest_fd src_offset src_length dest_offset)
  match errno_of r.2 with
  | some clone_err => (r.1, some clone_err)
  | none =>
    let length := if src_length = 0 then archive.size - src_offset else src_length
    ({ r.1 with files := fun fd i =>
        if fd = dest_fd ∧ dest_offset ≤ i ∧ i < dest_offset + length then
          archive.byte (src_offset + (i - dest_offset))
        else r.1.files fd i }, none)

/-- What the type switch of `extract_one` leaves behind. -/
structure Created where
  x : X
  outfile_handle : Int
  extra_openflags : Nat
  was_cloned : Bool
  err : Option GoError

/-- The `tar.TypeReg` case of `extract_one` after the `openat`: the payload. `tar_pos`
is what `tell(tarfile)` reports, `none` when that seek fails and `tell` panics. The
results of `copyrange_from_archive` and of `Fsync` are dropped, as in the source. -/
def extract_payload (k : XKernel) (archive : Content) (x : X) (outfile_handle : Int)
    (full_path : String) (header : Header) (tar_pos : Option Nat) : Run Created :=
  match tar_pos with
  | none => .exit
  | some tar_pos =>
    let done : X × Bool × Option GoError :=
      if tar_pos % FS_PAGESIZE = 0 then
        let page_spill := header.Size % FS_PAGESIZE
        let cloned := clone_from_archive k archive x outfile_handle tar_pos
          (header.Size - page_spill) 0
        match cloned.2 with
        | some clone_err =>
          if clone_err = .EXDEV then
            ((copyrange_from_archive k archive cloned.1 tar_pos header.Size outfile_handle 0
              full_path).1, false, none)
          else
            (cloned.1, false, some (.value (.errorDuringOp full_path "ficlone" clone_err)))
        | none =>
          if page_spill > 0 then
            ((copyrange_from_archive k archive cloned.1 tar_pos page_spill outfile_handle
              (header.Size - page_spill) full_path).1, true, none)
          else (cloned.1, true, none)
      else
        ((copyrange_from_archive k archive x tar_pos header.Size outfile_handle 0
          full_path).1, false, none)
    match done.2.2 with
    | some err => .ret ⟨done.1, outfile_handle, 0, done.2.1, some err⟩
    | none => .ret ⟨(done.1.call k (.fsync outfile_handle)).1, outfile_handle, 0, done.2.1, none⟩

/-- The type switch of `extract_one`. -/
def extract_create (k : XKernel) (fuel : Nat) (archive : Content) (x : X) (extractdir_fd : Int)
    (destfile_dirhandle : Int) (thing_basename : String) (full_path : String) (header : Header)
    (tar_pos : Option Nat) : Run Created :=
  if header.Typeflag = TypeReg then
    let opened := x.call k (.openat destfile_dirhandle thing_basename
      (O_EXCL ||| O_CREATE ||| O_WRONLY ||| O_LARGEFILE ||| AT_SYMLINK_NOFOLLOW)
      (header.Mode % 2 ^ 32))
    match errno_of opened.2 with
    | some openat_err =>
      .ret ⟨opened.1, value_of opened.2, 0, false,
        some (.value (.errorDuringOp full_path "openat()" openat_err))⟩
    | none => extract_payload k archive opened.1 (value_of opened.2) full_path header tar_pos
  else if header.Typeflag = TypeDir then
    let made := x.call k (.mkdirat destfile_dirhandle thing_basename (header.Mode % 2 ^ 32))
    match errno_of made.2 with
    | some err => .ret ⟨made.1, 0, 0, false, some (.value (.errorDuringOp full_path "mkdirat()" err))⟩
    | none => .ret ⟨made.1, 0, O_DIRECTORY, false, none⟩
  else if header.Typeflag = TypeSymlink then
    let made := x.call k (.symlinkat header.Linkname destfile_dirhandle thing_basename)
    match errno_of made.2 with
    | some err =>
      .ret ⟨made.1, 0, 0, false, some (.value (.errorDuringOp full_path "symlinkat()" err))⟩
    | none => .ret ⟨made.1, 0, 0, false, none⟩
  else if header.Typeflag = TypeBlock ∨ header.Typeflag = TypeChar then
    let mode := header.Mode % 2 ^ 32
    let mode := if header.Typeflag = TypeBlock then mode ||| S_IFBLK else mode ||| S_IFCHR
    let made := x.call k (.mknodat destfile_dirhandle thing_basename mode
      (makedev (header.Devmajor % 2 ^ 64) (header.Devminor % 2 ^ 64)))
    match errno_of made.2 with
    | some err =>
      .ret ⟨made.1, 0, 0, false, some (.pointer (.errorDuringOp full_path "mknodat()" err))⟩
    | none => .ret ⟨made.1, 0, 0, false, none⟩
  else if header.Typeflag = TypeFifo then
    let made := x.call k (.mkfifoat destfile_dirhandle thing_basename (header.Mode % 2 ^ 32))
    match errno_of made.2 with
    | some err =>
      .ret ⟨made.1, 0, 0, false, some (.value (.errorDuringOp full_path "mkfifoat()" err))⟩
    | none => .ret ⟨made.1, 0, O_NONBLOCK, false, none⟩
  else if header.Typeflag = TypeLink then
    (getdirhandle k fuel x extractdir_fd (k.Dir (k.Clean header.Linkname))).bind fun got =>
    match got.2.err with
    | some abort_err => .ret ⟨got.1, 0, 0, false, some abort_err⟩
    | none =>
      let made := got.1.call k (.linkat got.2.dirhandle (k.Base header.Linkname)
        destfile_dirhandle thing_basename)
      match errno_of made.2 with
      | some linkat_err =>
        .ret ⟨made.1, 0, 0, false, some (.value (.errorDuringOp full_path "linkat()" linkat_err))⟩
      | none => .ret ⟨made.1, 0, 0, false, none⟩
  else
    .ret ⟨x, 0, 0, false, some (.pointer (.unhandledRecord full_path header.Typeflag))⟩

/-- The pair that `extract_one` builds from the header's times. -/
def timestamp (header : Header) : Timeval × Timeval :=
  (⟨header.AccessTime.Unix, header.AccessTime.Nanosecond⟩,
   ⟨header.ModTime.Unix, header.ModTime.Nanosecond⟩)

/-- The result of `extract_one`. -/
structure Extracted where
  was_cloned : Bool
  abort_err : Option GoError
deriving DecidableEq, Repr

/-- The part of `extract_one` behind the type switch: ownership, mode and times, the
directory timestamps, and the closing of the handles. The results of `Fchownat`,
`Lutimes`, `Futimes` and `Close` are dropped, as in the source. -/
def extract_adorn (k : XKernel) (c : Created) (destfile_dirhandle : Int)
    (thing_basename : String) (full_path : String) (header : Header) (same_owner : Bool) :
    X × Extracted :=
  let ts := timestamp header
  let adorned : X × Option GoError :=
    if header.Typeflag = TypeSymlink then
      let owned : X × Option GoError :=
        if same_owner then
          let x1 := (c.x.call k (.fchownat destfile_dirhandle thing_basename header.Uid
            header.Gid)).1
          let r := x1.call k (.lchown full_path header.Uid header.Gid)
          match errno_of r.2 with
          | some err => (r.1, some (.value (.errorDuringOp full_path "chown()" err)))
          | none => (r.1, none)
        else (c.x, none)
      match owned.2 with
      | some err => (owned.1, some err)
      | none => ((owned.1.call k (.lutimes full_path ts.1 ts.2)).1, none)
    else
      let reopened : X × Int × Option GoError :=
        if c.outfile_handle = 0 then
          let r := c.x.call k (.openat destfile_dirhandle thing_basename
            (AT_SYMLINK_NOFOLLOW ||| c.extra_openflags) 0)
          match errno_of r.2 with
          | some openat_err =>
            (r.1, value_of r.2, some (.value (.errorDuringOp full_path "reopening" openat_err)))
          | none => (r.1, value_of r.2, none)
        else (c.x, c.outfile_handle, none)
      match reopened.2.2 with
      | some err => (reopened.1, some err)
      | none =>
        let outfile_handle := reopened.2.1
        let r := reopened.1.call k (.fchmod outfile_handle (header.Mode % 2 ^ 32))
        match errno_of r.2 with
        | some err => (r.1, some (.value (.errorDuringOp full_path "fchmod()" err)))
        | none =>
          let owned : X × Option GoError :=
            if same_owner then
              let r2 := r.1.call k (.fchown outfile_handle header.Uid header.Gid)
              match errno_of r2.2 with
              | some err => (r2.1, some (.value (.errorDuringOp full_path "fchown()" err)))
              | none => (r2.1, none)
            else (r.1, none)
          match owned.2 with
          | some err => (owned.1, some err)
          | none =>
            let x3 := (owned.1.call k (.futimes outfile_handle ts.1 ts.2)).1
            ((x3.call k (.close outfile_handle)).1, none)
  match adorned.2 with
  | some err => (adorned.1, ⟨c.was_cloned, some err⟩)
  | none =>
    let recorded : X :=
      if header.Typeflag = TypeDir then
        { adorned.1 with dir_timestamps := fun path =>
            if path = full_path then some ts else adorned.1.dir_timestamps path }
      else
        match adorned.1.dir_timestamps (k.Dir full_path) with
        | some parent_dir_timestamps =>
          (adorned.1.call k (.futimes destfile_dirhandle parent_dir_timestamps.1
            parent_dir_timestamps.2)).1
        | none => adorned.1
    ((recorded.call k (.close destfile_dirhandle)).1, ⟨c.was_cloned, none⟩)

def extract_one (k : XKernel) (fuel : Nat) (archive : Content) (x : X) (extractdir_fd : Int)
    (full_path : String) (header : Header) (tar_pos : Option Nat) (same_owner : Bool) :
    Run (X × Extracted) :=
  (getdirhandle k fuel x extractdir_fd (k.Dir (k.Clean header.Name))).bind fun got =>
  match got.2.err with
  | some abort_err => .ret (got.1, ⟨false, some abort_err⟩)
  | none =>
    let destfile_dirhandle := got.2.dirhandle
    let thing_basename := k.Base header.Name
    let stat := got.1.call k (.fstatat destfile_dirhandle thing_basename AT_SYMLINK_NOFOLLOW)
    match errno_of stat.2 with
    | none => .ret (stat.1, ⟨false, some (.value (.targetAlreadyExists full_path))⟩)
    | some staterr =>
      if staterr ≠ .ENOENT then
        .ret (stat.1, ⟨false, some (.value (.errorDuringOp full_path "stat()" staterr))⟩)
      else
        (extract_create k fuel archive stat.1 extractdir_fd destfile_dirhandle thing_basename
          full_path header tar_pos).bind fun c =>
        match c.err with
        | some err => .ret (c.x, ⟨c.was_cloned, some err⟩)
        | none =>
          .ret (extract_adorn k c destfile_dirhandle thing_basename full_path header same_owner)

/-! ## The extraction loop (`extract.go`, `common.go`, `boring.go`) -/

/-- The Go `string(typeflag)`. -/
def string_of_byte (b : Nat) : String := String.singleton (Char.ofNat b)

/-- The `Error()` methods of `boring.go`; the text of a system-call error and of the
`error_writesize` message is not modelled further. -/
def Err.Error : Err → String
  | .unhandledRecord Path Typeflag =>
    "Unhandled typeflag '" ++ string_of_byte Typeflag ++ "' for '" ++ Path ++ "'"
  | .targetAlreadyExists Path => "Target already exists: '" ++ Path ++ "'"
  | .errorDuringOp Path Op _ => "During " ++ Op ++ " of '" ++ Path ++ "': errno"
  | .syscall _ => "errno"
  | .writesize verb path _ _ => "While " ++ verb ++ " file '" ++ path ++ "'"

/-- The Go `errors.As(err, &target)` with `target` of the struct type `unhandledRecord`:
it matches an error whose dynamic type is that struct type. A `*unhandledRecord` is not
assignable to it, has no `As` method and does not unwrap, so it does not match. -/
def errors_As_unhandledRecord (err : Option GoError) : Option Err :=
  match err with
  | some (.value (.unhandledRecord Path Typeflag)) => some (.unhandledRecord Path Typeflag)
  | _ => none

/-- The Go `errors.As(err, &target)` with `target` of the struct type
`targetAlreadyExists`. -/
def errors_As_targetAlreadyExists (err : Option GoError) : Option Err :=
  match err with
  | some (.value (.targetAlreadyExists Path)) => some (.targetAlreadyExists Path)
  | _ => none

/-- The table `tar_typemap`, and the typeflag itself for a type it does not list. -/
def humanize_tar_recordtype (typeflag : Nat) : String :=
  if typeflag = TypeBlock then "blockdev"
  else if typeflag = TypeChar then "chardev"
  else if typeflag = TypeDir then "directory"
  else if typeflag = TypeFifo then "fifo"
  else if typeflag = TypeLink then "hardlink"
  else if typeflag = TypeReg then "file"
  else if typeflag = TypeSymlink then "symlink"
  else string_of_byte typeflag

/-- `send_message`: a `nil` channel drops the message. -/
def send_message (channel : Bool) (published : List ProgressMessage) (messagetype : Nat)
    (message : String) : List ProgressMessage :=
  if channel then published ++ [⟨messagetype, message⟩] else published

def warning_message (channel : Bool) (published : List ProgressMessage) (message : String) :
    List ProgressMessage :=
  send_message channel published WarningMessage message

def verbose_message (channel : Bool) (published : List ProgressMessage) (message : String) :
    List ProgressMessage :=
  send_message channel published VerboseMessage message

/-- The Go `fmt.Sprintf("%-15s\t%s", recordtype, name)`: the type, padded with blanks to
15 characters, a tab, the name. -/
def verbose_line (recordtype : String) (name : String) : String :=
  recordtype ++ String.mk (List.replicate (15 - recordtype.length) ' ') ++ "\t" ++ name

/-- A record as `tar_reader.Next()` yields it: the header, and the offset that
`tell(tarfile)` reports for it, which is where its body begins (`none` when that seek
fails). -/
structure TarEntry where
  header : Header
  tar_pos : Option Nat

/-- The result of `Extract`. -/
structure ExtractResult where
  allgood : Bool
  abort_err : Option GoError
  x : X

/-- The `records_loop` of `Extract`. `records` are the records that `Next()` yields
before it reports `ending`: `none` for `io.EOF`, an error otherwise. -/
def records_loop (k : XKernel) (fuel : Nat) (archive : Content) (tarfile_name : String)
    (extractdir : String) (extractdir_fd : Int) (same_owner freakout channel : Bool)
    (ending : Option Errno) : List TarEntry → X → Bool → Run ExtractResult
  | [], x, allgood =>
    match ending with
    | none => .ret ⟨allgood, none, x⟩
    | some err => .ret ⟨allgood, some (.value (.errorDuringOp tarfile_name "Next()" err)), x⟩
  | entry :: rest, x, allgood =>
    let header := entry.header
    let full_path := k.Clean (k.Join extractdir header.Name)
    (extract_one k fuel archive x extractdir_fd full_path header entry.tar_pos same_owner).bind
    fun r =>
    let x := r.1
    let was_cloned := r.2.was_cloned
    let extract_err := r.2.abort_err
    let continue_loop := records_loop k fuel archive tarfile_name extractdir extractdir_fd
      same_owner freakout channel ending rest
    let report : X → Run ExtractResult := fun x =>
      let recordtype := if was_cloned then "file (cloned)"
        else humanize_tar_recordtype header.Typeflag
      continue_loop
        { x with messages :=
            (verbose_message channel x.messages (verbose_line recordtype header.Name)) }
        allgood
    if ¬ freakout then
      match errors_As_unhandledRecord extract_err with
      | some unhandledRecordErr =>
        continue_loop
          { x with messages :=
              (warning_message channel x.messages ("Skipping: " ++ unhandledRecordErr.Error)) }
          false
      | none =>
        match errors_As_targetAlreadyExists extract_err with
        | some targetAlreadyExistsErr =>
          continue_loop
            { x with messages :=
                (warning_message channel x.messages
                  ("Skipping: " ++ targetAlreadyExistsErr.Error)) }
            false
        | none => report x
    else
      match extract_err with
      | some err => .ret ⟨allgood, some err, x⟩
      | none => report x

def Extract (k : XKernel) (fuel : Nat) (archive : Content) (tarfile_name : String)
    (records : List TarEntry) (ending : Option Errno) (extractdir : String)
    (same_owner freakout channel : Bool) : Run ExtractResult :=
  let x0 : X := ⟨[], fun _ _ => 0, fun _ => none, []⟩
  let opened := x0.call k (.openat AT_FDCWD extractdir (O_PATH ||| O_DIRECTORY) 0)
  match errno_of opened.2 with
  | some err => .ret ⟨true, some (.value (.errorDuringOp extractdir "openat()" err)), opened.1⟩
  | none =>
    records_loop k fuel archive tarfile_name extractdir (value_of opened.2) same_owner freakout
      channel ending records opened.1 true

/-! ## The archiver's walk (`archive.go`) -/

/-- A `nodeID` (`common.go`). -/
structure nodeID where
  dev : Nat
  inode : Nat
deriving DecidableEq, Repr

/-- What the walk reads of an `os.FileInfo` and of the `syscall.Stat_t` under it. -/
structure FileInfo where
  Name : String
  IsDir : Bool
  IsSymlink : Bool
  Dev : Nat
  Ino : Nat
  Nlink : Nat
deriving DecidableEq, Repr

/-- The file tree being archived and the library functions of the walk: the answers of
`os.Stat`, `os.Lstat`, `os.Readlink` and `os.ReadDir` (the names of the entries), of
`os.Create` for the archive, the header that `tar.FileInfoHeader` makes (`none` when it
reports an error), and the path functions. -/
structure Tree where
  Stat : String → Except Errno FileInfo
  Lstat : String → Except Errno FileInfo
  Readlink : String → Except Errno String
  ReadDir : String → Except Errno (List String)
  Create : String → Option Errno
  FileInfoHeader : FileInfo → String → Option Header
  filepath_Clean : String → String
  filepath_Dir : String → String
  filepath_Join : String → String → String
  path_Join : String → String → String

/-- A header handed to `tarwrite`, with the node and the link count of its entry and
the header as it was before the hardlink handling. -/
structure Record where
  node : nodeID
  Nlink : Nat
  plain : Header
  header : Header
deriving DecidableEq, Repr

/-- The state of one `Archive` operation: the archive, the two registries, the messages
published, and two logs kept for the statements below: the headers handed to `tarwrite`
and the nodes of the directories listed with `os.ReadDir`, oldest first. -/
structure Walk where
  tarfile : File
  visited_registry : nodeID → Bool
  hardlink_registry : nodeID → Option String
  messages : List ProgressMessage
  records : List Record
  listed : List nodeID

/-- The Go `fmt.Sprintf("%-14s\t%s", recordtype, name)`. -/
def verbose_line14 (recordtype : String) (name : String) : String :=
  recordtype ++ String.mk (List.replicate (14 - recordtype.length) ' ') ++ "\t" ++ name

/-- The `for _, file := range files` loop of `archive_one_recursively`; `recurse` is
the recursive call. -/
def archive_files (t : Tree) (recurse : Walk → String → Run (Walk × Option GoError))
    (dir : String) : Walk → List String → Run (Walk × Option GoError)
  | w, [] => .ret (w, none)
  | w, file :: files =>
    (recurse w (t.filepath_Join dir file)).bind fun r =>
    match r.2 with
    | some abort_err => .ret (r.1, some abort_err)
    | none => archive_files t recurse dir r.1 files

/-- The `if unixstat.Nlink > 1` block of `archive_one_recursively`: the header to write
and the hardlink registry behind it. -/
def hardlink_handling (hardlink_registry : nodeID → Option String) (thisnode : nodeID)
    (Nlink : Nat) (header : Header) : Header × (nodeID → Option String) :=
  if Nlink > 1 then
    match hardlink_registry thisnode with
    | some other_path =>
      ({ header with Typeflag := TypeLink, Linkname := other_path }, hardlink_registry)
    | none =>
      (header, fun node => if node = thisnode then some header.Name else hardlink_registry node)
  else (header, hardlink_registry)

/-- The walk; `fuel` bounds the depth of the recursion, `padfuel` the loops of
`pad_tarheader`. When `tar.FileInfoHeader` reports an error its header is `nil`, and
the assignment to `header.Format` that precedes the error check panics. The `unix.Stat`
whose result is not used is left out. -/
def archive_one_recursively (k : Kernel) (t : Tree) (padfuel : Nat)
    (follow_symlinks no_recurse channel : Bool) :
    Nat → Walk → String → Run (Walk × Option GoError)
  | 0, _, _ => .stuck
  | fuel + 1, w, inpath =>
    match (if follow_symlinks then t.Stat inpath else t.Lstat inpath) with
    | .error abort_err => .ret (w, some (.value (.errorDuringOp inpath "stat()" abort_err)))
    | .ok finfo =>
      let thisnode : nodeID := ⟨finfo.Dev, finfo.Ino⟩
      match (if finfo.IsSymlink then t.Readlink inpath else .ok "") with
      | .error readlink_err =>
        .ret (w, some (.value (.errorDuringOp inpath "readlink()" readlink_err)))
      | .ok linktarget =>
        match t.FileInfoHeader finfo linktarget with
        | none => .exit
        | some made =>
          let name := t.path_Join (t.filepath_Dir (t.filepath_Clean inpath)) finfo.Name
          let plain : Header := { made with Name := if finfo.IsDir then name ++ "/" else name }
          let linked := hardlink_handling w.hardlink_registry thisnode finfo.Nlink plain
          let header := linked.1
          (tarwrite k padfuel w.tarfile header).bind fun written =>
          let w1 : Walk :=
            { w with
                tarfile := written.tarfile
                hardlink_registry := linked.2
                records := w.records ++ [⟨thisnode, finfo.Nlink, plain, header⟩] }
          match written.abort_err with
          | some abort_err => .ret (w1, some abort_err)
          | none =>
            let recordtype := if written.was_cloned then "file (cloned)"
              else humanize_tar_recordtype header.Typeflag
            let w2 : Walk :=
              { w1 with messages :=
                  (verbose_message channel w1.messages (verbose_line14 recordtype header.Name)) }
            if finfo.IsDir ∧ ¬ no_recurse then
              if w2.visited_registry thisnode then
                .ret ({ w2 with messages := (warning_message channel w2.messages
                  ("Skipping directory (already visited): " ++ inpath)) }, none)
              else
                let w3 : Walk :=
                  { w2 with
                      visited_registry := fun node =>
                        if node = thisnode then true else w2.visited_registry node
                      listed := w2.listed ++ [thisnode] }
                match t.ReadDir header.Name with
                | .error err => .ret (w3, some (.value (.errorDuringOp inpath "readdir()" err)))
                | .ok files =>
                  archive_files t
                    (archive_one_recursively k t padfuel follow_symlinks no_recurse channel fuel)
                    header.Name w3 files
            else .ret (w2, none)

/-- The `for _, inpath := range inpaths` loop of `Archive`. -/
def archive_inpaths (k : Kernel) (t : Tree) (fuel padfuel : Nat)
    (follow_symlinks no_recurse channel : Bool) : Walk → List String → Run (Walk × Option GoError)
  | w, [] => .ret (w, none)
  | w, inpath :: inpaths =>
    (archive_one_recursively k t padfuel follow_symlinks no_recurse channel fuel w inpath).bind
    fun r =>
    match r.2 with
    | some abort_err => .ret (r.1, some abort_err)
    | none => archive_inpaths k t fuel padfuel follow_symlinks no_recurse channel r.1 inpaths

/-- The state in which `Archive` starts: a new, empty archive and empty registries. -/
def Walk.start (dst_archive : String) : Walk :=
  ⟨⟨dst_archive, 0, fun _ => 0, 0, []⟩, fun _ => false, fun _ => none, [], [], []⟩

def Archive (k : Kernel) (t : Tree) (fuel padfuel : Nat) (dst_archive : String)
    (inpaths : List String) (follow_symlinks no_recurse channel : Bool) :
    Run (Walk × Option GoError) :=
  match t.Create dst_archive with
  | some abort_err => .ret (Walk.start dst_archive, some (.value (.syscall abort_err)))
  | none =>
    (archive_inpaths k t fuel padfuel follow_symlinks no_recurse channel
      (Walk.start dst_archive) inpaths).bind fun r =>
    match r.2 with
    | some abort_err => .ret (r.1, some abort_err)
    | none =>
      let finalized := finalize_tar k r.1.tarfile
      .ret ({ r.1 with tarfile := finalized.1 }, finalized.2)

/-! ## Predicates on the call log and on the walk -/

/-- The calls that only move the offset or change the length. -/
def Syscall.is_resize : Syscall → Prop
  | .seek_end => True
  | .truncate _ => True
  | _ => False

/-- The number of the nodes of `dirs` that the walk has not yet marked as visited. -/
def Walk.unvisited (dirs : Finset nodeID) (w : Walk) : Nat :=
  (dirs.filter (fun n => w.visited_registry n = false)).card

/-- No directory node was listed twice, and every listed node is marked as visited. -/
def Walk.listed_once (w : Walk) : Prop :=
  w.listed.Nodup ∧ ∀ n ∈ w.listed, w.visited_registry n = true

/-- What a part of the walk keeps: the marks of the visited registry, that no node is
listed twice, and the directories listed before it. -/
def Walk.keeps (w w1 : Walk) : Prop :=
  (∀ n, w.visited_registry n = true → w1.visited_registry n = true) ∧
  (w.listed_once → w1.listed_once) ∧
  ∃ more, w1.listed = w.listed ++ more

/-- The archive name of the first of `records` that has this node and more than one
link. -/
def first_path (records : List Record) (node : nodeID) : Option String :=
  (records.find? (fun q => decide (q.node = node ∧ 1 < q.Nlink))).map (fun q => q.header.Name)

/-- The hardlink registry holds, for every node, the archive name of the first record
with that node and more than one link; and every record with more than one link was
handed to `tarwrite` unchanged when it is the first of its node, and as a hardlink to
the first one's archive name otherwise. -/
def Walk.links_ok (w : Walk) : Prop :=
  (∀ node, w.hardlink_registry node = first_path w.records node) ∧
  ∀ pre q post, w.records = pre ++ q :: post → 1 < q.Nlink →
    q.header = match first_path pre q.node with
      | some first => { q.plain with Typeflag := TypeLink, Linkname := first }
      | none => q.plain

/-! ## A sample environment

A small tar writer in the manner of `archive/tar` (a 512-byte extended-header block,
the PAX records padded to 512 bytes, a 512-byte header block), an exact
`ceil ∘ log10` on the range the padder uses, and a kernel in which every system call
succeeds. The concrete instances of the theorems below are computed in it. -/

def sample_digits (n : Nat) : Nat :=
  if n < 10 then 1 else if n < 100 then 2 else if n < 1000 then 3 else if n < 10000 then 4 else 5

/-- The length of the PAX record `"<length> <key>=<value>\n"`. -/
def sample_record_length (kv : String × String) : Nat :=
  let size0 := kv.1.utf8ByteSize + kv.2.utf8ByteSize + 3
  let size := size0 + sample_digits size0
  let len1 := sample_digits size + size0
  if len1 ≠ size then sample_digits len1 + size0 else len1

/-- Every header carries two 30-byte time records besides its own PAX records. -/
def sample_WriteHeader (h : Header) : Rendered :=
  let records := 30 + 30 + (h.PAXRecords.map sample_record_length).sum
  ⟨⟨512 + (records + 511) / 512 * 512 + 512, fun _ => 0⟩, false⟩

def sample_ceil_log10 (n : Int) : Int :=
  if n ≤ 1 then 0 else if n ≤ 10 then 1 else if n ≤ 100 then 2 else if n ≤ 1000 then 3
  else if n ≤ 10000 then 4 else 5

/-- The source files of the sample: 10 KiB of bytes that differ from page to page. -/
def sample_content : Content := ⟨10240, fun i => (i + i / 4096) % 251⟩

def sample_kernel : Kernel where
  WriteHeader := sample_WriteHeader
  ceil_log10 := sample_ceil_log10
  OpenFile := fun _ _ => .ok sample_content
  write_err := fun _ _ => none
  clone_err := fun _ _ => none
  CopyFileRange := fun _ len _ => (len, none)
  tell_err := fun _ => none
  seek_err := fun _ => none
  truncate_err := fun _ _ => none

/-- The sample kernel, on a file system that cannot share extents with the archive. -/
def sample_kernel_exdev : Kernel :=
  { sample_kernel with clone_err := fun _ _ => some .EXDEV }

/-- Scenario 1 of the specification: `hello.txt`, 10 KiB, mode 0644, modified at
2020-01-01T00:00:00.123456789Z. -/
def hello : Header where
  Typeflag := TypeReg
  Name := "hello.txt"
  Linkname := ""
  Size := 10240
  Mode := 420
  Uid := 0
  Gid := 0
  AccessTime := ⟨1577836800, 123456789⟩
  ModTime := ⟨1577836800, 123456789⟩
  Devmajor := 0
  Devminor := 0
  PAXRecords := []

/-- Scenario 2 of the specification: a file of one byte. -/
def tiny : Header := { hello with Name := "tiny", Size := 1 }

/-- A freshly created, empty archive. -/
def new_archive : File := ⟨"out.tar", 0, fun _ => 0, 0, []⟩

/-- The answers of a kernel in which the directories exist (`openat2` gives
descriptor 4), a created file gets descriptor 5, `copy_file_range` copies all it is
asked for, and every other call succeeds; `stat` says whether the targets exist
already, `create_err` is the error of an `openat` for writing. -/
def sample_answer (stat : Option Errno) (create_err : Option Errno) (calls : List XCall) :
    Except Errno Int :=
  match calls.getLast? with
  | some (.openat2 _ _) => .ok 4
  | some (.fstatat _ _ _) =>
    match stat with
    | some e => .error e
    | none => .ok 0
  | some (.openat dirfd _ _ _) =>
    if dirfd = AT_FDCWD then .ok 3 else
    match create_err with
    | some e => .error e
    | none => .ok 5
  | some (.copy_file_range _ _ _ len) => .ok len
  | _ => .ok 0

/-- A sample extraction environment; the path functions are right for the paths of
the samples, which have no directory part. -/
def sample_xkernel (stat : Option Errno) (create_err : Option Errno) : XKernel where
  answer := sample_answer stat create_err
  Dir := fun _ => "."
  Base := fun name => name
  Clean := fun name => name
  Join := fun dir name => dir ++ "/" ++ name

/-- An archive of three pages whose bytes differ from page to page. -/
def sample_archive : Content := ⟨12288, fun i => (i + i / 4096) % 251⟩

/-- A regular file of one page and one byte. -/
def spilling : Header := { hello with Name := "spilling", Size := 4097 }

/-- A record of type `'7'` (`tar.TypeCont`), which the extractor does not handle. -/
def contiguous : Header := { hello with Name := "contiguous", Typeflag := 55, Size := 0 }

/-- The state of an extraction that has made no call yet. -/
def new_extraction : X := ⟨[], fun _ _ => 0, fun _ => none, []⟩

/-- The file tree of the samples: a directory `d` that holds `loop`, a bind mount of
`d` itself (scenario 5 of the specification), and three names `a`, `b`, `c` of one
empty file (scenario 3). -/
def sample_stat (path : String) : Except Errno FileInfo :=
  if path = "d" then .ok ⟨"d", true, false, 1, 10, 2⟩
  else if path = "d/loop" then .ok ⟨"loop", true, false, 1, 10, 2⟩
  else if path = "a" then .ok ⟨"a", false, false, 1, 20, 3⟩
  else if path = "b" then .ok ⟨"b", false, false, 1, 20, 3⟩
  else if path = "c" then .ok ⟨"c", false, false, 1, 20, 3⟩
  else .error .ENOENT

/-- The sample tree; the path functions are right for the paths of the sample. -/
def sample_tree : Tree where
  Stat := sample_stat
  Lstat := sample_stat
  Readlink := fun _ => .error .ENOENT
  ReadDir := fun path => if path = "d/" then .ok ["loop"] else .error .ENOENT
  Create := fun _ => none
  FileInfoHeader := fun finfo _ =>
    some { hello with Typeflag := if finfo.IsDir then TypeDir else TypeReg, Size := 0 }
  filepath_Clean := fun path => path
  filepath_Dir := fun path => if path = "d/loop" then "d" else "."
  filepath_Join := fun dir name => dir ++ name
  path_Join := fun dir name => if dir = "." then name else dir ++ "/" ++ name

/-- The header that the sample tree makes for a name of the empty file. -/
def sample_plain (name : String) : Header := { hello with Size := 0, Name := name }

/-! ## More sample environments for the extractor -/

/-- The answers of the sample kernel in which no target exists yet, except that
`FICLONERANGE` and `copy_file_range` answer as given. -/
def faulty_answer (clone : Except Errno Int) (copy : Except Errno Int) (calls : List XCall) :
    Except Errno Int :=
  match calls.getLast? with
  | some (.ficlonerange _ _ _ _) => clone
  | some (.copy_file_range _ _ _ _) => copy
  | _ => sample_answer (some .ENOENT) none calls

def faulty_xkernel (clone : Except Errno Int) (copy : Except Errno Int) : XKernel :=
  { sample_xkernel (some .ENOENT) none with answer := faulty_answer clone copy }

/-- The functions of `path/filepath` on the paths of the samples below: the directory
`d/`, its members `d/sub/` and `d/f`, and the name `../x`. -/
def nested_Dir (path : String) : String :=
  if path = "d/sub" ∨ path = "d/f" then "d"
  else if path = "out/d/sub" ∨ path = "out/d/f" then "out/d"
  else if path = "out/d" then "out"
  else if path = "../x" then ".."
  else if path = "/x" then "/"
  else "."

def nested_Base (path : String) : String :=
  if path = "d/" then "d" else if path = "d/sub/" then "sub" else if path = "d/f" then "f"
  else if path = "../x" then "x" else path

def nested_Clean (path : String) : String :=
  if path = "d/" then "d" else if path = "d/sub/" then "d/sub" else path

def nested_Join (dir name : String) : String :=
  if name = "d/" then dir ++ "/d" else if name = "d/sub/" then dir ++ "/d/sub"
  else if dir = "/out" ∧ name = "../x" then "/x" else dir ++ "/" ++ name

/-- A kernel in which every directory can be opened (descriptor 4), no target exists
yet and every call succeeds, with the path functions above. -/
def nested_xkernel : XKernel where
  answer := sample_answer (some .ENOENT) none
  Dir := nested_Dir
  Base := nested_Base
  Clean := nested_Clean
  Join := nested_Join

/-- The directory `d/`, mode 0755, last read in 2017 and last modified in 2014. -/
def dir_d : Header :=
  { hello with Typeflag := TypeDir, Name := "d/", Size := 0, Mode := 493,
               AccessTime := ⟨1500000000, 0⟩, ModTime := ⟨1400000000, 0⟩ }

/-- The directory `d/sub/`, with other times. -/
def dir_sub : Header :=
  { dir_d with Name := "d/sub/", AccessTime := ⟨1600000000, 0⟩, ModTime := ⟨1300000000, 0⟩ }

/-- The regular file `d/f`. -/
def file_f : Header := { hello with Name := "d/f" }

/-- A symbolic link whose name leaves the extraction directory. -/
def escaping : Header :=
  { hello with Typeflag := TypeSymlink, Name := "../x", Linkname := "target", Size := 0,
               Uid := 1000, Gid := 1000 }

/-! ## Block boundaries -/

/-- An archive that ends on a block boundary, with the offset at its end. -/
def File.blocked (f : File) : Prop := f.size % TAR_BLOCKSIZE = 0 ∧ f.pos = f.size

/-- A source file of 5000 bytes. -/
def odd_content : Content := ⟨5000, fun i => i % 251⟩

/-- The sample kernel with that source file, on a file system that refuses to lengthen
the archive with `ftruncate` (`EFBIG`, 27). -/
def sample_kernel_efbig : Kernel :=
  { sample_kernel with
      OpenFile := fun _ _ => .ok odd_content
      truncate_err := fun _ _ => some (.other 27) }

/-- The header of that file. -/
def odd : Header := { hello with Name := "odd", Size := 5000 }

/-! ## A tar writer with long names -/

/-- The sample tar writer with the `path` record that `archive/tar` adds for a name
that does not fit the 100 bytes of the name field of the header block. -/
def path_WriteHeader (h : Header) : Rendered :=
  let path := if h.Name.utf8ByteSize > 100 then sample_record_length ("path", h.Name) else 0
  let records := 30 + 30 + path + (h.PAXRecords.map sample_record_length).sum
  ⟨⟨512 + (records + 511) / 512 * 512 + 512, fun _ => 0⟩, false⟩

def path_kernel : Kernel := { sample_kernel with WriteHeader := path_WriteHeader }

/-- A regular file whose name has 435 bytes, last modified at a full second: the two
time records are those of the access and the change time (30 bytes each, as
`30 atime=1577836800.123456789`), and the `path` record has 445 bytes. -/
def deep : Header :=
  { hello with Name := strings_Repeat "dir/" 108 ++ "f.x", ModTime := ⟨1577836800, 0⟩ }

/-- An archive that holds four records of 1536 bytes (four empty directories, say),
with the offset at its end. -/
def four_records : File := ⟨"out.tar", 6144, fun _ => 0, 6144, []⟩

/-! ## Paths that end in a dot -/

/-- The loop over the entries of a directory ran the recursive call on every entry, in
order, each from the state that the one before left, and every call returned without an
error. -/
def descends (t : Tree) (recurse : Walk → String → Run (Walk × Option GoError))
    (dir : String) : List String → Walk → Walk → Prop
  | [], w, w1 => w1 = w
  | file :: files, w, w1 =>
    ∃ w2, recurse w (t.filepath_Join dir file) = .ret (w2, none) ∧
      descends t recurse dir files w2 w1

/-- The answers of `os.Lstat` in a current directory (node 1:2) that holds the file `f`
and the directory `d` (node 1:10), which holds the file `g`. The name of a `FileInfo` is
the last element of the path as it was given: `.` for `d/.`. -/
def dot_stat (path : String) : Except Errno FileInfo :=
  if path = "." then .ok ⟨".", true, false, 1, 2, 3⟩
  else if path = "d/." then .ok ⟨".", true, false, 1, 10, 2⟩
  else if path = "d" then .ok ⟨"d", true, false, 1, 10, 2⟩
  else if path = "f" then .ok ⟨"f", false, false, 1, 11, 1⟩
  else if path = "d/g" then .ok ⟨"g", false, false, 1, 12, 1⟩
  else .error .ENOENT

/-- That file tree; the path functions are right for the paths of the sample. -/
def dot_tree : Tree where
  Stat := dot_stat
  Lstat := dot_stat
  Readlink := fun _ => .error .ENOENT
  ReadDir := fun path =>
    if path = "./" then .ok ["d", "f"] else if path = "d/" then .ok ["g"] else .error .ENOENT
  Create := fun _ => none
  FileInfoHeader := fun finfo _ =>
    some { hello with Typeflag := if finfo.IsDir then TypeDir else TypeReg, Size := 0 }
  filepath_Clean := fun path => if path = "d/." then "d" else path
  filepath_Dir := fun path => if path = "d/g" then "d" else "."
  filepath_Join := fun dir name => if dir = "./" then name else dir ++ name
  path_Join := fun dir name => if dir = "." then name else dir ++ "/" ++ name

/-- A file of one byte with the name of `deep`. -/
def tiny_deep : Header := { deep with Size := 1 }

/-! ## The device numbers of Linux

The layout of a `dev_t` as the C library has it (`gnu_dev_makedev`, `gnu_dev_major`,
`gnu_dev_minor`), against which `makedev` is compared. -/

/-- The `dev_t` of a major and a minor number: minor bits 0-7 in bits 0-7, major bits
0-11 in bits 8-19, minor bits 8 and up from bit 20 on, major bits 12 and up from bit 44
on. -/
def linux_dev_t (maj min : Nat) : Nat :=
  min % 2 ^ 8 + (maj % 2 ^ 12) * 2 ^ 8 + (min / 2 ^ 8) * 2 ^ 20 + (maj / 2 ^ 12) * 2 ^ 44

/-- The major number of a `dev_t`. -/
def linux_major (dev : Nat) : Nat :=
  ((dev >>> 8) &&& 0xfff) ||| ((dev >>> 32) &&& 0xfffff000)

/-- The minor number of a `dev_t`. -/
def linux_minor (dev : Nat) : Nat :=
  (dev &&& 0xff) ||| ((dev >>> 12) &&& 0xffffff00)

/-! # Theorems -/

/-! ## The header padder -/

theorem foldl_append_utf8ByteSize (n : Nat) (acc : String) :
    (List.foldl (fun r s => r ++ s) acc (List.replicate n "X")).utf8ByteSize
      = acc.utf8ByteSize + n := by
  induction n generalizing acc with
  | zero => simp
  | succ n ih =>
    rw [List.replicate_succ, List.foldl_cons, ih]
    have : (acc ++ "X").utf8ByteSize = acc.utf8ByteSize + 1 := by
      cases acc with
      | mk cs =>
        show String.utf8ByteSize ⟨cs ++ ['X']⟩ = _
        simp [String.utf8ByteSize_mk, String.utf8Len_append]
        rfl
    omega

theorem strings_Repeat_X_utf8ByteSize (n : Nat) : (strings_Repeat "X" n).utf8ByteSize = n := by
  unfold strings_Repeat String.join
  rw [foldl_append_utf8ByteSize]
  have : ("" : String).utf8ByteSize = 0 := by decide
  omega

/-- What every return of `pad_tarheader` has in common: the plain rendering succeeded,
the buffer is the plain length plus `padout_size`, the growth is the difference of the
two lengths, and of the header only the PAX records changed. -/
theorem pad_tarheader_ret (k : Kernel) (fuel : Nat) (header : Header) (header_offset : Nat)
    (p : Padded) (h : pad_tarheader k fuel header header_offset = .ret p) :
    (k.WriteHeader header).ouch = false ∧
    p.header_buffer.size = FS_PAGESIZE
        - ((header_offset + (k.WriteHeader header).bytes.size) % FS_PAGESIZE)
        + (k.WriteHeader header).bytes.size ∧
    p.header_growth = (p.header_buffer.size : Int) - (k.WriteHeader header).bytes.size ∧
    p.header.Size = header.Size ∧ p.header.Name = header.Name ∧
    p.header.Typeflag = header.Typeflag := by
  unfold pad_tarheader at h
  simp only [FS_PAGESIZE] at h ⊢
  split at h
  · exact absurd h (by simp)
  rename_i h1
  split at h
  · omega
  split at h
  · exact absurd h (by simp)
  split at h
  · omega
  split at h
  · exact absurd h (by simp)
  split at h
  · exact absurd h (by simp)
  split at h
  · exact absurd h (by simp)
  split at h
  · exact absurd h (by simp)
  split at h
  · exact absurd h (by simp)
  rename_i hlen
  simp only [Run.ret.injEq] at h
  subst h
  simp only [ne_eq, Decidable.not_not] at hlen
  exact ⟨by simpa using h1, hlen.symm, rfl, rfl, rfl, rfl⟩

theorem key_size : pax_padding_headerkey.utf8ByteSize = 7 := by decide
theorem filler_size : pax_filler_char.utf8ByteSize = 1 := by decide

/-- When the three renderings succeed, both loops settle and the re-rendered header
has the targeted length, `pad_tarheader` returns the re-rendered header. -/
theorem pad_tarheader_eq (k : Kernel) (fuel : Nat) (header : Header) (header_offset : Nat)
    (cur proj : Int) (value : String) (buf : Content)
    (h0 : (k.WriteHeader header).ouch = false)
    (h1 : (k.WriteHeader
      { header with PAXRecords := [(pax_padding_headerkey, pax_filler_char)] }).ouch = false)
    (hc : width_loop (fun w => k.ceil_log10 (w + (11 : Nat))) fuel 0 = some cur)
    (hp : width_loop (fun _ => k.ceil_log10 (cur + ((FS_PAGESIZE - (header_offset +
      (k.WriteHeader { header with PAXRecords := [(pax_padding_headerkey, pax_filler_char)]
        }).bytes.size) % FS_PAGESIZE : Nat) : Int) + (3 : Nat) + (7 : Nat))) fuel 0 = some proj)
    (hn : ¬ (1 + (((FS_PAGESIZE - (header_offset +
      (k.WriteHeader { header with PAXRecords := [(pax_padding_headerkey, pax_filler_char)]
        }).bytes.size) % FS_PAGESIZE : Nat) : Int) - (proj - cur)) < 0))
    (hv : value = strings_Repeat "X" (1 + (((FS_PAGESIZE - (header_offset +
      (k.WriteHeader { header with PAXRecords := [(pax_padding_headerkey, pax_filler_char)]
        }).bytes.size) % FS_PAGESIZE : Nat) : Int) - (proj - cur))).toNat)
    (h2 : k.WriteHeader { header with PAXRecords := [(pax_padding_headerkey, value)] }
      = ⟨buf, false⟩)
    (hlen : FS_PAGESIZE - (header_offset + (k.WriteHeader header).bytes.size) % FS_PAGESIZE
      + (k.WriteHeader header).bytes.size = buf.size) :
    pad_tarheader k fuel header header_offset
      = .ret ⟨(buf.size : Int) - (k.WriteHeader header).bytes.size, buf,
          { header with PAXRecords := [(pax_padding_headerkey, value)] }⟩ := by
  subst hv
  unfold pad_tarheader
  simp only [FS_PAGESIZE, pax_header_overhead, key_size, filler_size] at *
  have e11 : (3 + 7 + 1 : Nat) = 11 := rfl
  simp only [h0, h1, e11, hc, hp, hn, h2, hlen]
  have p1 : ¬ (4096 - (header_offset + (k.WriteHeader header).bytes.size) % 4096 = 0) := by omega
  have p2 : ¬ (4096 - (header_offset + (k.WriteHeader
      { header with PAXRecords := [(pax_padding_headerkey, pax_filler_char)] }).bytes.size)
        % 4096 = 0) := by omega
  simp [p1, p2]

theorem sample_size_plain (h : Header) (hp : h.PAXRecords = []) :
    sample_kernel.WriteHeader h = ⟨⟨1536, fun _ => 0⟩, false⟩ := by
  simp [sample_kernel, sample_WriteHeader, hp]

theorem sample_size_filler (h : Header) :
    sample_kernel.WriteHeader { h with PAXRecords := [(pax_padding_headerkey, pax_filler_char)] }
      = ⟨⟨1536, fun _ => 0⟩, false⟩ := by
  simp [sample_kernel, sample_WriteHeader, sample_record_length, key_size, filler_size,
    sample_digits]

theorem sample_size_padded (h : Header) (n : Nat) (h1 : 1000 ≤ n + 10) (h2 : n + 14 < 10000) :
    sample_kernel.WriteHeader
        { h with PAXRecords := [(pax_padding_headerkey, strings_Repeat "X" n)] }
      = ⟨⟨512 + (60 + (n + 14) + 511) / 512 * 512 + 512, fun _ => 0⟩, false⟩ := by
  have a : ¬ (7 + n + 3 < 10) := by omega
  have b : ¬ (7 + n + 3 < 100) := by omega
  have c : ¬ (7 + n + 3 < 1000) := by omega
  have d : (7 + n + 3 < 10000) := by omega
  have a' : ¬ (7 + n + 3 + 4 < 10) := by omega
  have b' : ¬ (7 + n + 3 + 4 < 100) := by omega
  have c' : ¬ (7 + n + 3 + 4 < 1000) := by omega
  have d' : (7 + n + 3 + 4 < 10000) := by omega
  have e : 4 + (7 + n + 3) = 7 + n + 3 + 4 := by omega
  simp [sample_kernel, sample_WriteHeader, sample_record_length, key_size,
    strings_Repeat_X_utf8ByteSize, sample_digits, a, b, c, d, a', b', c', d', e]
  omega

theorem sample_pad_hello :
    pad_tarheader sample_kernel 3 hello 0
      = .ret ⟨2560, ⟨4096, fun _ => 0⟩,
          { hello with PAXRecords := [(pax_padding_headerkey, strings_Repeat "X" 2559)] }⟩ := by
  have h := pad_tarheader_eq sample_kernel 3 hello 0 2 4 (strings_Repeat "X" 2559)
    ⟨4096, fun _ => 0⟩
    (by rw [sample_size_plain hello rfl])
    (by rw [sample_size_filler])
    (by decide)
    (by rw [sample_size_filler]; decide)
    (by rw [sample_size_filler]; decide)
    (by rw [sample_size_filler]; rfl)
    (by rw [sample_size_padded hello 2559 (by omega) (by omega)])
    (by rw [sample_size_plain hello rfl]; rfl)
  rw [sample_size_plain hello rfl] at h
  exact h

/-! ## Header and body emission -/

theorem SeekEnd_calls (k : Kernel) (f : File) :
    (f.SeekEnd k).1.calls = f.calls ++ [Syscall.seek_end] := by
  unfold File.SeekEnd
  split <;> rfl

theorem Truncate_calls (k : Kernel) (f : File) (len : Nat) :
    (f.Truncate k len).1.calls = f.calls ++ [Syscall.truncate len] := by
  unfold File.Truncate
  split <;> rfl

theorem pad512_calls (k : Kernel) (f : File) (len : Nat) :
    ∃ rest, (pad512 k f len).1.calls = f.calls ++ rest ∧ ∀ c ∈ rest, Syscall.is_resize c := by
  unfold pad512
  simp only
  split
  · split_ifs <;> simp [SeekEnd_calls, Syscall.is_resize]
  · split
    · split_ifs <;> simp [SeekEnd_calls, Truncate_calls, Syscall.is_resize]
    · split <;> split_ifs <;> simp [SeekEnd_calls, Truncate_calls, Syscall.is_resize]

theorem WriteTo_calls (k : Kernel) (f : File) (buf : Content) (hb : buf.size ≠ 0) :
    (f.WriteTo k buf).1.calls = f.calls ++ [Syscall.write f.pos buf] := by
  unfold File.WriteTo
  rw [if_neg hb]
  split <;> rfl

theorem WriteTo_pos (k : Kernel) (f : File) (buf : Content)
    (h : (f.WriteTo k buf).2 = none) : (f.WriteTo k buf).1.pos = f.pos + buf.size := by
  unfold File.WriteTo at h ⊢
  split_ifs with hb
  · simp [hb]
  · split <;> simp_all

theorem copyrange_calls (k : Kernel) (src : Content) (f : File) (header : Header)
    (r : File × Option GoError) (h : copyrange_into_archive k src f header = .ret r) :
    ∃ rest, r.1.calls = f.calls ++ Syscall.copy_file_range 0 f.pos header.Size :: rest
      ∧ ∀ c ∈ rest, Syscall.is_resize c := by
  unfold copyrange_into_archive Deduptar.tell at h
  cases ht : k.tell_err f.pos with
  | some e => simp [ht, Run.bind] at h
  | none =>
    simp only [ht, Run.bind] at h
    split at h
    · simp only [Run.ret.injEq] at h; subst h; exact ⟨[], by simp⟩
    · split at h
      · simp only [Run.ret.injEq] at h; subst h; exact ⟨[], by simp⟩
      · simp only [Run.ret.injEq] at h; subst h
        obtain ⟨rest, h1, h2⟩ := pad512_calls k _ _
        exact ⟨rest, by rw [h1]; simp, h2⟩

theorem ficlone_calls (k : Kernel) (src : Content) (f : File) (header : Header)
    (r : File × Option GoError) (h : ficlone_into_archive k src f header = .ret r) :
    ∃ rest, r.1.calls = f.calls ++ Syscall.ficlonerange 0 0 f.pos :: rest
      ∧ ∀ c ∈ rest, Syscall.is_resize c := by
  unfold ficlone_into_archive Deduptar.tell at h
  cases ht : k.tell_err f.pos with
  | some e => simp [ht, Run.bind] at h
  | none =>
    simp only [ht, Run.bind] at h
    split at h
    · simp only [Run.ret.injEq] at h; subst h; exact ⟨[], by simp⟩
    · split at h
      · simp only [Run.ret.injEq] at h; subst h
        exact ⟨[Syscall.seek_end], by simp [SeekEnd_calls], by simp [Syscall.is_resize]⟩
      · simp only [Run.ret.injEq] at h; subst h
        obtain ⟨rest, h1, h2⟩ := pad512_calls k _ _
        refine ⟨Syscall.seek_end :: rest, by rw [h1]; simp [SeekEnd_calls], ?_⟩
        intro c hc
        rcases List.mem_cons.1 hc with rfl | hc
        · simp [Syscall.is_resize]
        · exact h2 c hc

theorem tarwrite_body_cloned (k : Kernel) (fuel : Nat) (infile : Content) (tarfile : File)
    (header : Header) (pristine : Content) (w : Written)
    (h : tarwrite_body k fuel infile tarfile header tarfile.pos pristine = .ret w)
    (hc : w.was_cloned = true) :
    ∃ p rest, pad_tarheader k fuel header tarfile.pos = .ret p ∧
      w.tarfile.calls = tarfile.calls ++ Syscall.write tarfile.pos p.header_buffer ::
        Syscall.ficlonerange 0 0 (tarfile.pos + p.header_buffer.size) :: rest := by
  unfold tarwrite_body at h
  cases hp : pad_tarheader k fuel header tarfile.pos with
  | exit => simp [hp, Run.bind] at h
  | stuck => simp [hp, Run.bind] at h
  | ret p =>
    have hret := pad_tarheader_ret k fuel header tarfile.pos p hp
    have hne : p.header_buffer.size ≠ 0 := by
      rw [hret.2.1]; simp only [FS_PAGESIZE]; omega
    simp only [hp, Run.bind] at h
    split at h
    · split at h
      · simp only [Run.ret.injEq] at h; subst h; simp at hc
      · split at h
        · simp only [Run.ret.injEq] at h; subst h; simp at hc
        · simp at h
        · simp at h
    · split at h
      · simp only [Run.ret.injEq] at h; subst h; simp at hc
      · rename_i hw
        split at h
        · rename_i r hr
          split at h
          · simp [log_Fatalln] at h
          · simp only [Run.ret.injEq] at h; subst h
            obtain ⟨rest, h1, _⟩ := ficlone_calls k infile _ _ r hr
            refine ⟨p, rest, rfl, ?_⟩
            simp only [h1, WriteTo_calls k tarfile _ hne, WriteTo_pos k tarfile _ hw]
            simp
        · simp at h
        · simp at h

theorem tarwrite_cloned (k : Kernel) (fuel : Nat) (tarfile : File) (header : Header)
    (w : Written) (h : tarwrite k fuel tarfile header = .ret w) (hc : w.was_cloned = true) :
    ∃ p rest, pad_tarheader k fuel header tarfile.pos = .ret p ∧
      w.tarfile.calls = tarfile.calls ++ Syscall.write tarfile.pos p.header_buffer ::
        Syscall.ficlonerange 0 0 (tarfile.pos + p.header_buffer.size) :: rest := by
  unfold tarwrite Deduptar.tell at h
  cases ht : k.tell_err tarfile.pos with
  | some e => simp [ht, Run.bind] at h
  | none =>
    simp only [ht, Run.bind] at h
    split at h
    · simp only [Run.ret.injEq] at h; subst h; simp at hc
    · split at h
      · exact tarwrite_body_cloned k fuel _ tarfile header _ w h hc
      · split at h
        · simp only [Run.ret.injEq] at h; subst h; simp at hc
        · split at h
          · simp only [Run.ret.injEq] at h; subst h; simp at hc
          · exact tarwrite_body_cloned k fuel _ tarfile header _ w h hc

theorem sample_tarwrite_hello :
    ∃ w, tarwrite sample_kernel 3 new_archive hello = .ret w ∧ w.was_cloned = true := by
  have e1 : hello.Typeflag = TypeReg := rfl
  have e2 : hello.Size = 10240 := rfl
  have e3 : sample_kernel.OpenFile hello.Name true = .ok sample_content := rfl
  have e4 : sample_kernel.tell_err = fun _ => none := rfl
  have e5 : sample_kernel.write_err = fun _ _ => none := rfl
  have e6 : sample_kernel.clone_err = fun _ _ => none := rfl
  have e7 : sample_kernel.seek_err = fun _ => none := rfl
  have e8 : sample_kernel.truncate_err = fun _ _ => none := rfl
  have e9 : sample_content.size = 10240 := rfl
  have e10 : new_archive.pos = 0 := rfl
  have e11 : new_archive.size = 0 := rfl
  simp only [tarwrite, tarwrite_body, Deduptar.tell, Run.bind, e1, e2, e3, e4, sample_pad_hello,
    ficlone_into_archive, File.WriteTo, File.SeekEnd, e5, e6, e7, e8, e9, e10, e11]
  simp

/-- C1: whenever `pad_tarheader` returns, the buffer it returns ends on a page
boundary (`header_offset + buffer_length` is a multiple of 4096) and the growth it
returns is the buffer's length minus the length of the plain rendering of the same
header; consequently, whenever `tarwrite` at that offset reports a cloned body, it
wrote this buffer at the offset and cloned the body right behind it, at the page
boundary `header_offset + buffer_length`. -/
theorem pad_tarheader_page_aligned (k : Kernel) (fuel : Nat) (header : Header)
    (header_offset : Nat) (p : Padded)
    (h : pad_tarheader k fuel header header_offset = .ret p) :
    ((header_offset + p.header_buffer.size) % FS_PAGESIZE = 0 ∧
      p.header_growth = (p.header_buffer.size : Int) - (k.WriteHeader header).bytes.size) ∧
    ∀ (tarfile : File) (w : Written), tarfile.pos = header_offset →
      tarwrite k fuel tarfile header = .ret w → w.was_cloned = true →
      ∃ rest, w.tarfile.calls = tarfile.calls ++ Syscall.write header_offset p.header_buffer ::
        Syscall.ficlonerange 0 0 (header_offset + p.header_buffer.size) :: rest := by
  have hret := pad_tarheader_ret k fuel header header_offset p h
  refine ⟨⟨?_, hret.2.2.1⟩, ?_⟩
  · rw [hret.2.1]; simp only [FS_PAGESIZE]; omega
  · intro tarfile w hpos hw hc
    subst hpos
    obtain ⟨p', rest, hp', hcalls⟩ := tarwrite_cloned k fuel tarfile header w hw hc
    rw [h] at hp'
    simp only [Run.ret.injEq] at hp'
    subst hp'
    exact ⟨rest, hcalls⟩

/-- C1 at scenario 1 of the specification: the padded header of `hello.txt` at offset
0 is 4096 bytes long, 2560 more than the plain one, and the body is cloned at 4096. -/
theorem pad_tarheader_page_aligned_witness :
    ((0 + 4096) % FS_PAGESIZE = 0 ∧
      (2560 : Int) = ((4096 : Nat) : Int) - (sample_kernel.WriteHeader hello).bytes.size) ∧
    ∃ w rest, tarwrite sample_kernel 3 new_archive hello = .ret w ∧ w.was_cloned = true ∧
      w.tarfile.calls = new_archive.calls ++ Syscall.write 0 ⟨4096, fun _ => 0⟩ ::
        Syscall.ficlonerange 0 0 (0 + 4096) :: rest := by
  have h := pad_tarheader_page_aligned sample_kernel 3 hello 0 _ sample_pad_hello
  refine ⟨h.1, ?_⟩
  obtain ⟨w, hw, hc⟩ := sample_tarwrite_hello
  obtain ⟨rest, hr⟩ := h.2 new_archive w rfl hw hc
  exact ⟨w, rest, hw, hc, hr⟩

theorem pad_tarheader_growth_pos (k : Kernel) (fuel : Nat) (header : Header)
    (header_offset : Nat) (p : Padded)
    (h : pad_tarheader k fuel header header_offset = .ret p) :
    0 < p.header_growth ∧ (k.WriteHeader header).bytes.size < p.header_buffer.size := by
  have hret := pad_tarheader_ret k fuel header header_offset p h
  rw [hret.2.2.1, hret.2.1]
  simp only [FS_PAGESIZE]
  omega

theorem sample_pad_hello_aligned :
    pad_tarheader sample_kernel 3 hello 2560
      = .ret ⟨4096, ⟨5632, fun _ => 0⟩,
          { hello with PAXRecords := [(pax_padding_headerkey, strings_Repeat "X" 4095)] }⟩ := by
  have h := pad_tarheader_eq sample_kernel 3 hello 2560 2 4 (strings_Repeat "X" 4095)
    ⟨5632, fun _ => 0⟩
    (by rw [sample_size_plain hello rfl])
    (by rw [sample_size_filler])
    (by decide)
    (by rw [sample_size_filler]; decide)
    (by rw [sample_size_filler]; decide)
    (by rw [sample_size_filler]; rfl)
    (by rw [sample_size_padded hello 4095 (by omega) (by omega)])
    (by rw [sample_size_plain hello rfl]; rfl)
  rw [sample_size_plain hello rfl] at h
  exact h

/-- C8, on the code: the plain header of `hello.txt` is 1536 bytes long, so at offset
2560 it already ends on a page boundary; `pad_tarheader` nevertheless returns a padded
buffer of 5632 bytes with growth 4096. In every environment, a returning
`pad_tarheader` reports a positive growth and a buffer longer than the plain header:
`padout_size` is `4096 - x % 4096`, which is never 0. -/
theorem pad_tarheader_pads_aligned_header :
    (2560 + (sample_kernel.WriteHeader hello).bytes.size) % FS_PAGESIZE = 0 ∧
    pad_tarheader sample_kernel 3 hello 2560
      = .ret ⟨4096, ⟨5632, fun _ => 0⟩,
          { hello with PAXRecords := [(pax_padding_headerkey, strings_Repeat "X" 4095)] }⟩ ∧
    ∀ (k : Kernel) (fuel : Nat) (header : Header) (header_offset : Nat) (p : Padded),
      pad_tarheader k fuel header header_offset = .ret p →
      0 < p.header_growth ∧ (k.WriteHeader header).bytes.size < p.header_buffer.size := by
  refine ⟨?_, sample_pad_hello_aligned, pad_tarheader_growth_pos⟩
  rw [sample_size_plain hello rfl]
  rfl

theorem pad_tarheader_congr (k k' : Kernel) (h1 : k.WriteHeader = k'.WriteHeader)
    (h2 : k.ceil_log10 = k'.ceil_log10) (fuel : Nat) (header : Header) (header_offset : Nat) :
    pad_tarheader k fuel header header_offset = pad_tarheader k' fuel header header_offset := by
  unfold pad_tarheader
  rw [h1, h2]

/-- Every failing clone of a body ends the process. -/
theorem tarwrite_body_clone_failure (k : Kernel) (fuel : Nat) (infile : Content)
    (tarfile : File) (header : Header) (pristine : Content) (p : Padded) (e : Errno)
    (hp : pad_tarheader k fuel header tarfile.pos = .ret p)
    (hg : ¬ p.header_growth > header.Size)
    (hw : k.write_err tarfile.pos p.header_buffer = none)
    (ht : k.tell_err (tarfile.pos + p.header_buffer.size) = none)
    (hc : k.clone_err infile (tarfile.pos + p.header_buffer.size) = some e) :
    tarwrite_body k fuel infile tarfile header tarfile.pos pristine = .exit := by
  have hret := pad_tarheader_ret k fuel header tarfile.pos p hp
  have hne : p.header_buffer.size ≠ 0 := by
    rw [hret.2.1]; simp only [FS_PAGESIZE]; omega
  simp [tarwrite_body, hp, Run.bind, hg, File.WriteTo, hne, hw, ficlone_into_archive,
    Deduptar.tell, ht, hc, log_Fatalln]

/-- C2, on the code: in the sample environment with a clone that fails with EXDEV,
`tarwrite` of `hello.txt` (10 KiB, growth 2560) takes the clone path and ends the
process at `log.Fatalln(ficlone_err)`, before the EXDEV test. -/
theorem tarwrite_exits_on_EXDEV :
    sample_kernel_exdev.clone_err sample_content 4096 = some .EXDEV ∧
    tarwrite sample_kernel_exdev 3 new_archive hello = .exit := by
  refine ⟨rfl, ?_⟩
  have hp : pad_tarheader sample_kernel_exdev 3 hello new_archive.pos = _ :=
    (pad_tarheader_congr sample_kernel_exdev sample_kernel rfl rfl 3 hello 0).trans
      sample_pad_hello
  have hb := tarwrite_body_clone_failure sample_kernel_exdev 3 sample_content new_archive hello
    (sample_kernel_exdev.WriteHeader hello).bytes _ .EXDEV hp (by decide) rfl rfl rfl
  have e1 : hello.Typeflag = TypeReg := rfl
  have e2 : hello.Size = 10240 := rfl
  have e3 : sample_kernel_exdev.OpenFile hello.Name true = .ok sample_content := rfl
  have e4 : sample_kernel_exdev.tell_err new_archive.pos = none := rfl
  simp only [tarwrite, Deduptar.tell, e4, Run.bind, e1, e2, e3]
  simpa using hb

theorem copyrange_returns (k : Kernel) (src : Content) (f : File) (header : Header)
    (ht : k.tell_err f.pos = none) :
    ∃ r, copyrange_into_archive k src f header = .ret r := by
  unfold copyrange_into_archive Deduptar.tell
  simp only [ht, Run.bind]
  split
  · exact ⟨_, rfl⟩
  · split <;> exact ⟨_, rfl⟩

theorem is_resize_not_clone (rest : List Syscall) (h : ∀ c ∈ rest, Syscall.is_resize c)
    (a b c : Nat) : Syscall.ficlonerange a b c ∉ rest := by
  intro hm
  exact h _ hm

theorem tarwrite_body_copied (k : Kernel) (fuel : Nat) (infile : Content) (tarfile : File)
    (header : Header) (p : Padded)
    (htell : ∀ n, k.tell_err n = none)
    (hp : pad_tarheader k fuel header tarfile.pos = .ret p)
    (hg : (header.Size : Int) < p.header_growth) :
    ∃ w new, tarwrite_body k fuel infile tarfile header tarfile.pos
        (k.WriteHeader header).bytes = .ret w ∧
      w.was_cloned = false ∧ w.tarfile.calls = tarfile.calls ++ new ∧
      (∀ a b c, Syscall.ficlonerange a b c ∉ new) ∧
      (w.abort_err = none → ∃ rest,
        new = (if (k.WriteHeader header).bytes.size = 0 then []
            else [Syscall.write tarfile.pos (k.WriteHeader header).bytes]) ++
          Syscall.copy_file_range 0 (tarfile.pos + (k.WriteHeader header).bytes.size)
            header.Size :: rest) := by
  have hret := pad_tarheader_ret k fuel header tarfile.pos p hp
  have hsize : p.header.Size = header.Size := hret.2.2.2.1
  unfold tarwrite_body
  simp only [hp, Run.bind, gt_iff_lt, hg, if_true]
  by_cases hb : (k.WriteHeader header).bytes.size = 0
  · have hw : tarfile.WriteTo k (k.WriteHeader header).bytes = (tarfile, none) := by
      simp [File.WriteTo, hb]
    obtain ⟨r, hr⟩ := copyrange_returns k infile tarfile p.header (htell _)
    obtain ⟨rest, h1, h2⟩ := copyrange_calls k infile tarfile p.header r hr
    simp only [hw, hr]
    refine ⟨_, _, rfl, rfl, h1, ?_, ?_⟩
    · intro a b c hm
      rcases List.mem_cons.1 hm with h | h
      · cases h
      · exact h2 _ h
    · intro _
      exact ⟨rest, by simp [hb, hsize]⟩
  · cases hwe : k.write_err tarfile.pos (k.WriteHeader header).bytes with
    | some e =>
      have hw : tarfile.WriteTo k (k.WriteHeader header).bytes
          = ({ tarfile with calls := tarfile.calls ++ [Syscall.write tarfile.pos
              (k.WriteHeader header).bytes] }, some (.value (.syscall e))) := by
        simp [File.WriteTo, hb, hwe]
      simp only [hw]
      refine ⟨_, _, rfl, rfl, rfl, ?_, ?_⟩
      · intro a b c hm
        simp at hm
      · intro h; simp at h
    | none =>
      have hw2 : (tarfile.WriteTo k (k.WriteHeader header).bytes).2 = none := by
        simp [File.WriteTo, hb, hwe]
      have hpos := WriteTo_pos k tarfile _ hw2
      have hcalls := WriteTo_calls k tarfile _ hb
      obtain ⟨r, hr⟩ := copyrange_returns k infile
        (tarfile.WriteTo k (k.WriteHeader header).bytes).1 p.header (htell _)
      obtain ⟨rest, h1, h2⟩ := copyrange_calls k infile _ p.header r hr
      simp only [hw2, hr]
      refine ⟨_, Syscall.write tarfile.pos (k.WriteHeader header).bytes ::
          Syscall.copy_file_range 0 (tarfile.pos + (k.WriteHeader header).bytes.size)
            header.Size :: rest, rfl, rfl, ?_, ?_, ?_⟩
      · simp only [h1, hcalls, hpos, hsize]; simp
      · intro a b c hm
        rcases List.mem_cons.1 hm with h | h
        · cases h
        · rcases List.mem_cons.1 h with h | h
          · cases h
          · exact h2 _ h
      · intro _
        exact ⟨rest, by simp [hb]⟩

theorem sample_pad_tiny :
    pad_tarheader sample_kernel 3 tiny 0
      = .ret ⟨2560, ⟨4096, fun _ => 0⟩,
          { tiny with PAXRecords := [(pax_padding_headerkey, strings_Repeat "X" 2559)] }⟩ := by
  have h := pad_tarheader_eq sample_kernel 3 tiny 0 2 4 (strings_Repeat "X" 2559)
    ⟨4096, fun _ => 0⟩
    (by rw [sample_size_plain tiny rfl])
    (by rw [sample_size_filler])
    (by decide)
    (by rw [sample_size_filler]; decide)
    (by rw [sample_size_filler]; decide)
    (by rw [sample_size_filler]; rfl)
    (by rw [sample_size_padded tiny 2559 (by omega) (by omega)])
    (by rw [sample_size_plain tiny rfl]; rfl)
  rw [sample_size_plain tiny rfl] at h
  exact h

theorem sample_tarwrite_tiny :
    ∃ w, tarwrite sample_kernel 3 new_archive tiny = .ret w ∧ w.abort_err = none := by
  have e1 : tiny.Typeflag = TypeReg := rfl
  have e2 : tiny.Size = 1 := rfl
  have e3 : sample_kernel.OpenFile tiny.Name true = .ok sample_content := rfl
  have e4 : sample_kernel.tell_err = fun _ => none := rfl
  have e5 : sample_kernel.write_err = fun _ _ => none := rfl
  have e6 : sample_kernel.CopyFileRange = fun (_ : Content) (len : Nat) (_ : Nat) => ((len : Int), (none : Option Errno)) := rfl
  have e7 : sample_kernel.seek_err = fun _ => none := rfl
  have e8 : sample_kernel.truncate_err = fun _ _ => none := rfl
  have e10 : new_archive.pos = 0 := rfl
  have e11 : new_archive.size = 0 := rfl
  have e12 : sample_kernel.WriteHeader tiny = ⟨⟨1536, fun _ => 0⟩, false⟩ :=
    sample_size_plain tiny rfl
  simp only [tarwrite, tarwrite_body, Deduptar.tell, Run.bind, e1, e2, e3, e4, sample_pad_tiny,
    copyrange_into_archive, File.WriteTo, File.SeekEnd, File.Truncate, pad512, e5, e6, e7, e8,
    e10, e11, e12]
  simp [TAR_BLOCKSIZE]

/-- For a regular-file record of positive size whose size is smaller than the growth
that `pad_tarheader` computes at the archive's offset (as it is for a 1-byte file when
the offset and the plain header's length are multiples of 512), `tarwrite` on a
seekable archive returns `was_cloned = false`, makes no `FICLONERANGE` call, and, when
it reports no error, has written the plain header at the offset and made one
`copy_file_range` of the body right behind it. -/
theorem tarwrite_small_body_copied (k : Kernel) (fuel : Nat) (tarfile : File) (header : Header)
    (p : Padded)
    (hreg : header.Typeflag = TypeReg) (hsz : header.Size ≠ 0)
    (htell : ∀ n, k.tell_err n = none)
    (hp : pad_tarheader k fuel header tarfile.pos = .ret p)
    (hg : (header.Size : Int) < p.header_growth ∨
      (header.Size = 1 ∧ tarfile.pos % TAR_BLOCKSIZE = 0 ∧
        (k.WriteHeader header).bytes.size % TAR_BLOCKSIZE = 0)) :
    (header.Size : Int) < p.header_growth ∧
    ∃ w new, tarwrite k fuel tarfile header = .ret w ∧
      w.was_cloned = false ∧ w.tarfile.calls = tarfile.calls ++ new ∧
      (∀ a b c, Syscall.ficlonerange a b c ∉ new) ∧
      (w.abort_err = none → ∃ rest,
        new = (if (k.WriteHeader header).bytes.size = 0 then []
            else [Syscall.write tarfile.pos (k.WriteHeader header).bytes]) ++
          Syscall.copy_file_range 0 (tarfile.pos + (k.WriteHeader header).bytes.size)
            header.Size :: rest) := by
  have hsmall : (header.Size : Int) < p.header_growth := by
    rcases hg with h | ⟨h1, h2, h3⟩
    · exact h
    · have hret := pad_tarheader_ret k fuel header tarfile.pos p hp
      rw [hret.2.2.1, hret.2.1, h1]
      simp only [FS_PAGESIZE, TAR_BLOCKSIZE] at *
      omega
  refine ⟨hsmall, ?_⟩
  unfold tarwrite Deduptar.tell
  simp only [htell, Run.bind, hreg, hsz, ne_eq, not_true_eq_false, or_self, if_false]
  split
  · exact tarwrite_body_copied k fuel _ tarfile header p htell hp hsmall
  · split
    · exact ⟨_, [], rfl, rfl, by simp, by simp, by simp⟩
    · split
      · exact ⟨_, [], rfl, rfl, by simp, by simp, by simp⟩
      · exact tarwrite_body_copied k fuel _ tarfile header p htell hp hsmall

/-- Scenario 2 of the specification: the 1-byte file at offset 0. -/
theorem tarwrite_small_body_copied_witness :
    ((tiny.Size : Int) < 2560) ∧
    ∃ w new, tarwrite sample_kernel 3 new_archive tiny = .ret w ∧ w.abort_err = none ∧
      w.was_cloned = false ∧ w.tarfile.calls = new_archive.calls ++ new ∧
      (∀ a b c, Syscall.ficlonerange a b c ∉ new) ∧
      ∃ rest, new = Syscall.write 0 (sample_kernel.WriteHeader tiny).bytes ::
          Syscall.copy_file_range 0 1536 1 :: rest := by
  have h := tarwrite_small_body_copied sample_kernel 3 new_archive tiny _ rfl (by decide)
    (fun _ => rfl) sample_pad_tiny
    (Or.inr ⟨rfl, rfl, by rw [sample_size_plain tiny rfl]; rfl⟩)
  obtain ⟨hs, w, new, hw, hc, hcalls, hno, htrace⟩ := h
  obtain ⟨w', hw', he⟩ := sample_tarwrite_tiny
  rw [hw] at hw'
  simp only [Run.ret.injEq] at hw'
  subst hw'
  obtain ⟨rest, hrest⟩ := htrace he
  refine ⟨hs, w, new, hw, he, hc, hcalls, hno, rest, ?_⟩
  rw [hrest, sample_size_plain tiny rfl]
  rfl

/-! ## The extractor -/

/-- One turn of `records_loop` without `--freakout`, for a record whose target exists
already: one warning, `allgood` becomes false, no verbose line, the loop goes on. -/
theorem records_loop_already_exists (k : XKernel) (fuel : Nat) (archive : Content)
    (tarfile_name extractdir : String) (extractdir_fd : Int) (same_owner channel : Bool)
    (ending : Option Errno) (entry : TarEntry) (rest : List TarEntry) (x x1 : X)
    (allgood was_cloned : Bool) (Path : String)
    (h : extract_one k fuel archive x extractdir_fd (k.Clean (k.Join extractdir entry.header.Name))
      entry.header entry.tar_pos same_owner
        = .ret (x1, ⟨was_cloned, some (.value (.targetAlreadyExists Path))⟩)) :
    records_loop k fuel archive tarfile_name extractdir extractdir_fd same_owner false channel
        ending (entry :: rest) x allgood
      = records_loop k fuel archive tarfile_name extractdir extractdir_fd same_owner false
          channel ending rest
          { x1 with messages := (warning_message channel x1.messages
              ("Skipping: " ++ (Err.targetAlreadyExists Path).Error)) }
          false := by
  simp [records_loop, h, Run.bind, errors_As_unhandledRecord, errors_As_targetAlreadyExists]

/-- One turn of `records_loop` without `--freakout`, for a record whose error matches
neither `errors.As`: the verbose line of a success, `allgood` unchanged, the loop goes
on. -/
theorem records_loop_unmatched (k : XKernel) (fuel : Nat) (archive : Content)
    (tarfile_name extractdir : String) (extractdir_fd : Int) (same_owner channel : Bool)
    (ending : Option Errno) (entry : TarEntry) (rest : List TarEntry) (x x1 : X)
    (allgood was_cloned : Bool) (err : Option GoError)
    (h : extract_one k fuel archive x extractdir_fd (k.Clean (k.Join extractdir entry.header.Name))
      entry.header entry.tar_pos same_owner = .ret (x1, ⟨was_cloned, err⟩))
    (h1 : errors_As_unhandledRecord err = none)
    (h2 : errors_As_targetAlreadyExists err = none) :
    records_loop k fuel archive tarfile_name extractdir extractdir_fd same_owner false channel
        ending (entry :: rest) x allgood
      = records_loop k fuel archive tarfile_name extractdir extractdir_fd same_owner false
          channel ending rest
          { x1 with messages := (verbose_message channel x1.messages (verbose_line
              (if was_cloned then "file (cloned)"
                else humanize_tar_recordtype entry.header.Typeflag)
              entry.header.Name)) }
          allgood := by
  simp [records_loop, h, Run.bind, h1, h2]

/-- C3, on the code: a record of type `'7'` makes `extract_one` return
`&unhandledRecord{...}`, a pointer, which the `errors.As` of `Extract` does not match:
without `--freakout`, `Extract` publishes no warning for it, leaves `allgood` true and
publishes the verbose line of a success. (A record whose target exists is handled as
the claim says: `records_loop_already_exists`.) -/
theorem Extract_reports_unhandled_record_as_extracted :
    (extract_one (sample_xkernel (some .ENOENT) none) 2 sample_archive
        (new_extraction.call (sample_xkernel (some .ENOENT) none)
          (.openat AT_FDCWD "out" (O_PATH ||| O_DIRECTORY) 0)).1 3 "out/contiguous"
        contiguous (some 512) false).map (fun r => r.2)
      = .ret ⟨false, some (.pointer (.unhandledRecord "out/contiguous" 55))⟩ ∧
    (Extract (sample_xkernel (some .ENOENT) none) 2 sample_archive "in.tar"
        [⟨contiguous, some 512⟩] none "out" false false true).map
        (fun r => (r.allgood, r.abort_err, r.x.messages))
      = .ret (true, none, [⟨VerboseMessage, "7              \tcontiguous"⟩]) ∧
    (Extract (sample_xkernel none none) 2 sample_archive "in.tar"
        [⟨hello, some 512⟩] none "out" false false true).map
        (fun r => (r.allgood, r.abort_err, r.x.messages))
      = .ret (false, none,
          [⟨WarningMessage, "Skipping: Target already exists: 'out/hello.txt'"⟩]) := by
  refine ⟨by decide, by decide, by decide⟩

/-- C4, on the code: the `openat` of `hello.txt` fails with EACCES (13), so
`extract_one` returns an `errorDuringOp`; without `--freakout`, `Extract` does not stop:
it publishes the verbose line of a success for the record and returns `allgood = true`
and no error. With `--freakout` the same error is returned as the fatal error. -/
theorem Extract_ignores_other_errors :
    (extract_one (sample_xkernel (some .ENOENT) (some (.other 13))) 2 sample_archive
        (new_extraction.call (sample_xkernel (some .ENOENT) (some (.other 13)))
          (.openat AT_FDCWD "out" (O_PATH ||| O_DIRECTORY) 0)).1 3 "out/hello.txt"
        hello (some 512) false).map (fun r => r.2)
      = .ret ⟨false, some (.value (.errorDuringOp "out/hello.txt" "openat()" (.other 13)))⟩ ∧
    (Extract (sample_xkernel (some .ENOENT) (some (.other 13))) 2 sample_archive "in.tar"
        [⟨hello, some 512⟩] none "out" false false true).map
        (fun r => (r.allgood, r.abort_err, r.x.messages))
      = .ret (true, none, [⟨VerboseMessage, "file           \thello.txt"⟩]) ∧
    (Extract (sample_xkernel (some .ENOENT) (some (.other 13))) 2 sample_archive "in.tar"
        [⟨hello, some 512⟩] none "out" false true true).map
        (fun r => (r.allgood, r.abort_err, r.x.messages))
      = .ret (true, some (.value (.errorDuringOp "out/hello.txt" "openat()" (.other 13))),
          []) := by
  refine ⟨by decide, by decide, by decide⟩

theorem copyrange_from_archive_calls (k : XKernel) (archive : Content) (x : X)
    (src_offset len : Nat) (dst_fd : Int) (dst_offset : Nat) (full_path : String) :
    (copyrange_from_archive k archive x src_offset len dst_fd dst_offset full_path).1.calls
      = x.calls ++ [XCall.copy_file_range src_offset dst_fd dst_offset len] := by
  unfold copyrange_from_archive
  simp only [X.call]
  split
  · rfl
  · split <;> rfl

theorem clone_from_archive_calls (k : XKernel) (archive : Content) (x : X) (dest_fd : Int)
    (src_offset src_length dest_offset : Nat) :
    (clone_from_archive k archive x dest_fd src_offset src_length dest_offset).1.calls
        = x.calls ++ [XCall.ficlonerange dest_fd src_offset src_length dest_offset] ∧
    (clone_from_archive k archive x dest_fd src_offset src_length dest_offset).2
        = errno_of (k.answer
            (x.calls ++ [XCall.ficlonerange dest_fd src_offset src_length dest_offset])) := by
  unfold clone_from_archive
  simp only [X.call]
  split
  · rename_i h; exact ⟨rfl, h.symm⟩
  · rename_i h; exact ⟨rfl, h.symm⟩

/-- The calls of the payload of an aligned record with a partial last page, when the
clone succeeds: the clone of the aligned prefix, then a `copy_file_range` of the spill
that reads at `tar_pos`, the start of the body. -/
theorem extract_payload_spill (k : XKernel) (archive : Content) (x : X) (outfile_handle : Int)
    (full_path : String) (header : Header) (tar_pos : Nat)
    (hpos : tar_pos % FS_PAGESIZE = 0) (hspill : header.Size % FS_PAGESIZE > 0)
    (hclone : errno_of (k.answer (x.calls ++ [XCall.ficlonerange outfile_handle tar_pos
      (header.Size - header.Size % FS_PAGESIZE) 0])) = none) :
    ∃ c, extract_payload k archive x outfile_handle full_path header (some tar_pos) = .ret c ∧
      c.was_cloned = true ∧ c.err = none ∧
      c.x.calls = x.calls ++
        [XCall.ficlonerange outfile_handle tar_pos (header.Size - header.Size % FS_PAGESIZE) 0,
         XCall.copy_file_range tar_pos outfile_handle (header.Size - header.Size % FS_PAGESIZE)
           (header.Size % FS_PAGESIZE),
         XCall.fsync outfile_handle] := by
  have hc := clone_from_archive_calls k archive x outfile_handle tar_pos
    (header.Size - header.Size % FS_PAGESIZE) 0
  rw [hclone] at hc
  unfold extract_payload
  simp only [hpos, if_true, hc.2, hspill]
  refine ⟨_, rfl, rfl, rfl, ?_⟩
  simp [X.call, copyrange_from_archive_calls, hc.1]

/-- C5, on the code: the record `spilling` has 4097 bytes and its body begins at archive
offset 4096. With a clone of the aligned prefix (4096 bytes) that succeeds,
`extract_one` copies the spill of one byte with `copy_file_range` from archive offset
4096, the start of the body, to target offset 4096: the last byte of the extracted file
is the archive's byte 4096 (81), not its byte 8192 (162). -/
theorem extract_one_spill_reads_body_start :
    (extract_one (sample_xkernel (some .ENOENT) none) 2 sample_archive new_extraction 3
        "out/spilling" spilling (some 4096) false).map
        (fun r => (r.2, r.1.calls, r.1.files 5 4095, r.1.files 5 4096))
      = .ret (⟨true, none⟩,
          [.openat2 3 ".", .fstatat 4 "spilling" 256, .openat 4 "spilling" 449 420,
           .ficlonerange 5 4096 4096 0, .copy_file_range 4096 5 4096 1, .fsync 5,
           .fchmod 5 420,
           .futimes 5 ⟨1577836800, 123456789⟩ ⟨1577836800, 123456789⟩,
           .close 5, .close 4],
          sample_archive.byte (4096 + 4095), sample_archive.byte 4096) ∧
    sample_archive.byte 4096 = 81 ∧ sample_archive.byte (4096 + 4096) = 162 := by
  refine ⟨by decide, by decide, by decide⟩

/-- C10, on the code: for the modification time 2020-01-01T00:00:00.123456789Z the
timeval that `extract_one` builds has `Sec = 1577836800` and `Usec = 123456789`, which
is the nanosecond count and no microsecond count below 1000000; `extract_one` passes
this pair to `Futimes`. For every header, `Usec` is the header time's `Nanosecond()`. -/
theorem timestamp_usec_holds_nanoseconds :
    timestamp hello = (⟨1577836800, 123456789⟩, ⟨1577836800, 123456789⟩) ∧
    ¬ ((timestamp hello).2.Usec < 1000000) ∧
    (extract_one (sample_xkernel (some .ENOENT) none) 2 sample_archive new_extraction 3
        "out/hello.txt" hello (some 512) false).map
        (fun r => decide (XCall.futimes 5 ⟨1577836800, 123456789⟩ ⟨1577836800, 123456789⟩
          ∈ r.1.calls)) = .ret true ∧
    ∀ header : Header,
      (timestamp header).1 = ⟨header.AccessTime.Unix, header.AccessTime.Nanosecond⟩ ∧
      (timestamp header).2 = ⟨header.ModTime.Unix, header.ModTime.Nanosecond⟩ := by
  refine ⟨by decide, by decide, by decide, fun _ => ⟨rfl, rfl⟩⟩

/-! ## The archiver's walk -/

theorem width_loop_const (c : Int) (fuel : Nat) (h : 2 ≤ fuel) :
    width_loop (fun _ => c) fuel 0 ≠ none := by
  obtain ⟨n, rfl⟩ : ∃ n, fuel = n + 2 := ⟨fuel - 2, by omega⟩
  simp only [width_loop]
  split
  · simp
  · simp

/-- With fuel for its loops, `pad_tarheader` returns or ends the process. -/
theorem pad_tarheader_not_stuck (k : Kernel) (padfuel : Nat) (h2 : 2 ≤ padfuel)
    (hlog : width_loop (fun w => k.ceil_log10 (w + (11 : Nat))) padfuel 0 ≠ none)
    (header : Header) (header_offset : Nat) :
    pad_tarheader k padfuel header header_offset ≠ .stuck := by
  unfold pad_tarheader
  simp only [pax_header_overhead, key_size, filler_size]
  have e11 : (3 + 7 + 1 : Nat) = 11 := rfl
  simp only [e11]
  split
  · simp
  split
  · simp
  split
  · simp
  split
  · simp
  split
  · rename_i h; exact absurd h hlog
  · split
    · rename_i h; exact absurd h (width_loop_const _ padfuel h2)
    · split
      · simp
      split
      · simp
      split <;> simp

theorem copyrange_not_stuck (k : Kernel) (src : Content) (f : File) (header : Header) :
    copyrange_into_archive k src f header ≠ .stuck := by
  unfold copyrange_into_archive Deduptar.tell
  cases k.tell_err f.pos with
  | some e => simp [Run.bind]
  | none =>
    simp only [Run.bind]
    split
    · simp
    · split <;> simp

theorem ficlone_not_stuck (k : Kernel) (src : Content) (f : File) (header : Header) :
    ficlone_into_archive k src f header ≠ .stuck := by
  unfold ficlone_into_archive Deduptar.tell
  cases k.tell_err f.pos with
  | some e => simp [Run.bind]
  | none =>
    simp only [Run.bind]
    split
    · simp
    · split <;> simp

theorem bind_not_stuck {α β : Type} (r : Run α) (f : α → Run β) (h : r ≠ .stuck)
    (hf : ∀ a, f a ≠ .stuck) : r.bind f ≠ .stuck := by
  cases r with
  | ret a => exact hf a
  | exit => simp [Run.bind]
  | stuck => exact absurd rfl h

theorem tarwrite_body_not_stuck (k : Kernel) (padfuel : Nat)
    (hpad : ∀ header off, pad_tarheader k padfuel header off ≠ .stuck)
    (infile : Content) (tarfile : File) (header : Header) (pos : Nat) (pristine : Content) :
    tarwrite_body k padfuel infile tarfile header pos pristine ≠ .stuck := by
  unfold tarwrite_body
  apply bind_not_stuck _ _ (hpad _ _)
  intro p
  split
  · simp only
    split
    · simp
    · apply bind_not_stuck _ _ (copyrange_not_stuck _ _ _ _)
      intro r; simp
  · simp only
    split
    · simp
    · apply bind_not_stuck _ _ (ficlone_not_stuck _ _ _ _)
      intro r
      split
      · simp [log_Fatalln, Run.bind]
      · simp

theorem tarwrite_not_stuck (k : Kernel) (padfuel : Nat)
    (hpad : ∀ header off, pad_tarheader k padfuel header off ≠ .stuck)
    (tarfile : File) (header : Header) :
    tarwrite k padfuel tarfile header ≠ .stuck := by
  unfold tarwrite Deduptar.tell
  cases k.tell_err tarfile.pos with
  | some e => simp [Run.bind]
  | none =>
    simp only [Run.bind]
    split
    · simp
    · split
      · exact tarwrite_body_not_stuck k padfuel hpad _ _ _ _ _
      · split
        · simp
        · split
          · simp
          · exact tarwrite_body_not_stuck k padfuel hpad _ _ _ _ _

theorem keeps_refl (w : Walk) : w.keeps w := ⟨fun _ h => h, fun h => h, [], by simp⟩

theorem keeps_trans {a b c : Walk} (h1 : a.keeps b) (h2 : b.keeps c) : a.keeps c := by
  obtain ⟨m1, hm1⟩ := h1.2.2
  obtain ⟨m2, hm2⟩ := h2.2.2
  exact ⟨fun n h => h2.1 n (h1.1 n h), fun h => h2.2.1 (h1.2.1 h), m1 ++ m2,
    by rw [hm2, hm1, List.append_assoc]⟩

theorem keeps_of_eq (w w1 : Walk) (hv : w1.visited_registry = w.visited_registry)
    (hl : w1.listed = w.listed) : w.keeps w1 := by
  refine ⟨fun n h => by rw [hv]; exact h, fun h => ?_, [], by simp [hl]⟩
  unfold Walk.listed_once at *
  rw [hv, hl]; exact h

theorem keeps_mark (w w3 : Walk) (node : nodeID) (hnew : w.visited_registry node = false)
    (hv : w3.visited_registry = fun n => if n = node then true else w.visited_registry n)
    (hl : w3.listed = w.listed ++ [node]) : w.keeps w3 := by
  refine ⟨fun n h => ?_, fun h => ?_, [node], hl⟩
  · rw [hv]; simp [h]
  · unfold Walk.listed_once at *
    rw [hv, hl]
    refine ⟨?_, ?_⟩
    · rw [List.nodup_append]
      refine ⟨h.1, List.nodup_singleton _, ?_⟩
      intro a ha hb
      rw [List.mem_singleton] at hb
      subst hb
      have := h.2 a ha
      rw [hnew] at this
      exact Bool.noConfusion this
    · intro n hn
      rcases List.mem_append.1 hn with hn | hn
      · have := h.2 n hn
        simp [this]
      · rw [List.mem_singleton] at hn
        simp [hn]

theorem unvisited_le (dirs : Finset nodeID) (w w1 : Walk) (h : w.keeps w1) :
    w1.unvisited dirs ≤ w.unvisited dirs := by
  unfold Walk.unvisited
  apply Finset.card_le_card
  intro n hn
  rw [Finset.mem_filter] at hn ⊢
  refine ⟨hn.1, ?_⟩
  cases hv : w.visited_registry n with
  | false => rfl
  | true => have := h.1 n hv; rw [hn.2] at this; exact Bool.noConfusion this

theorem unvisited_lt (dirs : Finset nodeID) (w w3 : Walk) (node : nodeID)
    (hd : node ∈ dirs) (hnew : w.visited_registry node = false)
    (hv : w3.visited_registry = fun n => if n = node then true else w.visited_registry n) :
    w3.unvisited dirs < w.unvisited dirs := by
  unfold Walk.unvisited
  apply Finset.card_lt_card
  rw [Finset.ssubset_iff_of_subset]
  · refine ⟨node, ?_, ?_⟩
    · rw [Finset.mem_filter]; exact ⟨hd, hnew⟩
    · rw [Finset.mem_filter, hv]; simp
  · intro n hn
    rw [Finset.mem_filter] at hn ⊢
    refine ⟨hn.1, ?_⟩
    rw [hv] at hn
    by_cases hnode : n = node
    · simp [hnode] at hn
    · simpa [hnode] using hn.2

theorem archive_files_keeps (t : Tree) (recurse : Walk → String → Run (Walk × Option GoError))
    (dir : String) (dirs : Finset nodeID) (fuel : Nat)
    (hrec : ∀ w p, (∀ r, recurse w p = .ret r → w.keeps r.1) ∧
      (w.unvisited dirs < fuel → recurse w p ≠ .stuck)) :
    ∀ files w, (∀ r, archive_files t recurse dir w files = .ret r → w.keeps r.1) ∧
      (w.unvisited dirs < fuel → archive_files t recurse dir w files ≠ .stuck) := by
  intro files
  induction files with
  | nil =>
    intro w
    simp only [archive_files]
    exact ⟨fun r h => by simp only [Run.ret.injEq] at h; subst h; exact keeps_refl w,
      fun _ => by simp⟩
  | cons file files ih =>
    intro w
    simp only [archive_files]
    cases hr : recurse w (t.filepath_Join dir file) with
    | exit => simp [Run.bind]
    | stuck =>
      simp only [Run.bind]
      exact ⟨fun r h => by simp at h, fun hm => absurd hr ((hrec w _).2 hm)⟩
    | ret r1 =>
      have hk := (hrec w _).1 r1 hr
      simp only [Run.bind]
      split
      · exact ⟨fun r h => by simp only [Run.ret.injEq] at h; subst h; exact hk,
          fun _ => by simp⟩
      · refine ⟨fun r h => keeps_trans hk ((ih r1.1).1 r h), fun hm => (ih r1.1).2 ?_⟩
        exact lt_of_le_of_lt (unvisited_le dirs w r1.1 hk) hm

theorem walk_keeps (k : Kernel) (t : Tree) (padfuel : Nat)
    (follow_symlinks no_recurse channel : Bool) (dirs : Finset nodeID)
    (hdirs : ∀ path finfo, (t.Stat path = .ok finfo ∨ t.Lstat path = .ok finfo) →
      finfo.IsDir = true → (⟨finfo.Dev, finfo.Ino⟩ : nodeID) ∈ dirs)
    (hstuck : ∀ f h, tarwrite k padfuel f h ≠ .stuck) :
    ∀ fuel w inpath,
      (∀ r, archive_one_recursively k t padfuel follow_symlinks no_recurse channel fuel w inpath
        = .ret r → w.keeps r.1) ∧
      (w.unvisited dirs < fuel →
        archive_one_recursively k t padfuel follow_symlinks no_recurse channel fuel w inpath
          ≠ .stuck) := by
  intro fuel
  induction fuel with
  | zero =>
    intro w inpath
    simp [archive_one_recursively]
  | succ fuel ih =>
    intro w inpath
    simp only [archive_one_recursively]
    split
    · exact ⟨fun r h => by simp only [Run.ret.injEq] at h; subst h; exact keeps_refl w,
        fun _ => by simp⟩
    · rename_i finfo hstat
      have hnode : finfo.IsDir = true → (⟨finfo.Dev, finfo.Ino⟩ : nodeID) ∈ dirs := by
        intro hd
        refine hdirs inpath finfo ?_ hd
        split at hstat
        · exact Or.inl hstat
        · exact Or.inr hstat
      split
      · exact ⟨fun r h => by simp only [Run.ret.injEq] at h; subst h; exact keeps_refl w,
          fun _ => by simp⟩
      · split
        · exact ⟨fun r h => by simp at h, fun _ => by simp⟩
        · simp only [Run.bind]
          split
          · rename_i written hw
            split
            · refine ⟨fun r h => ?_, fun _ => by simp⟩
              simp only [Run.ret.injEq] at h; subst h
              exact keeps_of_eq _ _ rfl rfl
            · split
              · rename_i hdir
                split
                · refine ⟨fun r h => ?_, fun _ => by simp⟩
                  simp only [Run.ret.injEq] at h; subst h
                  exact keeps_of_eq _ _ rfl rfl
                · rename_i hvis
                  simp only [Bool.not_eq_true] at hvis
                  split
                  · refine ⟨fun r h => ?_, fun _ => by simp⟩
                    simp only [Run.ret.injEq] at h; subst h
                    exact keeps_mark _ _ _ hvis rfl rfl
                  · rename_i files hfiles
                    have haf := fun dir w3 => archive_files_keeps t
                      (archive_one_recursively k t padfuel follow_symlinks no_recurse channel
                        fuel) dir dirs fuel ih files w3
                    refine ⟨fun r h => ?_, fun hm => ?_⟩
                    · have h3 := (haf _ _).1 r h
                      exact keeps_trans (keeps_mark w _ _ hvis rfl rfl) h3
                    · apply (haf _ _).2
                      refine lt_of_lt_of_le (unvisited_lt dirs w _ ⟨finfo.Dev, finfo.Ino⟩
                        (hnode hdir.1) hvis rfl) ?_
                      omega
              · refine ⟨fun r h => ?_, fun _ => by simp⟩
                simp only [Run.ret.injEq] at h; subst h
                exact keeps_of_eq _ _ rfl rfl
          · exact ⟨fun r h => by simp at h, fun _ => by simp⟩
          · rename_i hw
            exact absurd hw (hstuck _ _)

theorem unvisited_le_card (dirs : Finset nodeID) (w : Walk) : w.unvisited dirs ≤ dirs.card :=
  Finset.card_le_card (Finset.filter_subset _ _)

theorem archive_inpaths_keeps (k : Kernel) (t : Tree) (fuel padfuel : Nat)
    (follow_symlinks no_recurse channel : Bool) (dirs : Finset nodeID)
    (hrec : ∀ w p,
      (∀ r, archive_one_recursively k t padfuel follow_symlinks no_recurse channel fuel w p
        = .ret r → w.keeps r.1) ∧
      (w.unvisited dirs < fuel →
        archive_one_recursively k t padfuel follow_symlinks no_recurse channel fuel w p
          ≠ .stuck))
    (hfuel : dirs.card < fuel) :
    ∀ inpaths w,
      (∀ r, archive_inpaths k t fuel padfuel follow_symlinks no_recurse channel w inpaths
        = .ret r → w.keeps r.1) ∧
      archive_inpaths k t fuel padfuel follow_symlinks no_recurse channel w inpaths ≠ .stuck := by
  intro inpaths
  induction inpaths with
  | nil =>
    intro w
    simp only [archive_inpaths]
    exact ⟨fun r h => by simp only [Run.ret.injEq] at h; subst h; exact keeps_refl w, by simp⟩
  | cons inpath inpaths ih =>
    intro w
    simp only [archive_inpaths]
    have hm : w.unvisited dirs < fuel := lt_of_le_of_lt (unvisited_le_card dirs w) hfuel
    cases hr : archive_one_recursively k t padfuel follow_symlinks no_recurse channel fuel w
        inpath with
    | exit => simp [Run.bind]
    | stuck => exact absurd hr ((hrec w _).2 hm)
    | ret r1 =>
      have hk := (hrec w _).1 r1 hr
      simp only [Run.bind]
      split
      · exact ⟨fun r h => by simp only [Run.ret.injEq] at h; subst h; exact hk, by simp⟩
      · exact ⟨fun r h => keeps_trans hk ((ih r1.1).1 r h), (ih r1.1).2⟩

theorem start_listed_once (dst_archive : String) : (Walk.start dst_archive).listed_once := by
  simp [Walk.start, Walk.listed_once]

theorem Archive_keeps (k : Kernel) (t : Tree) (fuel padfuel : Nat)
    (follow_symlinks no_recurse channel : Bool) (dirs : Finset nodeID)
    (hrec : ∀ w p,
      (∀ r, archive_one_recursively k t padfuel follow_symlinks no_recurse channel fuel w p
        = .ret r → w.keeps r.1) ∧
      (w.unvisited dirs < fuel →
        archive_one_recursively k t padfuel follow_symlinks no_recurse channel fuel w p
          ≠ .stuck))
    (hfuel : dirs.card < fuel) (dst_archive : String) (inpaths : List String) :
    Archive k t fuel padfuel dst_archive inpaths follow_symlinks no_recurse channel ≠ .stuck ∧
    ∀ r, Archive k t fuel padfuel dst_archive inpaths follow_symlinks no_recurse channel = .ret r →
      r.1.listed.Nodup := by
  have hin := archive_inpaths_keeps k t fuel padfuel follow_symlinks no_recurse channel dirs hrec
    hfuel inpaths (Walk.start dst_archive)
  unfold Archive
  split
  · refine ⟨by simp, fun r h => ?_⟩
    simp only [Run.ret.injEq] at h; subst h
    exact (start_listed_once dst_archive).1
  · cases hr : archive_inpaths k t fuel padfuel follow_symlinks no_recurse channel
        (Walk.start dst_archive) inpaths with
    | exit => simp [Run.bind]
    | stuck => exact absurd hr hin.2
    | ret r1 =>
      have hk := (hin.1 r1 hr).2.1 (start_listed_once dst_archive)
      simp only [Run.bind]
      split
      · refine ⟨by simp, fun r h => ?_⟩
        simp only [Run.ret.injEq] at h; subst h
        exact hk.1
      · refine ⟨by simp, fun r h => ?_⟩
        simp only [Run.ret.injEq] at h; subst h
        exact hk.1

/-- A directory whose node is already marked is not listed again: the walk returns with
the registry and the list of listed directories unchanged and, when `tarwrite` reported
no error, with the warning behind the verbose line. -/
theorem walk_visited_directory (k : Kernel) (t : Tree) (padfuel : Nat)
    (follow_symlinks channel : Bool) (fuel : Nat) (w : Walk) (inpath : String)
    (finfo : FileInfo)
    (hstat : (if follow_symlinks then t.Stat inpath else t.Lstat inpath) = .ok finfo)
    (hdir : finfo.IsDir = true)
    (hvis : w.visited_registry ⟨finfo.Dev, finfo.Ino⟩ = true)
    (r : Walk × Option GoError)
    (h : archive_one_recursively k t padfuel follow_symlinks false channel (fuel + 1) w inpath
      = .ret r) :
    r.1.listed = w.listed ∧ r.1.visited_registry = w.visited_registry ∧
    (r.2 = none → ∃ line, r.1.messages = warning_message channel
      (verbose_message channel w.messages line)
      ("Skipping directory (already visited): " ++ inpath)) := by
  simp only [archive_one_recursively, hstat] at h
  split at h
  · simp only [Run.ret.injEq] at h; subst h; simp
  · split at h
    · simp at h
    · simp only [Run.bind] at h
      split at h
      · split at h
        · simp only [Run.ret.injEq] at h; subst h; simp
        · simp only [hdir, hvis, Bool.false_eq_true, not_false_eq_true, and_self, if_true] at h
          simp only [Run.ret.injEq] at h; subst h
          exact ⟨rfl, rfl, fun _ => ⟨_, rfl⟩⟩
      · simp at h
      · simp at h

/-- A directory whose node is not yet marked is marked and listed, once the walk of it
returns without an error. -/
theorem walk_new_directory (k : Kernel) (t : Tree) (padfuel : Nat)
    (follow_symlinks channel : Bool) (fuel : Nat) (w : Walk) (inpath : String)
    (finfo : FileInfo)
    (hrec : ∀ w p r, archive_one_recursively k t padfuel follow_symlinks false channel fuel w p
        = .ret r → w.keeps r.1)
    (hstat : (if follow_symlinks then t.Stat inpath else t.Lstat inpath) = .ok finfo)
    (hdir : finfo.IsDir = true)
    (hvis : w.visited_registry ⟨finfo.Dev, finfo.Ino⟩ = false)
    (r : Walk × Option GoError)
    (h : archive_one_recursively k t padfuel follow_symlinks false channel (fuel + 1) w inpath
      = .ret r) (hok : r.2 = none) :
    r.1.visited_registry ⟨finfo.Dev, finfo.Ino⟩ = true ∧
    ∃ more, r.1.listed = w.listed ++ (⟨finfo.Dev, finfo.Ino⟩ : nodeID) :: more := by
  simp only [archive_one_recursively, hstat] at h
  split at h
  · simp only [Run.ret.injEq] at h; subst h; simp at hok
  · split at h
    · simp at h
    · simp only [Run.bind] at h
      split at h
      · split at h
        · simp only [Run.ret.injEq] at h; subst h; simp at hok
        · simp only [hdir, hvis, Bool.false_eq_true, not_false_eq_true, and_self, if_true,
            if_false] at h
          split at h
          · simp only [Run.ret.injEq] at h; subst h; simp at hok
          · have hk := (archive_files_keeps t
              (archive_one_recursively k t padfuel follow_symlinks false channel fuel) _ ∅ 0
              (fun w p => ⟨hrec w p, fun hm => absurd hm (Nat.not_lt_zero _)⟩) _ _).1 r h
            refine ⟨hk.1 _ (by simp), ?_⟩
            obtain ⟨more, hmore⟩ := hk.2.2
            exact ⟨more, by rw [hmore]; simp⟩
      · simp at h
      · simp at h

/-- On a file tree whose directories have their nodes in a finite set `dirs`, an
`Archive` with recursion, started with more fuel than `dirs` has nodes, never runs out of
fuel (it returns or ends the process), and it lists no directory node twice. In the
walk, a directory whose node is already marked is not listed again and gets the warning
`Skipping directory (already visited): <path>`; a directory whose node is not yet marked
is marked and listed. The math library is assumed to settle the length-field width of
the 11-byte record within `padfuel` rounds. -/
theorem archive_lists_each_directory_once (k : Kernel) (t : Tree) (padfuel : Nat)
    (follow_symlinks channel : Bool) (dirs : Finset nodeID)
    (hdirs : ∀ path finfo, (t.Stat path = .ok finfo ∨ t.Lstat path = .ok finfo) →
      finfo.IsDir = true → (⟨finfo.Dev, finfo.Ino⟩ : nodeID) ∈ dirs)
    (hpadfuel : 2 ≤ padfuel)
    (hlog : width_loop (fun w => k.ceil_log10 (w + (11 : Nat))) padfuel 0 ≠ none)
    (fuel : Nat) (hfuel : dirs.card < fuel) (dst_archive : String) (inpaths : List String) :
    Archive k t fuel padfuel dst_archive inpaths follow_symlinks false channel ≠ .stuck ∧
    (∀ r, Archive k t fuel padfuel dst_archive inpaths follow_symlinks false channel = .ret r →
      r.1.listed.Nodup) ∧
    ∀ (n : Nat) (w : Walk) (inpath : String) (finfo : FileInfo) (r : Walk × Option GoError),
      (if follow_symlinks then t.Stat inpath else t.Lstat inpath) = .ok finfo →
      finfo.IsDir = true →
      archive_one_recursively k t padfuel follow_symlinks false channel (n + 1) w inpath
        = .ret r →
      (w.visited_registry ⟨finfo.Dev, finfo.Ino⟩ = true →
        r.1.listed = w.listed ∧ r.1.visited_registry = w.visited_registry ∧
        (r.2 = none → ∃ line, r.1.messages = warning_message channel
          (verbose_message channel w.messages line)
          ("Skipping directory (already visited): " ++ inpath))) ∧
      (w.visited_registry ⟨finfo.Dev, finfo.Ino⟩ = false → r.2 = none →
        r.1.visited_registry ⟨finfo.Dev, finfo.Ino⟩ = true ∧
        ∃ more, r.1.listed = w.listed ++ (⟨finfo.Dev, finfo.Ino⟩ : nodeID) :: more) := by
  have hstuck : ∀ f h, tarwrite k padfuel f h ≠ .stuck :=
    tarwrite_not_stuck k padfuel (pad_tarheader_not_stuck k padfuel hpadfuel hlog)
  have hrec := walk_keeps k t padfuel follow_symlinks false channel dirs hdirs hstuck
  have ha := Archive_keeps k t fuel padfuel follow_symlinks false channel dirs (hrec fuel) hfuel
    dst_archive inpaths
  refine ⟨ha.1, ha.2, ?_⟩
  intro n w inpath finfo r hstat hdir h
  exact ⟨fun hvis => walk_visited_directory k t padfuel follow_symlinks channel n w inpath finfo
      hstat hdir hvis r h,
    fun hvis hok => walk_new_directory k t padfuel follow_symlinks channel n w inpath finfo
      (fun w p r h => ((hrec n) w p).1 r h) hstat hdir hvis r h hok⟩

theorem sample_tree_dirs (path : String) (finfo : FileInfo)
    (h : sample_tree.Stat path = .ok finfo ∨ sample_tree.Lstat path = .ok finfo)
    (hd : finfo.IsDir = true) : (⟨finfo.Dev, finfo.Ino⟩ : nodeID) ∈ ({⟨1, 10⟩} : Finset nodeID) := by
  have h' : sample_stat path = .ok finfo := by
    rcases h with h | h <;> exact h
  unfold sample_stat at h'
  split_ifs at h' <;> simp only [Except.ok.injEq, reduceCtorEq] at h' <;> subst h' <;> simp at hd ⊢

/-- Scenario 5 of the specification: a directory that holds a bind mount of
itself is listed once; the second encounter gets the warning. -/
theorem archive_lists_each_directory_once_witness :
    Archive sample_kernel sample_tree 2 3 "out.tar" ["d"] false false true ≠ .stuck ∧
    (∀ r, Archive sample_kernel sample_tree 2 3 "out.tar" ["d"] false false true = .ret r →
      r.1.listed.Nodup) ∧
    (Archive sample_kernel sample_tree 2 3 "out.tar" ["d"] false false true).map
        (fun r => (r.2, r.1.listed, r.1.messages))
      = .ret (none, [⟨1, 10⟩],
          [⟨VerboseMessage, "directory     \td/"⟩, ⟨VerboseMessage, "hardlink      \td/loop/"⟩,
           ⟨WarningMessage, "Skipping directory (already visited): d/loop"⟩]) := by
  have h := archive_lists_each_directory_once sample_kernel sample_tree 3 false true
    {⟨1, 10⟩} sample_tree_dirs (by decide) (by decide) 2 (by decide) "out.tar" ["d"]
  exact ⟨h.1, h.2.1, by decide⟩

/-! ## The hardlink registry -/

theorem first_path_append (records : List Record) (q : Record) (node : nodeID) :
    first_path (records ++ [q]) node =
      match first_path records node with
      | some first => some first
      | none => if q.node = node ∧ 1 < q.Nlink then some q.header.Name else none := by
  unfold first_path
  rw [List.find?_append]
  cases h : List.find? (fun q => decide (q.node = node ∧ 1 < q.Nlink)) records with
  | some a => simp
  | none =>
    simp only [Option.none_or, Option.map_none', List.find?_cons, List.find?_nil]
    by_cases hq : q.node = node ∧ 1 < q.Nlink
    · simp [hq]
    · simp [hq]

theorem links_ok_congr (w w1 : Walk) (hr : w1.records = w.records)
    (hh : w1.hardlink_registry = w.hardlink_registry) (h : w.links_ok) : w1.links_ok := by
  unfold Walk.links_ok at *
  rw [hr, hh]; exact h

/-- Handing one more header to `tarwrite` keeps the registry and the records in
step. -/
theorem links_ok_emit (w w1 : Walk) (node : nodeID) (Nlink : Nat) (plain : Header)
    (hr : w1.records = w.records ++
      [⟨node, Nlink, plain, (hardlink_handling w.hardlink_registry node Nlink plain).1⟩])
    (hh : w1.hardlink_registry = (hardlink_handling w.hardlink_registry node Nlink plain).2)
    (h : w.links_ok) : w1.links_ok := by
  obtain ⟨h1, h2⟩ := h
  have hfirst : first_path w.records node = w.hardlink_registry node := (h1 node).symm
  refine ⟨fun node' => ?_, fun pre q post hq hn => ?_⟩
  · rw [hh, hr, first_path_append, ← h1 node']
    unfold hardlink_handling
    by_cases hl : Nlink > 1
    · simp only [hl, if_true]
      cases hreg : w.hardlink_registry node with
      | some other =>
        simp only
        cases hreg' : w.hardlink_registry node' with
        | some o => rfl
        | none =>
          simp only
          have : ¬ (node = node') := by
            intro e; subst e; rw [hreg] at hreg'; exact Option.noConfusion hreg'
          simp [this]
      | none =>
        simp only
        by_cases e : node' = node
        · subst e; simp [hreg, hl]
        · have e' : ¬ node = node' := fun x => e x.symm
          simp only [e, if_false, e', false_and]
          cases w.hardlink_registry node' <;> rfl
    · simp only [hl, if_false]
      have : ¬ (1 < Nlink) := hl
      simp only [this, and_false, if_false]
      cases w.hardlink_registry node' <;> rfl
  · rw [hr] at hq
    rcases List.eq_nil_or_concat post with hp | ⟨post', x, hp⟩
    · subst hp
      have := List.append_inj' hq rfl
      obtain ⟨e1, e2⟩ := this
      simp only [List.cons.injEq, and_true] at e2
      subst e1
      subst e2
      simp only at hn ⊢
      rw [hfirst]
      unfold hardlink_handling
      have hl : Nlink > 1 := hn
      simp only [hl, if_true]
      cases w.hardlink_registry node <;> rfl
    · subst hp
      have e : pre ++ q :: post'.concat x = (pre ++ q :: post') ++ [x] := by simp
      rw [e] at hq
      have := List.append_inj' hq rfl
      exact h2 pre q post' this.1 hn

theorem archive_files_links (t : Tree) (recurse : Walk → String → Run (Walk × Option GoError))
    (dir : String)
    (hrec : ∀ w p r, recurse w p = .ret r → w.links_ok → r.1.links_ok) :
    ∀ files w r, archive_files t recurse dir w files = .ret r → w.links_ok → r.1.links_ok := by
  intro files
  induction files with
  | nil =>
    intro w r h hw
    simp only [archive_files, Run.ret.injEq] at h; subst h; exact hw
  | cons file files ih =>
    intro w r h hw
    simp only [archive_files] at h
    cases hr : recurse w (t.filepath_Join dir file) with
    | exit => simp [hr, Run.bind] at h
    | stuck => simp [hr, Run.bind] at h
    | ret r1 =>
      have hk := hrec w _ r1 hr hw
      simp only [hr, Run.bind] at h
      split at h
      · simp only [Run.ret.injEq] at h; subst h; exact hk
      · exact ih r1.1 r h hk

theorem walk_links (k : Kernel) (t : Tree) (padfuel : Nat)
    (follow_symlinks no_recurse channel : Bool) :
    ∀ fuel w inpath r,
      archive_one_recursively k t padfuel follow_symlinks no_recurse channel fuel w inpath
        = .ret r → w.links_ok → r.1.links_ok := by
  intro fuel
  induction fuel with
  | zero =>
    intro w inpath r h
    simp [archive_one_recursively] at h
  | succ fuel ih =>
    intro w inpath r h hw
    simp only [archive_one_recursively] at h
    split at h
    · simp only [Run.ret.injEq] at h; subst h; exact hw
    · rename_i finfo hstat
      split at h
      · simp only [Run.ret.injEq] at h; subst h; exact hw
      · split at h
        · simp at h
        · simp only [Run.bind] at h
          split at h
          · rename_i written hwr
            split at h
            · simp only [Run.ret.injEq] at h; subst h
              exact links_ok_emit w _ _ _ _ rfl rfl hw
            · split at h
              · split at h
                · simp only [Run.ret.injEq] at h; subst h
                  exact links_ok_emit w _ _ _ _ rfl rfl hw
                · split at h
                  · simp only [Run.ret.injEq] at h; subst h
                    exact links_ok_emit w _ _ _ _ rfl rfl hw
                  · exact archive_files_links t _ _ ih _ _ r h (links_ok_emit w _ _ _ _ rfl rfl hw)
              · simp only [Run.ret.injEq] at h; subst h
                exact links_ok_emit w _ _ _ _ rfl rfl hw
          · simp at h
          · simp at h

theorem archive_inpaths_links (k : Kernel) (t : Tree) (fuel padfuel : Nat)
    (follow_symlinks no_recurse channel : Bool) :
    ∀ inpaths w r,
      archive_inpaths k t fuel padfuel follow_symlinks no_recurse channel w inpaths = .ret r →
      w.links_ok → r.1.links_ok := by
  intro inpaths
  induction inpaths with
  | nil =>
    intro w r h hw
    simp only [archive_inpaths, Run.ret.injEq] at h; subst h; exact hw
  | cons inpath inpaths ih =>
    intro w r h hw
    simp only [archive_inpaths] at h
    cases hr : archive_one_recursively k t padfuel follow_symlinks no_recurse channel fuel w
        inpath with
    | exit => simp [hr, Run.bind] at h
    | stuck => simp [hr, Run.bind] at h
    | ret r1 =>
      have hk := walk_links k t padfuel follow_symlinks no_recurse channel fuel w inpath r1 hr hw
      simp only [hr, Run.bind] at h
      split at h
      · simp only [Run.ret.injEq] at h; subst h; exact hk
      · exact ih r1.1 r h hk

theorem start_links_ok (dst_archive : String) : (Walk.start dst_archive).links_ok := by
  refine ⟨fun node => rfl, fun pre q post h => ?_⟩
  simp [Walk.start] at h

theorem Archive_links (k : Kernel) (t : Tree) (fuel padfuel : Nat) (dst_archive : String)
    (inpaths : List String) (follow_symlinks no_recurse channel : Bool)
    (r : Walk × Option GoError)
    (h : Archive k t fuel padfuel dst_archive inpaths follow_symlinks no_recurse channel
      = .ret r) : r.1.links_ok := by
  unfold Archive at h
  split at h
  · simp only [Run.ret.injEq] at h; subst h; exact start_links_ok dst_archive
  · cases hr : archive_inpaths k t fuel padfuel follow_symlinks no_recurse channel
        (Walk.start dst_archive) inpaths with
    | exit => simp [hr, Run.bind] at h
    | stuck => simp [hr, Run.bind] at h
    | ret r1 =>
      have hk := archive_inpaths_links k t fuel padfuel follow_symlinks no_recurse channel
        inpaths _ r1 hr (start_links_ok dst_archive)
      simp only [hr, Run.bind] at h
      split at h
      · simp only [Run.ret.injEq] at h; subst h; exact hk
      · simp only [Run.ret.injEq] at h; subst h
        exact links_ok_congr r1.1 _ rfl rfl hk

theorem map_eq_ret {α β : Type} (f : α → β) (x : Run α) (b : β) (h : x.map f = .ret b) :
    ∃ a, x = .ret a ∧ f a = b := by
  cases x with
  | ret a => exact ⟨a, rfl, by simpa [Run.map, Run.bind] using h⟩
  | exit => simp [Run.map, Run.bind] at h
  | stuck => simp [Run.map, Run.bind] at h

/-- C6: in the records that an `Archive` operation has handed to `tarwrite` (whether it
ended with an error or not), a record with more than one link that is the first of its
node was handed over as `tar.FileInfoHeader` made it (a regular file as a regular-file
record) and its archive name is the node's entry of the hardlink registry at the end;
every later record of that node with more than one link was handed over as a hardlink
record whose link target is the archive name of the first one. -/
theorem archive_hardlinks_follow_first_path (k : Kernel) (t : Tree) (fuel padfuel : Nat)
    (dst_archive : String) (inpaths : List String) (follow_symlinks no_recurse channel : Bool)
    (r : Walk × Option GoError)
    (h : Archive k t fuel padfuel dst_archive inpaths follow_symlinks no_recurse channel
      = .ret r)
    (pre : List Record) (q : Record) (post : List Record)
    (hq : r.1.records = pre ++ q :: post) (hn : 1 < q.Nlink) :
    (first_path pre q.node = none →
      q.header = q.plain ∧ r.1.hardlink_registry q.node = some q.plain.Name) ∧
    (∀ first, first_path pre q.node = some first →
      q.header = { q.plain with Typeflag := TypeLink, Linkname := first }) := by
  obtain ⟨h1, h2⟩ := Archive_links k t fuel padfuel dst_archive inpaths follow_symlinks
    no_recurse channel r h
  have hh := h2 pre q post hq hn
  refine ⟨fun hnone => ?_, fun first hsome => ?_⟩
  · rw [hnone] at hh
    refine ⟨hh, ?_⟩
    rw [h1, hq]
    unfold first_path at hnone ⊢
    rw [List.find?_append]
    cases hf : List.find? (fun x => decide (x.node = q.node ∧ 1 < x.Nlink)) pre with
    | some a => rw [hf] at hnone; simp at hnone
    | none => simp [hn, hh]
  · rw [hsome] at hh
    exact hh

/-- The records of the three names of one file (scenario 3 of the specification). -/
theorem sample_records :
    (Archive sample_kernel sample_tree 2 3 "out.tar" ["a", "b", "c"] false false true).map
        (fun r => (r.2, r.1.records))
      = .ret (none,
          [⟨⟨1, 20⟩, 3, sample_plain "a", sample_plain "a"⟩] ++
           ⟨⟨1, 20⟩, 3, sample_plain "b",
            { sample_plain "b" with Typeflag := TypeLink, Linkname := "a" }⟩ ::
          [⟨⟨1, 20⟩, 3, sample_plain "c",
            { sample_plain "c" with Typeflag := TypeLink, Linkname := "a" }⟩]) := by
  decide

/-- C6 at scenario 3 of the specification: of the names `a`, `b`, `c` of one file, `a`
is archived as a regular file, and `b` as a hardlink to `a`. -/
theorem archive_hardlinks_follow_first_path_witness :
    ∃ r, Archive sample_kernel sample_tree 2 3 "out.tar" ["a", "b", "c"] false false true
        = .ret r ∧
      r.1.records = [⟨⟨1, 20⟩, 3, sample_plain "a", sample_plain "a"⟩] ++
           ⟨⟨1, 20⟩, 3, sample_plain "b",
            { sample_plain "b" with Typeflag := TypeLink, Linkname := "a" }⟩ ::
          [⟨⟨1, 20⟩, 3, sample_plain "c",
            { sample_plain "c" with Typeflag := TypeLink, Linkname := "a" }⟩] ∧
      first_path [⟨⟨1, 20⟩, 3, sample_plain "a", sample_plain "a"⟩] ⟨1, 20⟩ = some "a" ∧
      ({ sample_plain "b" with Typeflag := TypeLink, Linkname := "a" } : Header)
        = { sample_plain "b" with Typeflag := TypeLink, Linkname := "a" } := by
  obtain ⟨r, hr, hm⟩ := map_eq_ret _ _ _ sample_records
  simp only [Prod.mk.injEq] at hm
  have h := archive_hardlinks_follow_first_path sample_kernel sample_tree 2 3 "out.tar"
    ["a", "b", "c"] false false true r hr _ _ _ hm.2 (by decide)
  exact ⟨r, hr, hm.2, by decide, h.2 "a" (by decide)⟩

/-! ## Device numbers -/

theorem or_eq_add_of_lt (a b i : Nat) (h : b < 2 ^ i) : (a * 2 ^ i) ||| b = a * 2 ^ i + b := by
  rw [Nat.mul_comm]
  exact (Nat.mul_add_lt_is_or h a).symm

/-- Masking with `n` one bits that begin at bit `lo`. -/
theorem and_shifted_mask (x n lo : Nat) :
    x &&& ((2 ^ n - 1) <<< lo) = x / 2 ^ lo % 2 ^ n * 2 ^ lo := by
  rw [← Nat.and_pow_two_sub_one_eq_mod, ← Nat.shiftRight_eq_div_pow, ← Nat.shiftLeft_eq]
  apply Nat.eq_of_testBit_eq
  intro j
  simp only [Nat.testBit_and, Nat.testBit_shiftLeft, Nat.testBit_shiftRight]
  by_cases h : j ≥ lo
  · have e : lo + (j - lo) = j := by omega
    simp [h, e]
  · simp [h]

/-- The Go `uint64(x) & ^uint64(0xff)` and `uint64(x) & ^uint64(0xfff)` clear the low
bits, which is how `makedev` is written here. -/
theorem uint64_and_not_low (x : Nat) (h : x < 2 ^ 64) :
    x &&& 0xffffffffffffff00 = x - x % 0x100 ∧ x &&& 0xfffffffffffff000 = x - x % 0x1000 := by
  have e1 := and_shifted_mask x 56 8
  have e2 := and_shifted_mask x 52 12
  refine ⟨e1.trans ?_, e2.trans ?_⟩ <;> omega

theorem makedev_eq (maj min : Nat) (hmaj : maj < 2 ^ 32) (hmin : min < 2 ^ 32) :
    makedev maj min = linux_dev_t maj min := by
  unfold makedev linux_dev_t
  have e1 : min &&& 0xff = min % 2 ^ 8 := Nat.and_pow_two_sub_one_eq_mod min 8
  have e2 : maj &&& 0xfff = maj % 2 ^ 12 := Nat.and_pow_two_sub_one_eq_mod maj 12
  rw [e1, e2]
  simp only [Nat.shiftLeft_eq]
  have a1 : min - min % 0x100 = (min / 2 ^ 8) * 2 ^ 8 := by omega
  have a2 : maj - maj % 0x1000 = (maj / 2 ^ 12) * 2 ^ 12 := by omega
  rw [a1, a2]
  have b1 : min / 2 ^ 8 * 2 ^ 8 * 2 ^ 12 = (min / 2 ^ 8) * 2 ^ 20 := by omega
  have b2 : maj / 2 ^ 12 * 2 ^ 12 * 2 ^ 32 = (maj / 2 ^ 12) * 2 ^ 44 := by omega
  rw [b1, b2]
  have c1 : min / 2 ^ 8 * 2 ^ 20 % 2 ^ 64 = min / 2 ^ 8 * 2 ^ 20 := by omega
  have c2 : maj / 2 ^ 12 * 2 ^ 44 % 2 ^ 64 = maj / 2 ^ 12 * 2 ^ 44 := by omega
  rw [c1, c2]
  have d1 : min % 2 ^ 8 ||| maj % 2 ^ 12 * 2 ^ 8 = maj % 2 ^ 12 * 2 ^ 8 + min % 2 ^ 8 := by
    rw [Nat.or_comm]
    exact or_eq_add_of_lt _ _ 8 (Nat.mod_lt _ (by decide))
  have d2 : (maj % 2 ^ 12 * 2 ^ 8 + min % 2 ^ 8) ||| min / 2 ^ 8 * 2 ^ 20
      = min / 2 ^ 8 * 2 ^ 20 + (maj % 2 ^ 12 * 2 ^ 8 + min % 2 ^ 8) := by
    rw [Nat.or_comm]
    exact or_eq_add_of_lt _ _ 20 (by omega)
  have d3 : (min / 2 ^ 8 * 2 ^ 20 + (maj % 2 ^ 12 * 2 ^ 8 + min % 2 ^ 8))
        ||| maj / 2 ^ 12 * 2 ^ 44
      = maj / 2 ^ 12 * 2 ^ 44 + (min / 2 ^ 8 * 2 ^ 20 + (maj % 2 ^ 12 * 2 ^ 8 + min % 2 ^ 8)) := by
    rw [Nat.or_comm]
    exact or_eq_add_of_lt _ _ 44 (by omega)
  rw [d1, d2, d3]
  omega

theorem linux_major_dev_t (maj min : Nat) (hmaj : maj < 2 ^ 32) (hmin : min < 2 ^ 32) :
    linux_major (linux_dev_t maj min) = maj := by
  unfold linux_major linux_dev_t
  simp only [Nat.shiftRight_eq_div_pow]
  have e1 : ∀ x, x &&& 0xfff = x % 2 ^ 12 := fun x => Nat.and_pow_two_sub_one_eq_mod x 12
  have e2 : ∀ x, x &&& 0xfffff000 = x / 2 ^ 12 % 2 ^ 20 * 2 ^ 12 :=
    fun x => and_shifted_mask x 20 12
  rw [e1, e2]
  generalize hd : min % 2 ^ 8 + maj % 2 ^ 12 * 2 ^ 8 + min / 2 ^ 8 * 2 ^ 20
    + maj / 2 ^ 12 * 2 ^ 44 = dev
  have f1 : dev / 2 ^ 8 % 2 ^ 12 = maj % 2 ^ 12 := by omega
  have g : dev / 2 ^ 32 = maj / 2 ^ 12 * 2 ^ 12 + min / 2 ^ 20 := by omega
  have hB : maj / 2 ^ 12 < 2 ^ 20 := by omega
  have hm : min / 2 ^ 20 < 2 ^ 12 := by omega
  have f2 : dev / 2 ^ 32 / 2 ^ 12 % 2 ^ 20 * 2 ^ 12 = maj / 2 ^ 12 * 2 ^ 12 := by
    rw [g]
    generalize maj / 2 ^ 12 = B at hB ⊢
    generalize min / 2 ^ 20 = m at hm ⊢
    clear hd f1 g e1 e2 hmaj hmin
    omega
  rw [f1, f2, Nat.or_comm, or_eq_add_of_lt _ _ 12 (Nat.mod_lt _ (by decide))]
  omega

theorem linux_minor_dev_t (maj min : Nat) (hmin : min < 2 ^ 32) :
    linux_minor (linux_dev_t maj min) = min := by
  unfold linux_minor linux_dev_t
  simp only [Nat.shiftRight_eq_div_pow]
  have e1 : ∀ x, x &&& 0xff = x % 2 ^ 8 := fun x => Nat.and_pow_two_sub_one_eq_mod x 8
  have e2 : ∀ x, x &&& 0xffffff00 = x / 2 ^ 8 % 2 ^ 24 * 2 ^ 8 :=
    fun x => and_shifted_mask x 24 8
  rw [e1, e2]
  generalize hd : min % 2 ^ 8 + maj % 2 ^ 12 * 2 ^ 8 + min / 2 ^ 8 * 2 ^ 20
    + maj / 2 ^ 12 * 2 ^ 44 = dev
  have f1 : dev % 2 ^ 8 = min % 2 ^ 8 := by omega
  have hA : min / 2 ^ 8 < 2 ^ 24 := by omega
  have f2 : dev / 2 ^ 12 / 2 ^ 8 % 2 ^ 24 * 2 ^ 8 = min / 2 ^ 8 * 2 ^ 8 := by
    have g3 : dev / 2 ^ 12 / 2 ^ 8 = maj / 2 ^ 12 * 2 ^ 24 + min / 2 ^ 8 := by
      rw [Nat.div_div_eq_div_mul]
      clear f1 e1 e2
      omega
    rw [g3]
    generalize maj / 2 ^ 12 = B
    generalize min / 2 ^ 8 = A at hA ⊢
    clear hd f1 e1 e2 hmin
    omega
  rw [f1, f2, Nat.or_comm, or_eq_add_of_lt _ _ 8 (Nat.mod_lt _ (by decide))]
  omega

/-- C16: for major and minor numbers below 2^32, `makedev` is the Linux `dev_t`
encoding, the Linux extraction of the major and of the minor number gives the two
numbers back, and so `makedev` is injective there. -/
theorem makedev_is_linux_dev_t (maj min : Nat) (hmaj : maj < 2 ^ 32) (hmin : min < 2 ^ 32) :
    makedev maj min = linux_dev_t maj min ∧
    linux_major (makedev maj min) = maj ∧ linux_minor (makedev maj min) = min ∧
    ∀ maj1 min1, maj1 < 2 ^ 32 → min1 < 2 ^ 32 → makedev maj min = makedev maj1 min1 →
      maj = maj1 ∧ min = min1 := by
  have e := makedev_eq maj min hmaj hmin
  refine ⟨e, ?_, ?_, ?_⟩
  · rw [e]; exact linux_major_dev_t maj min hmaj hmin
  · rw [e]; exact linux_minor_dev_t maj min hmin
  · intro maj1 min1 h1 h2 heq
    rw [e, makedev_eq maj1 min1 h1 h2] at heq
    have a := linux_major_dev_t maj min hmaj hmin
    have b := linux_minor_dev_t maj min hmin
    rw [heq] at a b
    exact ⟨a.symm.trans (linux_major_dev_t maj1 min1 h1 h2),
      b.symm.trans (linux_minor_dev_t maj1 min1 h2)⟩

theorem makedev_is_linux_dev_t_witness :
    (259 < 2 ^ 32 ∧ 65537 < 2 ^ 32) ∧ makedev 259 65537 = 268501761 ∧
    makedev 259 65537 = linux_dev_t 259 65537 ∧
    linux_major (makedev 259 65537) = 259 ∧ linux_minor (makedev 259 65537) = 65537 ∧
    ∀ maj1 min1, maj1 < 2 ^ 32 → min1 < 2 ^ 32 → makedev 259 65537 = makedev maj1 min1 →
      259 = maj1 ∧ 65537 = min1 :=
  ⟨by decide, by decide, makedev_is_linux_dev_t 259 65537 (by decide) (by decide)⟩

/-! ## Directory timestamps -/

/-- The shape of `extract_adorn`: the metadata calls leave the directory timestamps as
they were and, for an entry that is no symlink, end with `Futimes` and `Close` of the
entry; after them the function records the timestamps of a directory, or restores those
of the parent of another entry, and closes the directory handle. -/
theorem extract_adorn_shape (k : XKernel) (c : Created) (destfile_dirhandle : Int)
    (thing_basename full_path : String) (header : Header) (same_owner : Bool) :
    ∃ adorned : X × Option GoError,
      adorned.1.dir_timestamps = c.x.dir_timestamps ∧
      (header.Typeflag ≠ TypeSymlink → adorned.2 = none → ∃ pre fd, adorned.1.calls
        = pre ++ [XCall.futimes fd (timestamp header).1 (timestamp header).2, XCall.close fd]) ∧
      extract_adorn k c destfile_dirhandle thing_basename full_path header same_owner
        = match adorned.2 with
          | some err => (adorned.1, ⟨c.was_cloned, some err⟩)
          | none =>
            let recorded : X :=
              if header.Typeflag = TypeDir then
                { adorned.1 with dir_timestamps := fun path =>
                    if path = full_path then some (timestamp header)
                    else adorned.1.dir_timestamps path }
              else
                match adorned.1.dir_timestamps (k.Dir full_path) with
                | some parent_dir_timestamps =>
                  (adorned.1.call k (.futimes destfile_dirhandle parent_dir_timestamps.1
                    parent_dir_timestamps.2)).1
                | none => adorned.1
            ((recorded.call k (.close destfile_dirhandle)).1, ⟨c.was_cloned, none⟩) := by
  unfold extract_adorn
  refine ⟨_, ?_, ?_, rfl⟩
  · simp only [X.call]
    repeat' split
    all_goals rfl
  · intro hs
    simp only [X.call, hs, if_false]
    repeat' split
    all_goals first
      | (intro h; simp at h; done)
      | (intro _; exact ⟨_, _, List.append_assoc _ _ _⟩)

/-- An entry that is no directory: when its metadata is applied without error and the
map holds timestamps for `filepath.Dir(full_path)`, the last two calls of
`extract_one` are the `Futimes` of the directory handle with those timestamps and its
`Close`. -/
theorem extract_adorn_restores_parent (k : XKernel) (c : Created) (destfile_dirhandle : Int)
    (thing_basename full_path : String) (header : Header) (same_owner : Bool)
    (parent : Timeval × Timeval)
    (ht : header.Typeflag ≠ TypeDir)
    (hp : c.x.dir_timestamps (k.Dir full_path) = some parent)
    (hok : (extract_adorn k c destfile_dirhandle thing_basename full_path header
      same_owner).2.abort_err = none) :
    ∃ pre, (extract_adorn k c destfile_dirhandle thing_basename full_path header
        same_owner).1.calls
      = pre ++ [XCall.futimes destfile_dirhandle parent.1 parent.2,
          XCall.close destfile_dirhandle] := by
  obtain ⟨adorned, hd, _, he⟩ := extract_adorn_shape k c destfile_dirhandle thing_basename
    full_path header same_owner
  rw [he] at hok ⊢
  cases ha : adorned.2 with
  | some err => simp [ha] at hok
  | none =>
    simp only [ha, ht, if_false, hd, hp, X.call]
    exact ⟨adorned.1.calls, by simp⟩

/-- A directory: when its metadata is applied without error, `extract_one` records its
timestamps under `full_path`, and its last three calls are the `Futimes` and the `Close`
of the new directory and the `Close` of the directory handle: nothing is done to the
parent, whatever the map holds for it. -/
theorem extract_adorn_directory (k : XKernel) (c : Created) (destfile_dirhandle : Int)
    (thing_basename full_path : String) (header : Header) (same_owner : Bool)
    (ht : header.Typeflag = TypeDir)
    (hok : (extract_adorn k c destfile_dirhandle thing_basename full_path header
      same_owner).2.abort_err = none) :
    (extract_adorn k c destfile_dirhandle thing_basename full_path header
        same_owner).1.dir_timestamps full_path = some (timestamp header) ∧
    ∃ pre fd, (extract_adorn k c destfile_dirhandle thing_basename full_path header
        same_owner).1.calls
      = pre ++ [XCall.futimes fd (timestamp header).1 (timestamp header).2, XCall.close fd,
          XCall.close destfile_dirhandle] := by
  obtain ⟨adorned, _, hc, he⟩ := extract_adorn_shape k c destfile_dirhandle thing_basename
    full_path header same_owner
  have hs : header.Typeflag ≠ TypeSymlink := by rw [ht]; decide
  rw [he] at hok ⊢
  cases ha : adorned.2 with
  | some err => simp [ha] at hok
  | none =>
    obtain ⟨pre, fd, hcalls⟩ := hc hs ha
    simp only [ha, ht, if_true, X.call, hcalls]
    exact ⟨by simp, pre, fd, by simp⟩

/-- C11, on the code: `d/sub/` is a directory made in `d/`, for which the map holds the
timestamps recorded when `d/` was extracted. `extract_one` records the timestamps of
`d/sub/` under `out/d/sub`, but the restoring `Futimes` stands in the `else` of
`header.Typeflag == tar.TypeDir`: after the `mkdirat` of `sub` no call sets the times of
the handle 4 of `d`, whose modification time the `mkdirat` has changed. The regular file
`d/f` in the same place does get the parent restored (`futimes 4` with the times of
`d/`). In general, behind the type switch: a directory has its timestamps recorded and
the calls end with the `Futimes` and `Close` of the new directory and the `Close` of the
handle, with nothing done to the parent; every other entry whose parent has recorded
timestamps ends with the `Futimes` of the handle with them. -/
theorem extract_one_directory_skips_parent_restore :
    nested_xkernel.Dir "out/d/sub" = "out/d" ∧
    (Extract nested_xkernel 2 sample_archive "in.tar"
        [⟨dir_d, some 1536⟩, ⟨dir_sub, some 3072⟩] none "out" false false true).map
        (fun r => (r.allgood, r.abort_err, r.x.calls))
      = .ret (true, none,
          [.openat (-100) "out" 2162688 0,
           .openat2 3 ".", .fstatat 4 "d" 256, .mkdirat 4 "d" 493, .openat 4 "d" 65792 0,
           .fchmod 5 493, .futimes 5 ⟨1500000000, 0⟩ ⟨1400000000, 0⟩, .close 5, .close 4,
           .openat2 3 "d", .fstatat 4 "sub" 256, .mkdirat 4 "sub" 493,
           .openat 4 "sub" 65792 0, .fchmod 5 493,
           .futimes 5 ⟨1600000000, 0⟩ ⟨1300000000, 0⟩, .close 5, .close 4]) ∧
    (Extract nested_xkernel 2 sample_archive "in.tar"
        [⟨dir_d, some 1536⟩, ⟨dir_sub, some 3072⟩] none "out" false false true).map
        (fun r => (r.x.dir_timestamps "out/d", r.x.dir_timestamps "out/d/sub"))
      = .ret (some (⟨1500000000, 0⟩, ⟨1400000000, 0⟩),
          some (⟨1600000000, 0⟩, ⟨1300000000, 0⟩)) ∧
    (Extract nested_xkernel 2 sample_archive "in.tar"
        [⟨dir_d, some 1536⟩, ⟨file_f, some 4608⟩] none "out" false false true).map
        (fun r => (r.allgood, r.abort_err, r.x.calls))
      = .ret (true, none,
          [.openat (-100) "out" 2162688 0,
           .openat2 3 ".", .fstatat 4 "d" 256, .mkdirat 4 "d" 493, .openat 4 "d" 65792 0,
           .fchmod 5 493, .futimes 5 ⟨1500000000, 0⟩ ⟨1400000000, 0⟩, .close 5, .close 4,
           .openat2 3 "d", .fstatat 4 "f" 256, .openat 4 "f" 449 420,
           .copy_file_range 4608 5 0 10240, .fsync 5, .fchmod 5 420,
           .futimes 5 ⟨1577836800, 123456789⟩ ⟨1577836800, 123456789⟩, .close 5,
           .futimes 4 ⟨1500000000, 0⟩ ⟨1400000000, 0⟩, .close 4]) ∧
    (∀ (k : XKernel) (c : Created) (destfile_dirhandle : Int) (thing_basename full_path : String)
        (header : Header) (same_owner : Bool), header.Typeflag = TypeDir →
      (extract_adorn k c destfile_dirhandle thing_basename full_path header
        same_owner).2.abort_err = none →
      (extract_adorn k c destfile_dirhandle thing_basename full_path header
          same_owner).1.dir_timestamps full_path = some (timestamp header) ∧
      ∃ pre fd, (extract_adorn k c destfile_dirhandle thing_basename full_path header
          same_owner).1.calls
        = pre ++ [XCall.futimes fd (timestamp header).1 (timestamp header).2, XCall.close fd,
            XCall.close destfile_dirhandle]) ∧
    (∀ (k : XKernel) (c : Created) (destfile_dirhandle : Int) (thing_basename full_path : String)
        (header : Header) (same_owner : Bool) (parent : Timeval × Timeval),
      header.Typeflag ≠ TypeDir → c.x.dir_timestamps (k.Dir full_path) = some parent →
      (extract_adorn k c destfile_dirhandle thing_basename full_path header
        same_owner).2.abort_err = none →
      ∃ pre, (extract_adorn k c destfile_dirhandle thing_basename full_path header
          same_owner).1.calls
        = pre ++ [XCall.futimes destfile_dirhandle parent.1 parent.2,
            XCall.close destfile_dirhandle]) := by
  refine ⟨by decide, by decide, by decide, by decide, ?_, ?_⟩
  · intro k c d b p h so ht hok
    exact extract_adorn_directory k c d b p h so ht hok
  · intro k c d b p h so parent ht hp hok
    exact extract_adorn_restores_parent k c d b p h so parent ht hp hok

/-! ## Payload errors -/

/-- The only error that the payload of a regular file can end with is that of a clone
that failed with something else than `EXDEV`: what `copyrange_from_archive` returns
never reaches the result. -/
theorem extract_payload_err (k : XKernel) (archive : Content) (x : X) (outfile_handle : Int)
    (full_path : String) (header : Header) (tar_pos : Option Nat) (c : Created) (err : GoError)
    (h : extract_payload k archive x outfile_handle full_path header tar_pos = .ret c)
    (he : c.err = some err) :
    ∃ clone_err, clone_err ≠ Errno.EXDEV ∧
      err = .value (.errorDuringOp full_path "ficlone" clone_err) := by
  cases tar_pos with
  | none => simp [extract_payload] at h
  | some tp =>
    simp only [extract_payload] at h
    by_cases hp : tp % FS_PAGESIZE = 0
    · simp only [hp, if_true] at h
      cases hc : (clone_from_archive k archive x outfile_handle tp
          (header.Size - header.Size % FS_PAGESIZE) 0).2 with
      | some ce =>
        simp only [hc] at h
        by_cases hx : ce = Errno.EXDEV
        · simp only [hx, if_true, Run.ret.injEq] at h
          subst h
          simp at he
        · simp only [hx, if_false, Run.ret.injEq] at h
          subst h
          simp only [Option.some.injEq] at he
          exact ⟨ce, hx, he.symm⟩
      | none =>
        simp only [hc] at h
        by_cases hs : header.Size % FS_PAGESIZE > 0
        · simp only [hs, if_true, Run.ret.injEq] at h
          subst h
          simp at he
        · simp only [hs, if_false, Run.ret.injEq] at h
          subst h
          simp at he
    · simp only [hp, if_false, Run.ret.injEq] at h
      subst h
      simp at he

/-- C12, on the code: `copyrange_from_archive` does return an error for a failed
(`EIO`, 5) and for a short (100 of 10240 bytes) `copy_file_range`, but `extract_one`
calls it as a statement and drops the result. With the whole body copied at an
unaligned offset, with the whole body copied after a clone that failed with `EXDEV`,
and with the spill copied after a clone, `extract_one` returns no error, and `Extract`
reports the file as extracted, with and without `--freakout`. No error of a copy ever
leaves the payload code. -/
theorem extract_one_drops_copy_errors :
    (copyrange_from_archive (faulty_xkernel (.ok 0) (.error (.other 5))) sample_archive
        new_extraction 512 10240 5 0 "out/hello.txt").2
      = some (.value (.writesize "writing" "out/hello.txt" (-1) 10240)) ∧
    (copyrange_from_archive (faulty_xkernel (.ok 0) (.ok 100)) sample_archive
        new_extraction 512 10240 5 0 "out/hello.txt").2
      = some (.value (.writesize "writing" "out/hello.txt" 100 10240)) ∧
    (extract_one (faulty_xkernel (.ok 0) (.error (.other 5))) 2 sample_archive new_extraction 3
        "out/hello.txt" hello (some 512) false).map (fun r => (r.2, r.1.calls))
      = .ret (⟨false, none⟩,
          [.openat2 3 ".", .fstatat 4 "hello.txt" 256, .openat 4 "hello.txt" 449 420,
           .copy_file_range 512 5 0 10240, .fsync 5, .fchmod 5 420,
           .futimes 5 ⟨1577836800, 123456789⟩ ⟨1577836800, 123456789⟩,
           .close 5, .close 4]) ∧
    (extract_one (faulty_xkernel (.ok 0) (.ok 100)) 2 sample_archive new_extraction 3
        "out/hello.txt" hello (some 512) false).map (fun r => r.2) = .ret ⟨false, none⟩ ∧
    (extract_one (faulty_xkernel (.error .EXDEV) (.error (.other 5))) 2 sample_archive
        new_extraction 3 "out/hello.txt" hello (some 4096) false).map (fun r => (r.2, r.1.calls))
      = .ret (⟨false, none⟩,
          [.openat2 3 ".", .fstatat 4 "hello.txt" 256, .openat 4 "hello.txt" 449 420,
           .ficlonerange 5 4096 8192 0, .copy_file_range 4096 5 0 10240, .fsync 5,
           .fchmod 5 420, .futimes 5 ⟨1577836800, 123456789⟩ ⟨1577836800, 123456789⟩,
           .close 5, .close 4]) ∧
    (extract_one (faulty_xkernel (.ok 0) (.error (.other 5))) 2 sample_archive new_extraction 3
        "out/spilling" spilling (some 4096) false).map (fun r => (r.2, r.1.calls))
      = .ret (⟨true, none⟩,
          [.openat2 3 ".", .fstatat 4 "spilling" 256, .openat 4 "spilling" 449 420,
           .ficlonerange 5 4096 4096 0, .copy_file_range 4096 5 4096 1, .fsync 5,
           .fchmod 5 420, .futimes 5 ⟨1577836800, 123456789⟩ ⟨1577836800, 123456789⟩,
           .close 5, .close 4]) ∧
    (Extract (faulty_xkernel (.ok 0) (.error (.other 5))) 2 sample_archive "in.tar"
        [⟨hello, some 512⟩] none "out" false false true).map
        (fun r => (r.allgood, r.abort_err, r.x.messages))
      = .ret (true, none, [⟨VerboseMessage, "file           \thello.txt"⟩]) ∧
    (Extract (faulty_xkernel (.ok 0) (.error (.other 5))) 2 sample_archive "in.tar"
        [⟨hello, some 512⟩] none "out" false true true).map
        (fun r => (r.allgood, r.abort_err, r.x.messages))
      = .ret (true, none, [⟨VerboseMessage, "file           \thello.txt"⟩]) ∧
    (∀ (k : XKernel) (archive : Content) (x : X) (outfile_handle : Int) (full_path : String)
        (header : Header) (tar_pos : Option Nat) (c : Created) (err : GoError),
      extract_payload k archive x outfile_handle full_path header tar_pos = .ret c →
      c.err = some err →
      ∃ clone_err, clone_err ≠ Errno.EXDEV ∧
        err = .value (.errorDuringOp full_path "ficlone" clone_err)) := by
  refine ⟨by decide, by decide, by decide, by decide, by decide, by decide, by decide,
    by decide, ?_⟩
  intro k archive x fd path header tar_pos c err h he
  exact extract_payload_err k archive x fd path header tar_pos c err h he

/-! ## Calls by path -/

theorem extract_adorn_symlink (k : XKernel) (c : Created) (destfile_dirhandle : Int)
    (thing_basename full_path : String) (header : Header) (same_owner : Bool)
    (ht : header.Typeflag = TypeSymlink)
    (hok : (extract_adorn k c destfile_dirhandle thing_basename full_path header
      same_owner).2.abort_err = none) :
    XCall.lutimes full_path (timestamp header).1 (timestamp header).2
      ∈ (extract_adorn k c destfile_dirhandle thing_basename full_path header same_owner).1.calls ∧
    (same_owner = true → XCall.lchown full_path header.Uid header.Gid
      ∈ (extract_adorn k c destfile_dirhandle thing_basename full_path header
        same_owner).1.calls) := by
  have hnd : ¬ (TypeSymlink = TypeDir) := by decide
  unfold extract_adorn at hok ⊢
  simp only [ht, if_true, hnd, if_false] at hok ⊢
  cases same_owner with
  | false =>
    simp only [Bool.false_eq_true, if_false] at hok ⊢
    refine ⟨?_, fun h => absurd h (by simp)⟩
    split <;> simp [X.call]
  | true =>
    simp only [if_true, X.call] at hok ⊢
    cases he : errno_of (k.answer (c.x.calls ++ [XCall.fchownat destfile_dirhandle thing_basename
        header.Uid header.Gid] ++ [XCall.lchown full_path header.Uid header.Gid])) with
    | some e =>
      simp only [he] at hok
      simp at hok
    | none =>
      simp only [he] at hok ⊢
      refine ⟨?_, fun _ => ?_⟩
      · split <;> simp
      · split <;> simp

/-- C13, on the code: the symlink `../x` is extracted into `/out` with `--same-owner`.
It is made through the directory handle (`symlinkat` at descriptor 4, which `openat2`
resolved inside the root), and `Fchownat` goes through the handle too; but then
`extract_one` calls `Lchown` and `Lutimes` on `full_path`, which is
`filepath.Clean("/out/../x") = "/x"`, a path outside `/out` that the kernel resolves
from the root of the file system. Every symlink that is extracted gets its times set
by `Lutimes(full_path)` and, with `--same-owner`, its owner by `Lchown(full_path)`. -/
theorem extract_one_symlink_metadata_by_path :
    nested_xkernel.Clean (nested_xkernel.Join "/out" escaping.Name) = "/x" ∧
    (Extract nested_xkernel 2 sample_archive "in.tar" [⟨escaping, some 1536⟩] none "/out"
        true false true).map (fun r => (r.allgood, r.abort_err, r.x.calls))
      = .ret (true, none,
          [.openat (-100) "/out" 2162688 0, .openat2 3 "..", .fstatat 4 "x" 256,
           .symlinkat "target" 4 "x", .fchownat 4 "x" 1000 1000, .lchown "/x" 1000 1000,
           .lutimes "/x" ⟨1577836800, 123456789⟩ ⟨1577836800, 123456789⟩, .close 4]) ∧
    (∀ (k : XKernel) (c : Created) (destfile_dirhandle : Int) (thing_basename full_path : String)
        (header : Header) (same_owner : Bool), header.Typeflag = TypeSymlink →
      (extract_adorn k c destfile_dirhandle thing_basename full_path header
        same_owner).2.abort_err = none →
      XCall.lutimes full_path (timestamp header).1 (timestamp header).2
        ∈ (extract_adorn k c destfile_dirhandle thing_basename full_path header
          same_owner).1.calls ∧
      (same_owner = true → XCall.lchown full_path header.Uid header.Gid
        ∈ (extract_adorn k c destfile_dirhandle thing_basename full_path header
          same_owner).1.calls)) := by
  refine ⟨by decide, by decide, ?_⟩
  intro k c d b p h so ht hok
  exact extract_adorn_symlink k c d b p h so ht hok

/-! ## Block boundaries and the trailer -/

/-- `pad512` with the length of the file, when it reports no error: the file keeps its
bytes and is lengthened with zero bytes to the next multiple of 512, and the offset is
at its end. -/
theorem pad512_length (k : Kernel) (f : File) (len : Nat) (hlen : len = f.size)
    (hpos : 0 < len) (hok : (pad512 k f len).2 = none) :
    (pad512 k f len).1.size = (len + 511) / 512 * 512 ∧
    (pad512 k f len).1.pos = (pad512 k f len).1.size ∧
    (∀ i, i < len → (pad512 k f len).1.byte i = f.byte i) ∧
    (∀ i, len ≤ i → i < (pad512 k f len).1.size → (pad512 k f len).1.byte i = 0) := by
  subst hlen
  have h0 : ¬ (f.size = 0) := by omega
  unfold pad512 at hok ⊢
  simp only [h0, if_false, TAR_BLOCKSIZE] at hok ⊢
  by_cases hb : f.size % 512 > 0
  · simp only [hb, if_true, File.Truncate, File.SeekEnd] at hok ⊢
    cases ht : k.truncate_err f.size (f.size + (512 - f.size % 512)) with
    | some e => simp [ht] at hok
    | none =>
      simp only [ht] at hok ⊢
      cases hs : k.seek_err (f.size + (512 - f.size % 512)) with
      | some e => simp [hs] at hok
      | none =>
        simp only [hs]
        refine ⟨by omega, trivial, fun i hi => ?_, fun i hi _ => ?_⟩
        · have : i < f.size + (512 - f.size % 512) := by omega
          simp [this, hi]
        · have : ¬ i < f.size := by omega
          simp [this]
  · simp only [hb, if_false, File.SeekEnd] at hok ⊢
    cases hs : k.seek_err f.size with
    | some e => simp [hs] at hok
    | none =>
      simp only [hs]
      refine ⟨by omega, trivial, fun i _ => trivial, fun i hi hlt => ?_⟩
      omega

theorem pad512_blocked (k : Kernel) (f : File) (len : Nat)
    (hT : ∀ a b, k.truncate_err a b = none) (hS : ∀ n, k.seek_err n = none)
    (hlen : len ≠ 0 → f.size = len) :
    (pad512 k f len).2 = none ∧ (pad512 k f len).1.blocked := by
  unfold pad512 File.blocked
  simp only [TAR_BLOCKSIZE, File.SeekEnd, File.Truncate, hT, hS]
  by_cases h0 : len = 0
  · subst h0
    simp only [if_true]
    by_cases hb : f.size % 512 > 0
    · simp only [hb, if_true]
      exact ⟨trivial, by omega, trivial⟩
    · simp only [hb, if_false]
      exact ⟨trivial, by omega, trivial⟩
  · have e := hlen h0
    simp only [h0, if_false]
    by_cases hb : len % 512 > 0
    · simp only [hb, if_true]
      exact ⟨trivial, by omega, trivial⟩
    · simp only [hb, if_false]
      exact ⟨trivial, by omega, trivial⟩

theorem WriteTo_size (k : Kernel) (f : File) (buf : Content) (hp : f.pos = f.size)
    (h : (f.WriteTo k buf).2 = none) :
    (f.WriteTo k buf).1.size = f.size + buf.size ∧
    (f.WriteTo k buf).1.pos = (f.WriteTo k buf).1.size := by
  unfold File.WriteTo at h ⊢
  split_ifs with hb
  · simp [hb, hp]
  · split
    · rename_i e he; simp [hb, he] at h
    · simp only [hp]
      exact ⟨by omega, by omega⟩

theorem copyrange_blocked (k : Kernel) (src : Content) (f : File) (header : Header)
    (hT : ∀ a b, k.truncate_err a b = none) (hS : ∀ n, k.seek_err n = none)
    (hp : f.pos = f.size) (r : File × Option GoError)
    (h : copyrange_into_archive k src f header = .ret r) (hok : r.2 = none) :
    r.1.blocked := by
  unfold copyrange_into_archive Deduptar.tell at h
  cases ht : k.tell_err f.pos with
  | some e => simp [ht, Run.bind] at h
  | none =>
    simp only [ht, Run.bind] at h
    split at h
    · simp only [Run.ret.injEq] at h; subst h; simp at hok
    · split at h
      · simp only [Run.ret.injEq] at h; subst h; simp at hok
      · rename_i hw
        simp only [Run.ret.injEq] at h; subst h
        refine (pad512_blocked k _ _ hT hS ?_).2
        intro _
        simp only [ne_eq, Decidable.not_not] at hw
        simp only [hw, hp]
        split <;> first | (simp; done) | (simp; omega)

theorem ficlone_blocked (k : Kernel) (src : Content) (f : File) (header : Header)
    (hT : ∀ a b, k.truncate_err a b = none) (hS : ∀ n, k.seek_err n = none)
    (r : File × Option GoError)
    (h : ficlone_into_archive k src f header = .ret r) (hok : r.2 = none) :
    r.1.blocked := by
  unfold ficlone_into_archive Deduptar.tell at h
  cases ht : k.tell_err f.pos with
  | some e => simp [ht, Run.bind] at h
  | none =>
    simp only [ht, Run.bind] at h
    split at h
    · simp only [Run.ret.injEq] at h; subst h; simp at hok
    · simp only [File.SeekEnd, hS] at h
      split at h
      · simp only [Run.ret.injEq] at h; subst h; simp at hok
      · simp only [Run.ret.injEq] at h; subst h
        exact (pad512_blocked k _ _ hT hS (fun _ => rfl)).2

theorem tarwrite_body_blocked (k : Kernel) (fuel : Nat) (infile : Content) (tarfile : File)
    (header : Header) (pos_header : Nat) (pristine : Content)
    (hT : ∀ a b, k.truncate_err a b = none) (hS : ∀ n, k.seek_err n = none)
    (hp : tarfile.pos = tarfile.size) (w : Written)
    (h : tarwrite_body k fuel infile tarfile header pos_header pristine = .ret w)
    (hok : w.abort_err = none) : w.tarfile.blocked := by
  unfold tarwrite_body at h
  cases hpad : pad_tarheader k fuel header pos_header with
  | exit => simp [hpad, Run.bind] at h
  | stuck => simp [hpad, Run.bind] at h
  | ret p =>
    simp only [hpad, Run.bind] at h
    split at h
    · split at h
      · simp only [Run.ret.injEq] at h; subst h; simp at hok
      · rename_i hw
        split at h
        · rename_i r hr
          simp only [Run.ret.injEq] at h; subst h
          exact copyrange_blocked k infile _ _ hT hS (WriteTo_size k tarfile _ hp hw).2 r hr hok
        · simp at h
        · simp at h
    · split at h
      · simp only [Run.ret.injEq] at h; subst h; simp at hok
      · split at h
        · rename_i r hr
          split at h
          · simp [log_Fatalln] at h
          · rename_i hnone
            simp only [Run.ret.injEq] at h; subst h
            exact ficlone_blocked k infile _ _ hT hS r hr hnone
        · simp at h
        · simp at h

/-- With a tar writer that renders whole blocks and a kernel in which `ftruncate` and
`lseek` do not fail, a `tarwrite` that reports no error leaves the archive on a block
boundary, with the offset at its end. -/
theorem tarwrite_blocked (k : Kernel) (fuel : Nat) (tarfile : File) (header : Header)
    (hW : ∀ h, (k.WriteHeader h).bytes.size % TAR_BLOCKSIZE = 0)
    (hT : ∀ a b, k.truncate_err a b = none) (hS : ∀ n, k.seek_err n = none)
    (hb : tarfile.blocked) (w : Written)
    (h : tarwrite k fuel tarfile header = .ret w) (hok : w.abort_err = none) :
    w.tarfile.blocked := by
  unfold tarwrite Deduptar.tell at h
  cases ht : k.tell_err tarfile.pos with
  | some e => simp [ht, Run.bind] at h
  | none =>
    simp only [ht, Run.bind] at h
    split at h
    · simp only [Run.ret.injEq] at h; subst h
      have hs := WriteTo_size k tarfile (k.WriteHeader header).bytes hb.2 hok
      have hw := hW header
      unfold File.blocked at hb ⊢
      simp only [TAR_BLOCKSIZE] at hb hw ⊢
      exact ⟨by rw [hs.1]; omega, hs.2⟩
    · split at h
      · exact tarwrite_body_blocked k fuel _ tarfile header _ _ hT hS hb.2 w h hok
      · split at h
        · simp only [Run.ret.injEq] at h; subst h; simp at hok
        · split at h
          · simp only [Run.ret.injEq] at h; subst h; simp at hok
          · exact tarwrite_body_blocked k fuel _ tarfile header _ _ hT hS hb.2 w h hok

theorem archive_files_blocked (t : Tree) (recurse : Walk → String → Run (Walk × Option GoError))
    (dir : String)
    (hrec : ∀ w p r, recurse w p = .ret r → w.tarfile.blocked → r.2 = none →
      r.1.tarfile.blocked) :
    ∀ files w r, archive_files t recurse dir w files = .ret r → w.tarfile.blocked →
      r.2 = none → r.1.tarfile.blocked := by
  intro files
  induction files with
  | nil =>
    intro w r h hw _
    simp only [archive_files, Run.ret.injEq] at h; subst h; exact hw
  | cons file files ih =>
    intro w r h hw hok
    simp only [archive_files] at h
    cases hr : recurse w (t.filepath_Join dir file) with
    | exit => simp [hr, Run.bind] at h
    | stuck => simp [hr, Run.bind] at h
    | ret r1 =>
      simp only [hr, Run.bind] at h
      split at h
      · simp only [Run.ret.injEq] at h; subst h; simp at hok
      · rename_i hnone
        exact ih r1.1 r h (hrec w _ r1 hr hw hnone) hok

theorem walk_blocked (k : Kernel) (t : Tree) (padfuel : Nat)
    (follow_symlinks no_recurse channel : Bool)
    (hW : ∀ h, (k.WriteHeader h).bytes.size % TAR_BLOCKSIZE = 0)
    (hT : ∀ a b, k.truncate_err a b = none) (hS : ∀ n, k.seek_err n = none) :
    ∀ fuel w inpath r,
      archive_one_recursively k t padfuel follow_symlinks no_recurse channel fuel w inpath
        = .ret r → w.tarfile.blocked → r.2 = none → r.1.tarfile.blocked := by
  intro fuel
  induction fuel with
  | zero =>
    intro w inpath r h
    simp [archive_one_recursively] at h
  | succ fuel ih =>
    intro w inpath r h hw hok
    simp only [archive_one_recursively] at h
    split at h
    · simp only [Run.ret.injEq] at h; subst h; exact hw
    · rename_i finfo hstat
      split at h
      · simp only [Run.ret.injEq] at h; subst h; exact hw
      · split at h
        · simp at h
        · simp only [Run.bind] at h
          split at h
          · rename_i written hwr
            split at h
            · simp only [Run.ret.injEq] at h; subst h; simp at hok
            · rename_i hnone
              have hb := tarwrite_blocked k padfuel w.tarfile _ hW hT hS hw written hwr hnone
              split at h
              · split at h
                · simp only [Run.ret.injEq] at h; subst h; exact hb
                · split at h
                  · simp only [Run.ret.injEq] at h; subst h; exact hb
                  · exact archive_files_blocked t _ _ ih _ _ r h hb hok
              · simp only [Run.ret.injEq] at h; subst h; exact hb
          · simp at h
          · simp at h

theorem archive_inpaths_blocked (k : Kernel) (t : Tree) (fuel padfuel : Nat)
    (follow_symlinks no_recurse channel : Bool)
    (hW : ∀ h, (k.WriteHeader h).bytes.size % TAR_BLOCKSIZE = 0)
    (hT : ∀ a b, k.truncate_err a b = none) (hS : ∀ n, k.seek_err n = none) :
    ∀ inpaths w r,
      archive_inpaths k t fuel padfuel follow_symlinks no_recurse channel w inpaths = .ret r →
      w.tarfile.blocked → r.2 = none → r.1.tarfile.blocked := by
  intro inpaths
  induction inpaths with
  | nil =>
    intro w r h hw _
    simp only [archive_inpaths, Run.ret.injEq] at h; subst h; exact hw
  | cons inpath inpaths ih =>
    intro w r h hw hok
    simp only [archive_inpaths] at h
    cases hr : archive_one_recursively k t padfuel follow_symlinks no_recurse channel fuel w
        inpath with
    | exit => simp [hr, Run.bind] at h
    | stuck => simp [hr, Run.bind] at h
    | ret r1 =>
      simp only [hr, Run.bind] at h
      split at h
      · simp only [Run.ret.injEq] at h; subst h; simp at hok
      · rename_i hnone
        exact ih r1.1 r h (walk_blocked k t padfuel follow_symlinks no_recurse channel hW hT hS
          fuel w inpath r1 hr hw hnone) hok

/-- When `finalize_tar` reports no error, the archive keeps its bytes and is 1024 zero
bytes longer. -/
theorem finalize_tar_trailer (k : Kernel) (f : File) (hok : (finalize_tar k f).2 = none) :
    (finalize_tar k f).1.size = f.size + 1024 ∧
    (∀ i, i < f.size → (finalize_tar k f).1.byte i = f.byte i) ∧
    (∀ i, f.size ≤ i → (finalize_tar k f).1.byte i = 0) := by
  unfold finalize_tar at hok ⊢
  simp only [File.SeekEnd, File.Truncate, TAR_BLOCKSIZE] at hok ⊢
  cases hs : k.seek_err f.size with
  | some e => simp [hs] at hok
  | none =>
    simp only [hs] at hok ⊢
    cases ht : k.truncate_err f.size (f.size + 2 * 512) with
    | some e => simp [ht] at hok
    | none =>
      simp only [ht]
      refine ⟨trivial, fun i hi => ?_, fun i hi => ?_⟩
      · have : i < f.size + 2 * 512 := by omega
        simp [this, hi]
      · have : ¬ i < f.size := by omega
        simp [this]

/-- With a tar writer that renders whole blocks and a kernel in which `ftruncate` and
`lseek` do not fail, an `Archive` that reports no error leaves an archive whose length
is a multiple of 512 and whose last 1024 bytes are zero. -/
theorem Archive_trailer (k : Kernel) (t : Tree) (fuel padfuel : Nat) (dst_archive : String)
    (inpaths : List String) (follow_symlinks no_recurse channel : Bool)
    (hW : ∀ h, (k.WriteHeader h).bytes.size % TAR_BLOCKSIZE = 0)
    (hT : ∀ a b, k.truncate_err a b = none) (hS : ∀ n, k.seek_err n = none)
    (r : Walk × Option GoError)
    (h : Archive k t fuel padfuel dst_archive inpaths follow_symlinks no_recurse channel
      = .ret r) (hok : r.2 = none) :
    r.1.tarfile.size % 512 = 0 ∧ 1024 ≤ r.1.tarfile.size ∧
    ∀ i, r.1.tarfile.size - 1024 ≤ i → i < r.1.tarfile.size → r.1.tarfile.byte i = 0 := by
  unfold Archive at h
  split at h
  · simp only [Run.ret.injEq] at h; subst h; simp at hok
  · cases hr : archive_inpaths k t fuel padfuel follow_symlinks no_recurse channel
        (Walk.start dst_archive) inpaths with
    | exit => simp [hr, Run.bind] at h
    | stuck => simp [hr, Run.bind] at h
    | ret r1 =>
      simp only [hr, Run.bind] at h
      split at h
      · simp only [Run.ret.injEq] at h; subst h; simp at hok
      · rename_i hnone
        simp only [Run.ret.injEq] at h; subst h
        have hb := archive_inpaths_blocked k t fuel padfuel follow_symlinks no_recurse channel
          hW hT hS inpaths _ r1 hr ⟨rfl, rfl⟩ hnone
        have hf := finalize_tar_trailer k r1.1.tarfile hok
        have h1 := hb.1
        simp only [TAR_BLOCKSIZE] at h1
        simp only
        refine ⟨by rw [hf.1]; omega, by rw [hf.1]; omega, fun i hi _ => hf.2.2 i ?_⟩
        rw [hf.1] at hi
        omega

theorem sample_pad_odd :
    pad_tarheader sample_kernel 3 odd 0
      = .ret ⟨2560, ⟨4096, fun _ => 0⟩,
          { odd with PAXRecords := [(pax_padding_headerkey, strings_Repeat "X" 2559)] }⟩ := by
  have h := pad_tarheader_eq sample_kernel 3 odd 0 2 4 (strings_Repeat "X" 2559)
    ⟨4096, fun _ => 0⟩
    (by rw [sample_size_plain odd rfl])
    (by rw [sample_size_filler])
    (by decide)
    (by rw [sample_size_filler]; decide)
    (by rw [sample_size_filler]; decide)
    (by rw [sample_size_filler]; rfl)
    (by rw [sample_size_padded odd 2559 (by omega) (by omega)])
    (by rw [sample_size_plain odd rfl]; rfl)
  rw [sample_size_plain odd rfl] at h
  exact h

theorem sample_tarwrite_odd :
    ∃ w, tarwrite sample_kernel_efbig 3 new_archive odd = .ret w ∧ w.was_cloned = true ∧
      w.abort_err = none ∧ w.tarfile.size = 9096 ∧
      w.tarfile.calls = [.write 0 ⟨4096, fun _ => 0⟩, .ficlonerange 0 0 4096, .seek_end,
        .truncate 9216] := by
  have hp : pad_tarheader sample_kernel_efbig 3 odd 0 = _ :=
    (pad_tarheader_congr sample_kernel_efbig sample_kernel rfl rfl 3 odd 0).trans sample_pad_odd
  have e1 : odd.Typeflag = TypeReg := rfl
  have e2 : odd.Size = 5000 := rfl
  have e3 : sample_kernel_efbig.OpenFile odd.Name true = .ok odd_content := rfl
  have e4 : sample_kernel_efbig.tell_err = fun _ => none := rfl
  have e5 : sample_kernel_efbig.write_err = fun _ _ => none := rfl
  have e6 : sample_kernel_efbig.clone_err = fun _ _ => none := rfl
  have e7 : sample_kernel_efbig.seek_err = fun _ => none := rfl
  have e8 : sample_kernel_efbig.truncate_err = fun _ _ => some (.other 27) := rfl
  have e9 : odd_content.size = 5000 := rfl
  have e10 : new_archive.pos = 0 := rfl
  have e11 : new_archive.size = 0 := rfl
  have e12 : new_archive.calls = [] := rfl
  simp only [tarwrite, tarwrite_body, Deduptar.tell, Run.bind, e1, e2, e3, e4, hp,
    ficlone_into_archive, File.WriteTo, File.SeekEnd, e5, e6, e7, e8, e9, e10, e11, e12,
    pad512, File.Truncate, TAR_BLOCKSIZE]
  simp

/-- C14, on the code: `ficlone_into_archive` calls `pad512` as a statement and drops its
result, where `copyrange_into_archive` returns it. For a cloned file of 5000 bytes and an
`ftruncate` that fails, `tarwrite` reports success (`was_cloned = true`, no error) and
leaves an archive of 4096 + 5000 = 9096 bytes, 392 bytes behind a block boundary. The
rest of the claim holds: `pad512` with the length of the file, when it reports no
error, lengthens the file to the smallest multiple of 512 that is not below it;
`finalize_tar`, when it reports no error, appends 1024 zero bytes; and with a tar writer
that renders whole blocks and a kernel in which `ftruncate` and `lseek` do not fail,
every `tarwrite` without error keeps the archive on a block boundary, and every
`Archive` without error leaves a multiple of 512 bytes that ends with 1024 zero
bytes. -/
theorem tarwrite_drops_pad512_error :
    (∃ w, tarwrite sample_kernel_efbig 3 new_archive odd = .ret w ∧ w.was_cloned = true ∧
      w.abort_err = none ∧ w.tarfile.size = 9096 ∧ w.tarfile.size % 512 = 392 ∧
      w.tarfile.calls = [.write 0 ⟨4096, fun _ => 0⟩, .ficlonerange 0 0 4096, .seek_end,
        .truncate 9216]) ∧
    (∀ (k : Kernel) (f : File) (len : Nat), len = f.size → 0 < len →
      (pad512 k f len).2 = none →
      (pad512 k f len).1.size % 512 = 0 ∧ len ≤ (pad512 k f len).1.size ∧
      (pad512 k f len).1.size < len + 512 ∧
      (∀ i, i < len → (pad512 k f len).1.byte i = f.byte i) ∧
      (∀ i, len ≤ i → i < (pad512 k f len).1.size → (pad512 k f len).1.byte i = 0)) ∧
    (∀ (k : Kernel) (f : File), (finalize_tar k f).2 = none →
      (finalize_tar k f).1.size = f.size + 1024 ∧
      (∀ i, i < f.size → (finalize_tar k f).1.byte i = f.byte i) ∧
      (∀ i, f.size ≤ i → (finalize_tar k f).1.byte i = 0)) ∧
    (∀ (k : Kernel) (fuel : Nat) (tarfile : File) (header : Header) (w : Written),
      (∀ h, (k.WriteHeader h).bytes.size % TAR_BLOCKSIZE = 0) →
      (∀ a b, k.truncate_err a b = none) → (∀ n, k.seek_err n = none) →
      tarfile.blocked → tarwrite k fuel tarfile header = .ret w → w.abort_err = none →
      w.tarfile.size % 512 = 0 ∧ w.tarfile.pos = w.tarfile.size) ∧
    (∀ (k : Kernel) (t : Tree) (fuel padfuel : Nat) (dst_archive : String)
        (inpaths : List String) (follow_symlinks no_recurse channel : Bool)
        (r : Walk × Option GoError),
      (∀ h, (k.WriteHeader h).bytes.size % TAR_BLOCKSIZE = 0) →
      (∀ a b, k.truncate_err a b = none) → (∀ n, k.seek_err n = none) →
      Archive k t fuel padfuel dst_archive inpaths follow_symlinks no_recurse channel = .ret r →
      r.2 = none →
      r.1.tarfile.size % 512 = 0 ∧ 1024 ≤ r.1.tarfile.size ∧
      ∀ i, r.1.tarfile.size - 1024 ≤ i → i < r.1.tarfile.size → r.1.tarfile.byte i = 0) := by
  refine ⟨?_, ?_, ?_, ?_, ?_⟩
  · obtain ⟨w, h1, h2, h3, h4, h5⟩ := sample_tarwrite_odd
    exact ⟨w, h1, h2, h3, h4, by rw [h4], h5⟩
  · intro k f len hlen hpos hok
    have h := pad512_length k f len hlen hpos hok
    refine ⟨?_, ?_, ?_, h.2.2.1, h.2.2.2⟩ <;> rw [h.1] <;> omega
  · intro k f hok
    exact finalize_tar_trailer k f hok
  · intro k fuel tarfile header w hW hT hS hb h hok
    exact tarwrite_blocked k fuel tarfile header hW hT hS hb w h hok
  · intro k t fuel padfuel dst inpaths fs nr ch r hW hT hS h hok
    exact Archive_trailer k t fuel padfuel dst inpaths fs nr ch hW hT hS r h hok

/-! ## The last check of the padder -/

theorem utf8ByteSize_append (a b : String) :
    (a ++ b).utf8ByteSize = a.utf8ByteSize + b.utf8ByteSize := by
  cases a with
  | mk as =>
    cases b with
    | mk bs =>
      show String.utf8ByteSize ⟨as ++ bs⟩ = _
      simp [String.utf8ByteSize_mk, String.utf8Len_append]

theorem foldl_append_size (s : String) (n : Nat) (acc : String) :
    (List.foldl (fun r x => r ++ x) acc (List.replicate n s)).utf8ByteSize
      = acc.utf8ByteSize + n * s.utf8ByteSize := by
  induction n generalizing acc with
  | zero => simp
  | succ n ih =>
    rw [List.replicate_succ, List.foldl_cons, ih, utf8ByteSize_append, Nat.succ_mul]
    omega

theorem strings_Repeat_utf8ByteSize (s : String) (n : Nat) :
    (strings_Repeat s n).utf8ByteSize = n * s.utf8ByteSize := by
  unfold strings_Repeat String.join
  rw [foldl_append_size]
  have : ("" : String).utf8ByteSize = 0 := by decide
  omega

theorem deep_name_size : deep.Name.utf8ByteSize = 435 := by
  show (strings_Repeat "dir/" 108 ++ "f.x").utf8ByteSize = 435
  rw [utf8ByteSize_append, strings_Repeat_utf8ByteSize]
  decide

theorem path_size_plain (h : Header) (hn : h.Name.utf8ByteSize = 435)
    (hp : h.PAXRecords = []) :
    path_kernel.WriteHeader h = ⟨⟨1536, fun _ => 0⟩, false⟩ := by
  have e : ("path" : String).utf8ByteSize = 4 := by decide
  simp [path_kernel, path_WriteHeader, hn, hp, sample_record_length, e, sample_digits]

theorem path_size_filler (h : Header) (hn : h.Name.utf8ByteSize = 435) :
    path_kernel.WriteHeader { h with PAXRecords := [(pax_padding_headerkey, pax_filler_char)] }
      = ⟨⟨2048, fun _ => 0⟩, false⟩ := by
  have e : ("path" : String).utf8ByteSize = 4 := by decide
  simp [path_kernel, path_WriteHeader, hn, sample_record_length, e, key_size, filler_size,
    sample_digits]

theorem path_size_padded (h : Header) (hn : h.Name.utf8ByteSize = 435) (n : Nat)
    (h1 : 1000 ≤ n + 10) (h2 : n + 14 < 10000) :
    path_kernel.WriteHeader
        { h with PAXRecords := [(pax_padding_headerkey, strings_Repeat "X" n)] }
      = ⟨⟨512 + (60 + 445 + (n + 14) + 511) / 512 * 512 + 512, fun _ => 0⟩, false⟩ := by
  have e : ("path" : String).utf8ByteSize = 4 := by decide
  have a : ¬ (7 + n + 3 < 10) := by omega
  have b : ¬ (7 + n + 3 < 100) := by omega
  have c : ¬ (7 + n + 3 < 1000) := by omega
  have d : (7 + n + 3 < 10000) := by omega
  have a1 : ¬ (7 + n + 3 + 4 < 10) := by omega
  have b1 : ¬ (7 + n + 3 + 4 < 100) := by omega
  have c1 : ¬ (7 + n + 3 + 4 < 1000) := by omega
  have d1 : (7 + n + 3 + 4 < 10000) := by omega
  have e4 : 4 + (7 + n + 3) = 7 + n + 3 + 4 := by omega
  simp [path_kernel, path_WriteHeader, hn, sample_record_length, e, key_size,
    strings_Repeat_X_utf8ByteSize, sample_digits, a, b, c, d, a1, b1, c1, d1, e4]
  omega

/-- When the three renderings succeed and both loops settle but the re-rendered header
has not the targeted length, `pad_tarheader` ends the process at its last check. -/
theorem pad_tarheader_mismatch (k : Kernel) (fuel : Nat) (header : Header) (header_offset : Nat)
    (cur proj : Int) (value : String) (buf : Content)
    (h0 : (k.WriteHeader header).ouch = false)
    (h1 : (k.WriteHeader
      { header with PAXRecords := [(pax_padding_headerkey, pax_filler_char)] }).ouch = false)
    (hc : width_loop (fun w => k.ceil_log10 (w + (11 : Nat))) fuel 0 = some cur)
    (hp : width_loop (fun _ => k.ceil_log10 (cur + ((FS_PAGESIZE - (header_offset +
      (k.WriteHeader { header with PAXRecords := [(pax_padding_headerkey, pax_filler_char)]
        }).bytes.size) % FS_PAGESIZE : Nat) : Int) + (3 : Nat) + (7 : Nat))) fuel 0 = some proj)
    (hn : ¬ (1 + (((FS_PAGESIZE - (header_offset +
      (k.WriteHeader { header with PAXRecords := [(pax_padding_headerkey, pax_filler_char)]
        }).bytes.size) % FS_PAGESIZE : Nat) : Int) - (proj - cur)) < 0))
    (hv : value = strings_Repeat "X" (1 + (((FS_PAGESIZE - (header_offset +
      (k.WriteHeader { header with PAXRecords := [(pax_padding_headerkey, pax_filler_char)]
        }).bytes.size) % FS_PAGESIZE : Nat) : Int) - (proj - cur))).toNat)
    (h2 : k.WriteHeader { header with PAXRecords := [(pax_padding_headerkey, value)] }
      = ⟨buf, false⟩)
    (hlen : FS_PAGESIZE - (header_offset + (k.WriteHeader header).bytes.size) % FS_PAGESIZE
      + (k.WriteHeader header).bytes.size ≠ buf.size) :
    pad_tarheader k fuel header header_offset = .exit := by
  subst hv
  unfold pad_tarheader
  simp only [FS_PAGESIZE, pax_header_overhead, key_size, filler_size] at *
  have e11 : (3 + 7 + 1 : Nat) = 11 := rfl
  simp only [h0, h1, e11, hc, hp, hn, h2]
  have p1 : ¬ (4096 - (header_offset + (k.WriteHeader header).bytes.size) % 4096 = 0) := by omega
  have p2 : ¬ (4096 - (header_offset + (k.WriteHeader
      { header with PAXRecords := [(pax_padding_headerkey, pax_filler_char)] }).bytes.size)
        % 4096 = 0) := by omega
  simp [p1, p2, hlen]

theorem path_pad_deep : pad_tarheader path_kernel 3 deep 6144 = .exit := by
  have hn := deep_name_size
  refine pad_tarheader_mismatch path_kernel 3 deep 6144 2 4 (strings_Repeat "X" 4095)
    ⟨6144, fun _ => 0⟩
    (by rw [path_size_plain deep hn rfl])
    (by rw [path_size_filler deep hn])
    (by decide)
    (by rw [path_size_filler deep hn]; decide)
    (by rw [path_size_filler deep hn]; decide)
    (by rw [path_size_filler deep hn]; rfl)
    (by rw [path_size_padded deep hn 4095 (by omega) (by omega)])
    (by rw [path_size_plain deep hn rfl]; decide)

/-- A regular file with a body whose padding ends the process ends `tarwrite`. -/
theorem tarwrite_exit_of_pad (k : Kernel) (fuel : Nat) (tarfile : File) (header : Header)
    (infile : Content) (ht : k.tell_err tarfile.pos = none) (h1 : header.Typeflag = TypeReg)
    (h2 : header.Size ≠ 0) (ho : k.OpenFile header.Name true = .ok infile)
    (hp : pad_tarheader k fuel header tarfile.pos = .exit) :
    tarwrite k fuel tarfile header = .exit := by
  simp [tarwrite, tarwrite_body, Deduptar.tell, Run.bind, ht, h1, h2, ho, hp]

theorem path_tarwrite_deep : tarwrite path_kernel 3 four_records deep = .exit :=
  tarwrite_exit_of_pad path_kernel 3 four_records deep sample_content rfl rfl (by decide) rfl
    path_pad_deep

theorem path_pad_deep_start :
    pad_tarheader path_kernel 3 deep 0
      = .ret ⟨2560, ⟨4096, fun _ => 0⟩,
          { deep with PAXRecords := [(pax_padding_headerkey, strings_Repeat "X" 2047)] }⟩ := by
  have hn := deep_name_size
  have h := pad_tarheader_eq path_kernel 3 deep 0 2 4 (strings_Repeat "X" 2047)
    ⟨4096, fun _ => 0⟩
    (by rw [path_size_plain deep hn rfl])
    (by rw [path_size_filler deep hn])
    (by decide)
    (by rw [path_size_filler deep hn]; decide)
    (by rw [path_size_filler deep hn]; decide)
    (by rw [path_size_filler deep hn]; rfl)
    (by rw [path_size_padded deep hn 2047 (by omega) (by omega)])
    (by rw [path_size_plain deep hn rfl]; rfl)
  rw [path_size_plain deep hn rfl] at h
  exact h

/-- C15, on the code: the file `deep` has a name of 435 bytes, so that its PAX records
(two time records and the `path` record) take 505 bytes and its plain header 1536
bytes. At the archive offset 6144, a multiple of 512, the plain header ends 512 bytes
before a page boundary (`padout_size = 512`), but the header with the smallest comment
record is already 2048 bytes long, because the 13 bytes of that record need another
block. `pad_tarheader` then pads to the page boundary after the next one
(`left_to_pad = 4096`, a comment value of 4095 bytes): the re-rendered header has 6144
bytes where 512 + 1536 = 2048 were targeted, and the last check ends the process, and
`tarwrite` with it. At offset 0 the same header is padded as intended. -/
theorem pad_tarheader_miscalculation_reachable :
    four_records.pos % TAR_BLOCKSIZE = 0 ∧ deep.Name.utf8ByteSize = 435 ∧
    path_kernel.WriteHeader deep = ⟨⟨1536, fun _ => 0⟩, false⟩ ∧
    path_kernel.WriteHeader
        { deep with PAXRecords := [(pax_padding_headerkey, pax_filler_char)] }
      = ⟨⟨2048, fun _ => 0⟩, false⟩ ∧
    path_kernel.WriteHeader
        { deep with PAXRecords := [(pax_padding_headerkey, strings_Repeat "X" 4095)] }
      = ⟨⟨6144, fun _ => 0⟩, false⟩ ∧
    FS_PAGESIZE - (four_records.pos + 1536) % FS_PAGESIZE + 1536 = 2048 ∧
    pad_tarheader path_kernel 3 deep four_records.pos = .exit ∧
    tarwrite path_kernel 3 four_records deep = .exit ∧
    pad_tarheader path_kernel 3 deep 0
      = .ret ⟨2560, ⟨4096, fun _ => 0⟩,
          { deep with PAXRecords := [(pax_padding_headerkey, strings_Repeat "X" 2047)] }⟩ := by
  have hn := deep_name_size
  refine ⟨by decide, hn, path_size_plain deep hn rfl, path_size_filler deep hn, ?_, by decide,
    path_pad_deep, path_tarwrite_deep, path_pad_deep_start⟩
  rw [path_size_padded deep hn 4095 (by omega) (by omega)]

/-! ## The directory that is listed -/

theorem archive_files_descends (t : Tree)
    (recurse : Walk → String → Run (Walk × Option GoError)) (dir : String) :
    ∀ files w r, archive_files t recurse dir w files = .ret r → r.2 = none →
      descends t recurse dir files w r.1 := by
  intro files
  induction files with
  | nil =>
    intro w r h _
    simp only [archive_files, Run.ret.injEq] at h; subst h; rfl
  | cons file files ih =>
    intro w r h hok
    simp only [archive_files] at h
    cases hr : recurse w (t.filepath_Join dir file) with
    | exit => simp [hr, Run.bind] at h
    | stuck => simp [hr, Run.bind] at h
    | ret r1 =>
      simp only [hr, Run.bind] at h
      split at h
      · simp only [Run.ret.injEq] at h; subst h; simp at hok
      · rename_i hnone
        refine ⟨r1.1, ?_, ih r1.1 r h hok⟩
        rw [← hnone]
        exact hr

/-- A directory whose node is not yet marked, once the walk of it returns without an
error: the node was marked and logged, `os.ReadDir` was asked for the archive name of
the directory (`header.Name`, made of the directory part of the cleaned path and of the
name that the `FileInfo` reports), and the walk descended into every entry that it
returned, under that name. -/
theorem walk_new_directory_descends (k : Kernel) (t : Tree) (padfuel : Nat)
    (follow_symlinks channel : Bool) (fuel : Nat) (w : Walk) (inpath : String)
    (finfo : FileInfo)
    (hstat : (if follow_symlinks then t.Stat inpath else t.Lstat inpath) = .ok finfo)
    (hdir : finfo.IsDir = true)
    (hvis : w.visited_registry ⟨finfo.Dev, finfo.Ino⟩ = false)
    (r : Walk × Option GoError)
    (h : archive_one_recursively k t padfuel follow_symlinks false channel (fuel + 1) w inpath
      = .ret r) (hok : r.2 = none) :
    ∃ files w3,
      t.ReadDir (t.path_Join (t.filepath_Dir (t.filepath_Clean inpath)) finfo.Name ++ "/")
        = .ok files ∧
      w3.visited_registry ⟨finfo.Dev, finfo.Ino⟩ = true ∧
      w3.listed = w.listed ++ [⟨finfo.Dev, finfo.Ino⟩] ∧
      descends t (archive_one_recursively k t padfuel follow_symlinks false channel fuel)
        (t.path_Join (t.filepath_Dir (t.filepath_Clean inpath)) finfo.Name ++ "/")
        files w3 r.1 := by
  simp only [archive_one_recursively, hstat] at h
  split at h
  · simp only [Run.ret.injEq] at h; subst h; simp at hok
  · split at h
    · simp at h
    · simp only [Run.bind] at h
      split at h
      · split at h
        · simp only [Run.ret.injEq] at h; subst h; simp at hok
        · simp only [hdir, hvis, Bool.false_eq_true, not_false_eq_true, and_self, if_true,
            if_false] at h
          have hname : ∀ reg n (hd : Header),
              (hardlink_handling reg ⟨finfo.Dev, finfo.Ino⟩ n hd).1.Name = hd.Name := by
            intro reg n hd
            unfold hardlink_handling
            split
            · split <;> rfl
            · rfl
          simp only [hname] at h
          split at h
          · simp only [Run.ret.injEq] at h; subst h; simp at hok
          · rename_i files hfiles
            refine ⟨files, _, hfiles, ?_, ?_, archive_files_descends t _ _ files _ r h hok⟩
            · simp
            · rfl
      · simp at h
      · simp at h

/-- C7, on the code: `archive_one_recursively` marks the node of `inpath`, but lists
`header.Name`, which it makes of `filepath.Dir(filepath.Clean(inpath))` and of
`finfo.Name()`, the last element of the path as given. For `d/.` that name is `./`: the
walk marks the node of `d` and lists the current directory. With the inputs `d/.` and
`.` the current directory is listed and descended into twice (its file `f` is archived
twice), under the two nodes 1:10 and 1:2, and `d` never (`g` is not archived); the `d`
found in the current directory is skipped with the warning. What does hold: a
directory whose node is not yet marked is marked, and the walk descends into every entry
that `os.ReadDir(header.Name)` returns; a directory whose node is marked gets the
warning, and nothing is listed or marked for it; no node is listed twice; and with more
fuel than there are directory nodes the walk never runs out of fuel. -/
theorem archive_lists_header_name_not_inpath :
    dot_tree.Lstat "d/." = .ok ⟨".", true, false, 1, 10, 2⟩ ∧
    dot_tree.path_Join (dot_tree.filepath_Dir (dot_tree.filepath_Clean "d/.")) "." ++ "/"
      = "./" ∧
    dot_tree.ReadDir "./" = .ok ["d", "f"] ∧ dot_tree.ReadDir "d/" = .ok ["g"] ∧
    (Archive sample_kernel dot_tree 3 3 "out.tar" ["d/.", "."] false false true).map
        (fun r => (r.2, r.1.listed, r.1.records.map (fun q => (q.node, q.header.Name))))
      = .ret (none, [⟨1, 10⟩, ⟨1, 2⟩],
          [(⟨1, 10⟩, "./"), (⟨1, 10⟩, "d/"), (⟨1, 11⟩, "f"),
           (⟨1, 2⟩, "./"), (⟨1, 10⟩, "d/"), (⟨1, 11⟩, "f")]) ∧
    (Archive sample_kernel dot_tree 3 3 "out.tar" ["d/.", "."] false false true).map
        (fun r => r.1.messages)
      = .ret [⟨VerboseMessage, "directory     \t./"⟩, ⟨VerboseMessage, "hardlink      \td/"⟩,
          ⟨WarningMessage, "Skipping directory (already visited): d"⟩,
          ⟨VerboseMessage, "file          \tf"⟩,
          ⟨VerboseMessage, "directory     \t./"⟩, ⟨VerboseMessage, "hardlink      \td/"⟩,
          ⟨WarningMessage, "Skipping directory (already visited): d"⟩,
          ⟨VerboseMessage, "file          \tf"⟩] ∧
    (∀ (k : Kernel) (t : Tree) (padfuel : Nat) (follow_symlinks channel : Bool) (fuel : Nat)
        (w : Walk) (inpath : String) (finfo : FileInfo) (r : Walk × Option GoError),
      (if follow_symlinks then t.Stat inpath else t.Lstat inpath) = .ok finfo →
      finfo.IsDir = true →
      archive_one_recursively k t padfuel follow_symlinks false channel (fuel + 1) w inpath
        = .ret r →
      (w.visited_registry ⟨finfo.Dev, finfo.Ino⟩ = false → r.2 = none →
        ∃ files w3,
          t.ReadDir (t.path_Join (t.filepath_Dir (t.filepath_Clean inpath)) finfo.Name ++ "/")
            = .ok files ∧
          w3.visited_registry ⟨finfo.Dev, finfo.Ino⟩ = true ∧
          w3.listed = w.listed ++ [⟨finfo.Dev, finfo.Ino⟩] ∧
          descends t (archive_one_recursively k t padfuel follow_symlinks false channel fuel)
            (t.path_Join (t.filepath_Dir (t.filepath_Clean inpath)) finfo.Name ++ "/")
            files w3 r.1) ∧
      (w.visited_registry ⟨finfo.Dev, finfo.Ino⟩ = true →
        r.1.listed = w.listed ∧ r.1.visited_registry = w.visited_registry ∧
        (r.2 = none → ∃ line, r.1.messages = warning_message channel
          (verbose_message channel w.messages line)
          ("Skipping directory (already visited): " ++ inpath)))) ∧
    (∀ (k : Kernel) (t : Tree) (padfuel : Nat) (follow_symlinks channel : Bool)
        (dirs : Finset nodeID) (fuel : Nat) (dst_archive : String) (inpaths : List String),
      (∀ path finfo, (t.Stat path = .ok finfo ∨ t.Lstat path = .ok finfo) →
        finfo.IsDir = true → (⟨finfo.Dev, finfo.Ino⟩ : nodeID) ∈ dirs) →
      2 ≤ padfuel →
      width_loop (fun w => k.ceil_log10 (w + (11 : Nat))) padfuel 0 ≠ none →
      dirs.card < fuel →
      Archive k t fuel padfuel dst_archive inpaths follow_symlinks false channel ≠ .stuck ∧
      ∀ r, Archive k t fuel padfuel dst_archive inpaths follow_symlinks false channel = .ret r →
        r.1.listed.Nodup) := by
  refine ⟨rfl, by decide, rfl, rfl, by decide, by decide, ?_, ?_⟩
  · intro k t padfuel fs ch fuel w inpath finfo r hstat hdir h
    exact ⟨fun hvis hok => walk_new_directory_descends k t padfuel fs ch fuel w inpath finfo
        hstat hdir hvis r h hok,
      fun hvis => walk_visited_directory k t padfuel fs ch fuel w inpath finfo hstat hdir hvis
        r h⟩
  · intro k t padfuel fs ch dirs fuel dst inpaths hdirs hpad hlog hfuel
    have h := archive_lists_each_directory_once k t padfuel fs ch dirs hdirs hpad hlog fuel
      hfuel dst inpaths
    exact ⟨h.1, h.2.1⟩

/-! ## Small bodies and the last check of the padder -/

theorem path_pad_exit (h : Header) (hn : h.Name.utf8ByteSize = 435) (hp : h.PAXRecords = []) :
    pad_tarheader path_kernel 3 h 6144 = .exit := by
  refine pad_tarheader_mismatch path_kernel 3 h 6144 2 4 (strings_Repeat "X" 4095)
    ⟨6144, fun _ => 0⟩
    (by rw [path_size_plain h hn hp])
    (by rw [path_size_filler h hn])
    (by decide)
    (by rw [path_size_filler h hn]; decide)
    (by rw [path_size_filler h hn]; decide)
    (by rw [path_size_filler h hn]; rfl)
    (by rw [path_size_padded h hn 4095 (by omega) (by omega)])
    (by rw [path_size_plain h hn hp]; decide)

/-- C9, on the code: `tarwrite` calls `pad_tarheader` before it compares the growth with
the size of the body, and `pad_tarheader` ends the process at its last check for a
header of 1536 bytes whose comment record needs a block of its own, at an offset 512
bytes before a page boundary (the defect of C15). For the file of one byte with the
435-byte name at the archive offset 6144, a multiple of 512, `tarwrite` therefore writes
nothing and ends the process, where the claim has a plain header and a `copy_range`.
Whenever `pad_tarheader` does return, the claim holds: a body smaller than the growth,
as that of every 1-byte file at a multiple of 512, is written with the plain header and
one `copy_file_range` and without a clone, as the 1-byte file at offset 0 is. -/
theorem tarwrite_small_body_exits_in_padder :
    tiny_deep.Typeflag = TypeReg ∧ tiny_deep.Size = 1 ∧
    four_records.pos % TAR_BLOCKSIZE = 0 ∧
    path_kernel.WriteHeader tiny_deep = ⟨⟨1536, fun _ => 0⟩, false⟩ ∧
    pad_tarheader path_kernel 3 tiny_deep four_records.pos = .exit ∧
    tarwrite path_kernel 3 four_records tiny_deep = .exit ∧
    (∃ w new, tarwrite sample_kernel 3 new_archive tiny = .ret w ∧ w.abort_err = none ∧
      w.was_cloned = false ∧ w.tarfile.calls = new_archive.calls ++ new ∧
      (∀ a b c, Syscall.ficlonerange a b c ∉ new) ∧
      ∃ rest, new = Syscall.write 0 (sample_kernel.WriteHeader tiny).bytes ::
          Syscall.copy_file_range 0 1536 1 :: rest) ∧
    (∀ (k : Kernel) (fuel : Nat) (tarfile : File) (header : Header) (p : Padded),
      header.Typeflag = TypeReg → header.Size ≠ 0 → (∀ n, k.tell_err n = none) →
      pad_tarheader k fuel header tarfile.pos = .ret p →
      ((header.Size : Int) < p.header_growth ∨
        (header.Size = 1 ∧ tarfile.pos % TAR_BLOCKSIZE = 0 ∧
          (k.WriteHeader header).bytes.size % TAR_BLOCKSIZE = 0)) →
      (header.Size : Int) < p.header_growth ∧
      ∃ w new, tarwrite k fuel tarfile header = .ret w ∧
        w.was_cloned = false ∧ w.tarfile.calls = tarfile.calls ++ new ∧
        (∀ a b c, Syscall.ficlonerange a b c ∉ new) ∧
        (w.abort_err = none → ∃ rest,
          new = (if (k.WriteHeader header).bytes.size = 0 then []
              else [Syscall.write tarfile.pos (k.WriteHeader header).bytes]) ++
            Syscall.copy_file_range 0 (tarfile.pos + (k.WriteHeader header).bytes.size)
              header.Size :: rest)) := by
  have hn : tiny_deep.Name.utf8ByteSize = 435 := deep_name_size
  have hp := path_pad_exit tiny_deep hn rfl
  refine ⟨rfl, rfl, by decide, path_size_plain tiny_deep hn rfl, hp, ?_,
    tarwrite_small_body_copied_witness.2, ?_⟩
  · exact tarwrite_exit_of_pad path_kernel 3 four_records tiny_deep sample_content rfl rfl
      (by decide) rfl hp
  · intro k fuel tarfile header p hreg hsz htell hpad hg
    exact tarwrite_small_body_copied k fuel tarfile header p hreg hsz htell hpad hg

end Deduptar
